import Mathlib

/-!
# rvc-ros-simulator: motion simulator, homing sequence and goal-reached detector

A shallow embedding of `src/rvc_ros_simulator_node.cpp`.

* The file-scope `static` variables of the node become the fields of `State`.
* Every callback / service handler becomes a function on `State`.
* A C++ `double` is a value of `F64`: NaN, one of the two infinities, or a finite value,
  given by the rational number it denotes.  Every arithmetic operation of the program
  (`+`, `-`, `*`, `/`) is the exact operation followed by `round`, IEEE-754 rounding to
  binary64 (53 significant bits, exponents from -1022 to 1023, subnormal numbers,
  round-to-nearest with ties to even, overflow to infinity), with the IEEE results for
  NaN, infinite operands and division by zero.  Comparisons are false on NaN.  Each
  operation is rounded on its own, as for a build that does not contract `a * b + c`.
* The two zeros are identified: they compare equal under every comparison of the program,
  every divisor in the program is a result of `fabs`, and no operation of the program
  produces a different non-zero result for one zero than for the other.
* The `float` payload of `velocity_scale` is passed as the `double` it converts to; the
  comparisons of `std::max` / `std::min` and the conversion are exact.
* `double` literals are the roundings of their decimal values (`lit_0_02`, `lit_0_2`,
  `lit_2_4`, `lit_1e307`); `speed` is the `int` expression `600 / 200 * 20 * 2`.
* The `static unsigned int s` of `publishPosition` is the field `seq`, with wrap-around
  at `2^32`.
* The blocking `while` loops of `home` are modelled with fuel: a loop that has not
  left its condition after `fuel` tests yields `none`.  `r.sleep()` and
  `ros::Duration(..).sleep()` only pass time and are not modelled.
* Publishing on a topic is modelled by returning the list of published messages.
-/

namespace RvcSim

/-- The two publishers `pub_setpoint` ("setpoint_js") and `pub_goal` ("goal_js"). -/
inductive Topic where
  | setpoint_js
  | goal_js
  deriving DecidableEq

/-- Response of `std_srvs::Trigger` and `std_srvs::SetBool`. -/
structure Response where
  success : Bool
  message : String
  deriving DecidableEq

/-! ## Binary64 arithmetic -/

/-- The values of an IEEE-754 binary64 `double`: NaN, the two infinities, and the finite
values, given by the rational they denote.  The two zeros are not distinguished: they
compare equal, and the program divides by results of `fabs` only. -/
inductive F64 where
  | nan
  | inf (neg : Bool)
  | fin (q : ℚ)
  deriving DecidableEq

/-- Round to the nearest integer, ties to the even one. -/
def rne (n : ℚ) : ℤ :=
  if n - ⌊n⌋ < 1 / 2 then ⌊n⌋
  else if 1 / 2 < n - ⌊n⌋ then ⌊n⌋ + 1
  else if ⌊n⌋ % 2 = 0 then ⌊n⌋ else ⌊n⌋ + 1

/-- Binary logarithm of a natural number by repeated halving, at most `fuel` times. -/
def log2Fuel : ℕ → ℕ → ℕ
  | 0, _ => 0
  | fuel + 1, n => if n < 2 then 0 else log2Fuel fuel (n / 2) + 1

/-- The number `k` with `2 ^ k ≤ n < 2 ^ (k + 1)`, for `n ≥ 1`. -/
def nlog2 (n : ℕ) : ℕ := log2Fuel n n

/-- The integer `e` with `2 ^ e ≤ a < 2 ^ (e + 1)`, for a rational `a > 0`. -/
def ilog2 (a : ℚ) : ℤ :=
  if (2 : ℚ) ^ ((nlog2 a.num.natAbs : ℤ) - (nlog2 a.den : ℤ)) ≤ a then
    (nlog2 a.num.natAbs : ℤ) - (nlog2 a.den : ℤ)
  else (nlog2 a.num.natAbs : ℤ) - (nlog2 a.den : ℤ) - 1

/-- The unit in the last place used for a magnitude `a > 0`: 53 significant bits, smallest
exponent `-1022` (subnormal numbers share the unit `2 ^ (-1074)`). -/
def ulp (a : ℚ) : ℚ := 2 ^ (max (ilog2 a) (-1022) - 52)

/-- The magnitude `a ≥ 0` rounded to a multiple of its unit, nearest, ties to even. -/
def roundMag (a : ℚ) : ℚ := rne (a / ulp a) * ulp a

/-- IEEE-754 rounding of a real (rational) result to binary64, round-to-nearest-even, with
overflow to infinity. -/
def round (q : ℚ) : F64 :=
  if q = 0 then F64.fin 0
  else if 2 ^ (1024 : ℕ) ≤ roundMag |q| then F64.inf (decide (q < 0))
  else F64.fin (if q < 0 then -roundMag |q| else roundMag |q|)

namespace F64

/-- Addition of doubles. -/
def add : F64 → F64 → F64
  | nan, _ => nan
  | _, nan => nan
  | inf a, inf b => if a = b then inf a else nan
  | inf a, fin _ => inf a
  | fin _, inf b => inf b
  | fin p, fin q => round (p + q)

/-- Subtraction of doubles. -/
def sub : F64 → F64 → F64
  | nan, _ => nan
  | _, nan => nan
  | inf a, inf b => if a = b then nan else inf a
  | inf a, fin _ => inf a
  | fin _, inf b => inf (!b)
  | fin p, fin q => round (p - q)

/-- Multiplication of doubles. -/
def mul : F64 → F64 → F64
  | nan, _ => nan
  | _, nan => nan
  | inf a, inf b => inf (xor a b)
  | inf a, fin q => if q = 0 then nan else inf (xor a (decide (q < 0)))
  | fin p, inf b => if p = 0 then nan else inf (xor (decide (p < 0)) b)
  | fin p, fin q => round (p * q)

/-- Division of doubles; a zero divisor is the positive zero. -/
def div : F64 → F64 → F64
  | nan, _ => nan
  | _, nan => nan
  | inf _, inf _ => nan
  | inf a, fin q => inf (xor a (decide (q < 0)))
  | fin _, inf _ => fin 0
  | fin p, fin q =>
    if q = 0 then (if p = 0 then nan else inf (decide (p < 0))) else round (p / q)

/-- The library function `fabs`. -/
def fabs : F64 → F64
  | nan => nan
  | inf _ => inf false
  | fin q => fin |q|

/-- The comparison `a < b`, false when an operand is NaN. -/
def lt : F64 → F64 → Bool
  | nan, _ => false
  | _, nan => false
  | inf a, inf b => a && !b
  | inf a, fin _ => a
  | fin _, inf b => !b
  | fin p, fin q => decide (p < q)

/-- The comparison `a <= b`, false when an operand is NaN. -/
def le : F64 → F64 → Bool
  | nan, _ => false
  | _, nan => false
  | inf a, inf b => a || !b
  | inf a, fin _ => a
  | fin _, inf b => !b
  | fin p, fin q => decide (p ≤ q)

/-- The comparison `a == b`, false when an operand is NaN. -/
def eq : F64 → F64 → Bool
  | nan, _ => false
  | _, nan => false
  | inf a, inf b => a == b
  | inf _, fin _ => false
  | fin _, inf _ => false
  | fin p, fin q => decide (p = q)

/-- The rational a finite double denotes (0 for NaN and the infinities). -/
def toRat : F64 → ℚ
  | fin q => q
  | _ => 0

/-- Holds of NaN only. -/
def isNaN : F64 → Bool
  | nan => true
  | _ => false

/-- A value a `double` variable can hold: NaN, an infinity, or a rational that binary64
represents exactly (rounding leaves it unchanged). -/
def isDouble : F64 → Bool
  | fin q => decide (round q = fin q)
  | _ => true

/-- A finite `double`. -/
def isFinite : F64 → Bool
  | fin q => decide (round q = fin q)
  | _ => false

end F64

/-! ## The node over binary64 -/

/-- The messages of type `sensor_msgs::JointState` built by `publishPosition`. -/
structure JointState where
  seq : Nat
  stamp : Nat
  frame_id : String
  name : List String
  position : List F64
  effort : List F64
  deriving DecidableEq

/-- The file-scope variables of the node (lines 24-31) and the sequence counter of
`publishPosition` (line 174), with `double` variables holding binary64 values. -/
structure State where
  x : F64
  y : F64
  x_col : F64
  y_col : F64
  x_goal : F64
  y_goal : F64
  x_bound : F64
  y_bound : F64
  led_on : Bool
  motors_on : Bool
  endeff_down : Bool
  v_scale : F64
  reported : Bool
  seq : Nat
  deriving DecidableEq

/-- Line 24: `static double speed = 600 / 200 * 20 * 2;`, an `int` expression converted
to `double`. -/
def speed : F64 := F64.fin ((600 / 200 * 20 * 2 : ℤ) : ℚ)

/-- The literal `0.02` (line 221): the double nearest to 2/100. -/
def lit_0_02 : F64 := round (2 / 100)

/-- The literal `0.2` (lines 81-103): the double nearest to 2/10. -/
def lit_0_2 : F64 := round (2 / 10)

/-- The literal `2.4` (lines 224, 226): the double nearest to 24/10. -/
def lit_2_4 : F64 := round (24 / 10)

/-- Static initialisation: every variable is zero-initialised except `reported = true`. -/
def staticInit : State :=
  { x := F64.fin 0, y := F64.fin 0, x_col := F64.fin 0, y_col := F64.fin 0,
    x_goal := F64.fin 0, y_goal := F64.fin 0, x_bound := F64.fin 0, y_bound := F64.fin 0,
    led_on := false, motors_on := false, endeff_down := false, v_scale := F64.fin 0,
    reported := true, seq := 0 }

/-- Lines 237-239 and 258: the assignments of `main` before it calls `home`. -/
def mainInit : State :=
  { staticInit with x_bound := F64.fin (-580), y_bound := F64.fin 300, v_scale := F64.fin 1,
                    motors_on := true }

/-- Lines 34-38: relative movement callback; `dx`, `dy` are `msg.position[0]` and
`msg.position[1]`. -/
def move (s : State) (dx dy : F64) : State :=
  { s with x_goal := F64.add s.x_goal dx, y_goal := F64.add s.y_goal dy, reported := false }

/-- Lines 42-46: absolute movement callback. -/
def move_to (s : State) (px py : F64) : State :=
  { s with x_goal := px, y_goal := py, reported := false }

/-- The function `std::max (a, b)`, which is `(a < b) ? b : a`. -/
def stdMax (a b : F64) : F64 := if F64.lt a b then b else a

/-- The function `std::min (a, b)`, which is `(b < a) ? b : a`. -/
def stdMin (a b : F64) : F64 := if F64.lt b a then b else a

/-- Lines 50-53: `scale = std::min(std::max(msg.data, 0.0f), 1.0f); v_scale = scale`.  The
argument is the `float` payload; every `float` value is a `double` value and the comparisons
and the conversion are exact. -/
def velocity_scale (s : State) (data : F64) : State :=
  { s with v_scale := stdMin (stdMax data (F64.fin 0)) (F64.fin 1) }

/-- Lines 57-62: halt service handler. -/
def halt (s : State) : State :=
  { s with x_goal := s.x, y_goal := s.y }

/-- Lines 66-72: tap service handler (the sleep between the two writes is not modelled). -/
def tap (s : State) : State :=
  let s1 := { s with endeff_down := true }
  { s1 with endeff_down := false }

/-- The step of a homing loop: `speed * v_scale * 0.2`. -/
def homeStep (s : State) : F64 := F64.mul (F64.mul speed s.v_scale) lit_0_2

/-- A C++ `while (cond) { body }` loop over the global state.  `fuel` bounds the number of
times the condition is tested; `none` means the loop is still running after `fuel` tests. -/
def whileLoop (cond : State → Bool) (body : State → State) : Nat → State → Option State
  | 0, _ => none
  | fuel + 1, s => if cond s then whileLoop cond body fuel (body s) else some s

/-- Lines 80-84: `while (x > x_bound) { x -= speed * v_scale * 0.2; } x = x_bound;`. -/
def sweep1 (fuel : Nat) (s : State) : Option State :=
  (whileLoop (fun t => F64.lt t.x_bound t.x) (fun t => { t with x := F64.sub t.x (homeStep t) })
    fuel s).map fun t => { t with x := t.x_bound }

/-- Lines 85-89: `while (x < 0) { x += speed * v_scale * 0.2; } x = 0;`. -/
def sweep2 (fuel : Nat) (s : State) : Option State :=
  (whileLoop (fun t => F64.lt t.x (F64.fin 0)) (fun t => { t with x := F64.add t.x (homeStep t) })
    fuel s).map fun t => { t with x := F64.fin 0 }

/-- Lines 91-95: `while (x > -80) { x -= speed * v_scale * 0.2; } x = -80;`. -/
def sweep3 (fuel : Nat) (s : State) : Option State :=
  (whileLoop (fun t => F64.lt (F64.fin (-80)) t.x)
    (fun t => { t with x := F64.sub t.x (homeStep t) })
    fuel s).map fun t => { t with x := F64.fin (-80) }

/-- Lines 97-101: `while (y < y_bound) { y += speed * v_scale * 0.2; } y = y_bound;`. -/
def sweep4 (fuel : Nat) (s : State) : Option State :=
  (whileLoop (fun t => F64.lt t.y t.y_bound) (fun t => { t with y := F64.add t.y (homeStep t) })
    fuel s).map fun t => { t with y := t.y_bound }

/-- Lines 102-106: `while (y > 0) { y -= speed * v_scale * 0.2; } y = 0;`. -/
def sweep5 (fuel : Nat) (s : State) : Option State :=
  (whileLoop (fun t => F64.lt (F64.fin 0) t.y) (fun t => { t with y := F64.sub t.y (homeStep t) })
    fuel s).map fun t => { t with y := F64.fin 0 }

/-- Lines 76-121: homing sequence service handler.  `fuel` bounds the number of
condition tests of each of the five loops; `none` means that a loop did not finish.
The handler's own return value is the constant `true`. -/
def home (fuel : Nat) (s : State) : Option (State × Response) :=
  if s.motors_on then
    (sweep1 fuel s).bind fun s1 =>
    (sweep2 fuel s1).bind fun s2 =>
    (sweep3 fuel s2).bind fun s3 =>
    (sweep4 fuel s3).bind fun s4 =>
    (sweep5 fuel s4).bind fun s5 =>
    some ({ s5 with x_goal := F64.fin 0, y_goal := F64.fin 0, reported := false },
          { success := true, message := "Successfully homed." })
  else
    some (s, { success := false, message := "Failed to home." })

/-- Lines 177-194: the message assembled by `publishPosition`; `now` is `ros::Time::now()`. -/
def positionMsg (s : State) (now : Nat) : JointState :=
  { seq := s.seq, stamp := now, frame_id := "rvc", name := ["x", "y"],
    position := [s.x, s.y], effort := [s.x_col, s.y_col] }

/-- The test of line 199 without the flag: `x_goal == x && y_goal == y`. -/
def atGoal (s : State) : Bool := F64.eq s.x_goal s.x && F64.eq s.y_goal s.y

/-- Lines 173-205: position publisher timer event.  Returns the new state and the
messages published, in order. -/
def publishPosition (s : State) (now : Nat) : State × List (Topic × JointState) :=
  let msg := positionMsg s now
  if F64.eq s.x_goal s.x && F64.eq s.y_goal s.y && !s.reported then
    ({ s with reported := true, seq := (s.seq + 1) % 2 ^ 32 },
      [(Topic.setpoint_js, msg), (Topic.goal_js, msg)])
  else
    ({ s with seq := (s.seq + 1) % 2 ^ 32 }, [(Topic.setpoint_js, msg)])

/-- Lines 209-219: the velocity `(x_vel, y_vel)` chosen by `simulateMotors`. -/
def velocity (s : State) : F64 × F64 :=
  if F64.eq (F64.sub s.y_goal s.y) (F64.fin 0) && F64.eq (F64.sub s.x_goal s.x) (F64.fin 0) then
    (F64.fin 0, F64.fin 0)
  else if F64.lt (F64.fabs (F64.sub s.x_goal s.x)) (F64.fabs (F64.sub s.y_goal s.y)) then
    (F64.mul (F64.mul (F64.div (F64.sub s.x_goal s.x) (F64.fabs (F64.sub s.y_goal s.y))) speed)
        s.v_scale,
     F64.div (F64.mul (F64.mul speed s.v_scale) (F64.sub s.y_goal s.y))
        (F64.fabs (F64.sub s.y_goal s.y)))
  else
    (F64.div (F64.mul (F64.mul speed s.v_scale) (F64.sub s.x_goal s.x))
        (F64.fabs (F64.sub s.x_goal s.x)),
     F64.mul (F64.mul (F64.div (F64.sub s.y_goal s.y) (F64.fabs (F64.sub s.x_goal s.x))) speed)
        s.v_scale)

/-- Lines 208-229: motor simulation timer event. -/
def simulateMotors (s : State) : State :=
  let v := velocity s
  let s1 := { s with x := F64.add s.x (F64.mul v.1 lit_0_02) }
  let s2 := { s1 with y := F64.add s1.y (F64.mul v.2 lit_0_02) }
  let s3 := if F64.le (F64.fabs (F64.sub s2.x_goal s2.x)) lit_2_4 then { s2 with x := s2.x_goal }
    else s2
  if F64.le (F64.fabs (F64.sub s3.y_goal s3.y)) lit_2_4 then { s3 with y := s3.y_goal } else s3

/-- The start of the specification's example scenario: `Position = Goal = (-200, 150)`
and `VelocityScale = 1` (bounds and flags as `main` leaves them, detector already fired). -/
def scenario : State :=
  { mainInit with x := F64.fin (-200), y := F64.fin 150, x_goal := F64.fin (-200),
                  y_goal := F64.fin 150 }

/-- Lines 125-137: end effector state set service handler. -/
def set_endeff (s : State) (data : Bool) : State × Response :=
  if data then
    ({ s with endeff_down := true }, { success := true, message := "End Effector Pressed" })
  else
    ({ s with endeff_down := false }, { success := true, message := "End Effector Released" })

/-- Lines 141-153: LED state set service handler. -/
def set_led (s : State) (data : Bool) : State × Response :=
  if data then
    ({ s with led_on := true }, { success := true, message := "LED Lit" })
  else
    ({ s with led_on := false }, { success := true, message := "LED Off" })

/-- Lines 157-169: motor state set service handler. -/
def set_motors (s : State) (data : Bool) : State × Response :=
  if data then
    ({ s with motors_on := true }, { success := true, message := "Motors Enabled" })
  else
    ({ s with motors_on := false }, { success := true, message := "Motors Disabled" })

/-- The divisors of the divisions that lines 210-219 evaluate in the branch taken, in
order of evaluation. -/
def divisors (s : State) : List F64 :=
  if F64.eq (F64.sub s.y_goal s.y) (F64.fin 0) && F64.eq (F64.sub s.x_goal s.x) (F64.fin 0) then
    []
  else if F64.lt (F64.fabs (F64.sub s.x_goal s.x)) (F64.fabs (F64.sub s.y_goal s.y)) then
    [F64.fabs (F64.sub s.y_goal s.y), F64.fabs (F64.sub s.y_goal s.y)]
  else
    [F64.fabs (F64.sub s.x_goal s.x), F64.fabs (F64.sub s.x_goal s.x)]

/-- The two timers created by `main` (lines 273-274); `publish now` carries the value
that `ros::Time::now()` returns during that callback. -/
inductive TimerEvent where
  | simulate
  | publish (now : Nat)
  deriving DecidableEq

/-- One timer callback: the new state and the messages it publishes. -/
def fire (s : State) : TimerEvent → State × List (Topic × JointState)
  | TimerEvent.simulate => (simulateMotors s, [])
  | TimerEvent.publish now => publishPosition s now

/-- A sequence of timer callbacks with no command in between: the final state and all
messages published, in order. -/
def runTimers : State → List TimerEvent → State × List (Topic × JointState)
  | s, [] => (s, [])
  | s, e :: es => ((runTimers (fire s e).1 es).1, (fire s e).2 ++ (runTimers (fire s e).1 es).2)

/-- The messages published on "goal_js" among a list of published messages. -/
def goalEvents (out : List (Topic × JointState)) : List JointState :=
  (out.filter fun m => decide (m.1 = Topic.goal_js)).map fun m => m.2

/-- Everything `main` registers with ROS (lines 273-288): the two timers, the three
subscribers and the six services. -/
inductive Command where
  | move (dx dy : F64)
  | move_to (px py : F64)
  | velocity_scale (data : F64)
  | halt
  | tap
  | home (fuel : Nat)
  | set_endeff (data : Bool)
  | set_led (data : Bool)
  | set_motors (data : Bool)
  | simulateMotors
  | publishPosition (now : Nat)

/-- The state after one callback; `none` when `home` does not return within its fuel. -/
def exec (s : State) : Command → Option State
  | Command.move dx dy => some (move s dx dy)
  | Command.move_to px py => some (move_to s px py)
  | Command.velocity_scale data => some (velocity_scale s data)
  | Command.halt => some (halt s)
  | Command.tap => some (tap s)
  | Command.home fuel => (home fuel s).map fun r => r.1
  | Command.set_endeff data => some (set_endeff s data).1
  | Command.set_led data => some (set_led s data).1
  | Command.set_motors data => some (set_motors s data).1
  | Command.simulateMotors => some (simulateMotors s)
  | Command.publishPosition now => some (publishPosition s now).1

/-- The states the node reaches when no `velocity_scale` message carries NaN.  `mainInit`
is the state in which `main` calls `home` (line 261); once that call has returned the
state only changes by callbacks.  The relation also admits callbacks before the first
`home`, which only enlarges the set. -/
inductive ReachableNoNaN : State → Prop where
  | start : ReachableNoNaN mainInit
  | step (s t : State) (c : Command) : ReachableNoNaN s →
      (∀ d, c = Command.velocity_scale d → d ≠ F64.nan) → exec s c = some t → ReachableNoNaN t

/-! ## Instrumented copies and example states -/

/-- A division that reports a zero divisor instead of evaluating. -/
def checkedDiv (a b : F64) : Option F64 :=
  if F64.eq b (F64.fin 0) then none else some (F64.div a b)

/-- Lines 209-219 with every division checked: `none` when a division by zero is
evaluated, the velocity otherwise. -/
def velocityChecked (s : State) : Option (F64 × F64) :=
  if F64.eq (F64.sub s.y_goal s.y) (F64.fin 0) && F64.eq (F64.sub s.x_goal s.x) (F64.fin 0) then
    some (F64.fin 0, F64.fin 0)
  else if F64.lt (F64.fabs (F64.sub s.x_goal s.x)) (F64.fabs (F64.sub s.y_goal s.y)) then
    (checkedDiv (F64.mul (F64.mul speed s.v_scale) (F64.sub s.y_goal s.y))
        (F64.fabs (F64.sub s.y_goal s.y))).bind fun yv =>
    (checkedDiv (F64.sub s.x_goal s.x) (F64.fabs (F64.sub s.y_goal s.y))).bind fun q =>
    some (F64.mul (F64.mul q speed) s.v_scale, yv)
  else
    (checkedDiv (F64.mul (F64.mul speed s.v_scale) (F64.sub s.x_goal s.x))
        (F64.fabs (F64.sub s.x_goal s.x))).bind fun xv =>
    (checkedDiv (F64.sub s.y_goal s.y) (F64.fabs (F64.sub s.x_goal s.x))).bind fun q =>
    some (xv, F64.mul (F64.mul q speed) s.v_scale)

/-- The `double` literal `1e307`. -/
def lit_1e307 : F64 := round (10 ^ 307)

/-- A state with an infinite coordinate: one tick after `move_to (1e307, 0)` from the
start-up state. -/
def infState : State := simulateMotors (move_to mainInit lit_1e307 (F64.fin 0))

/-- A state with a NaN coordinate: two ticks after `move_to (0, 1e307)` from the start-up
state. -/
def nanState : State := simulateMotors^[2] (move_to mainInit (F64.fin 0) lit_1e307)

/-- The smallest double above the double `2.4` (2.4000000000000004). -/
def snapUp : ℚ := 1351079888211149 / 562949953421312

/-! ## Rounding -/

/-! ## Rounding to binary64 is monotone -/

theorem log2Fuel_spec (fuel : ℕ) : ∀ n : ℕ, 1 ≤ n → n ≤ fuel →
    2 ^ log2Fuel fuel n ≤ n ∧ n < 2 ^ (log2Fuel fuel n + 1) := by
  induction fuel with
  | zero => intro n h1 h2; omega
  | succ f ih =>
    intro n h1 h2
    by_cases hn : n < 2
    · have e : n = 1 := by omega
      subst e
      simp [log2Fuel]
    · have hlog : log2Fuel (f + 1) n = log2Fuel f (n / 2) + 1 := by simp [log2Fuel, hn]
      obtain ⟨a, b⟩ := ih (n / 2) (by omega) (by omega)
      rw [hlog]
      have p1 : 2 ^ (log2Fuel f (n / 2) + 1) = 2 * 2 ^ log2Fuel f (n / 2) := by ring
      have p2 : 2 ^ (log2Fuel f (n / 2) + 1 + 1) = 2 * 2 ^ (log2Fuel f (n / 2) + 1) := by ring
      rw [p2]
      rw [p1] at b ⊢
      constructor <;> omega

theorem nlog2_spec (n : ℕ) (h : 1 ≤ n) : 2 ^ nlog2 n ≤ n ∧ n < 2 ^ (nlog2 n + 1) :=
  log2Fuel_spec n n h (le_refl n)

theorem two_zpow_pos (e : ℤ) : (0 : ℚ) < 2 ^ e := zpow_pos (by norm_num) e

theorem frac_lt_zpow (N D kN kD : ℕ) (hD : 0 < D) (n2 : N < 2 ^ (kN + 1)) (d1 : 2 ^ kD ≤ D) :
    (N : ℚ) / D < 2 ^ ((kN : ℤ) - (kD : ℤ) + 1) := by
  have hdq : (0 : ℚ) < D := by exact_mod_cast hD
  have qn2 : (N : ℚ) < 2 ^ (kN + 1) := by exact_mod_cast n2
  have qd1 : (2 : ℚ) ^ kD ≤ D := by exact_mod_cast d1
  have e : (2 : ℚ) ^ ((kN : ℤ) - (kD : ℤ) + 1) = 2 ^ (kN + 1) / 2 ^ kD := by
    rw [show ((kN : ℤ) - (kD : ℤ) + 1) = ((kN + 1 : ℕ) : ℤ) - ((kD : ℕ) : ℤ) by push_cast; ring]
    rw [zpow_sub₀ (by norm_num), zpow_natCast, zpow_natCast]
  rw [e, div_lt_div_iff₀ hdq (by positivity)]
  calc (N : ℚ) * 2 ^ kD < 2 ^ (kN + 1) * 2 ^ kD :=
        mul_lt_mul_of_pos_right qn2 (by positivity)
    _ ≤ 2 ^ (kN + 1) * D := mul_le_mul_of_nonneg_left qd1 (by positivity)

theorem zpow_le_frac (N D kN kD : ℕ) (hD : 0 < D) (n1 : 2 ^ kN ≤ N) (d2 : D < 2 ^ (kD + 1)) :
    (2 : ℚ) ^ ((kN : ℤ) - (kD : ℤ) - 1) ≤ (N : ℚ) / D := by
  have hdq : (0 : ℚ) < D := by exact_mod_cast hD
  have qn1 : (2 : ℚ) ^ kN ≤ N := by exact_mod_cast n1
  have qd2 : (D : ℚ) < 2 ^ (kD + 1) := by exact_mod_cast d2
  have e : (2 : ℚ) ^ ((kN : ℤ) - (kD : ℤ) - 1) = 2 ^ kN / 2 ^ (kD + 1) := by
    rw [show ((kN : ℤ) - (kD : ℤ) - 1) = ((kN : ℕ) : ℤ) - ((kD + 1 : ℕ) : ℤ) by push_cast; ring]
    rw [zpow_sub₀ (by norm_num), zpow_natCast, zpow_natCast]
  rw [e, div_le_div_iff₀ (by positivity) hdq]
  calc (2 : ℚ) ^ kN * D ≤ N * D := mul_le_mul_of_nonneg_right qn1 (le_of_lt hdq)
    _ ≤ N * 2 ^ (kD + 1) := mul_le_mul_of_nonneg_left (le_of_lt qd2) (by positivity)

/-- The exponent chosen for a positive rational brackets it between two powers of two. -/
theorem ilog2_spec (a : ℚ) (ha : 0 < a) :
    (2 : ℚ) ^ ilog2 a ≤ a ∧ a < 2 ^ (ilog2 a + 1) := by
  have hnum : 0 < a.num := Rat.num_pos.mpr ha
  have hn1 : 1 ≤ a.num.natAbs := Int.natAbs_pos.mpr (ne_of_gt hnum)
  obtain ⟨n1, n2⟩ := nlog2_spec a.num.natAbs hn1
  obtain ⟨d1, d2⟩ := nlog2_spec a.den a.den_pos
  have ha_eq : (a.num.natAbs : ℚ) / a.den = a := by
    have h2 : ((a.num.natAbs : ℕ) : ℚ) = a.num := by
      rw [Nat.cast_natAbs, abs_of_pos hnum]
    rw [h2]
    exact Rat.num_div_den a
  have up := frac_lt_zpow a.num.natAbs a.den _ _ a.den_pos n2 d1
  have low := zpow_le_frac a.num.natAbs a.den _ _ a.den_pos n1 d2
  rw [ha_eq] at up low
  unfold ilog2
  split_ifs with h
  · exact ⟨h, up⟩
  · refine ⟨low, ?_⟩
    rw [sub_add_cancel]
    exact not_le.mp h

theorem ilog2_mono (a b : ℚ) (ha : 0 < a) (hab : a ≤ b) : ilog2 a ≤ ilog2 b := by
  obtain ⟨a1, _⟩ := ilog2_spec a ha
  obtain ⟨_, b2⟩ := ilog2_spec b (lt_of_lt_of_le ha hab)
  have h : (2 : ℚ) ^ ilog2 a < 2 ^ (ilog2 b + 1) := lt_of_le_of_lt (le_trans a1 hab) b2
  have := (zpow_lt_zpow_iff_right₀ (by norm_num : (1 : ℚ) < 2)).mp h
  omega

theorem rne_bounds (n : ℚ) : ⌊n⌋ ≤ rne n ∧ rne n ≤ ⌊n⌋ + 1 := by
  unfold rne
  split_ifs <;> constructor <;> omega

theorem rne_intCast (k : ℤ) : rne (k : ℚ) = k := by
  unfold rne
  rw [Int.floor_intCast, sub_self, if_pos (by norm_num)]

theorem rne_mono (a b : ℚ) (hab : a ≤ b) : rne a ≤ rne b := by
  have hf : ⌊a⌋ ≤ ⌊b⌋ := Int.floor_mono hab
  rcases lt_or_eq_of_le hf with hlt | heq
  · have h1 := (rne_bounds a).2
    have h2 := (rne_bounds b).1
    omega
  · have hfr : a - ⌊a⌋ ≤ b - ⌊b⌋ := by
      rw [heq]
      linarith
    unfold rne
    rw [heq]
    rw [heq] at hfr
    split_ifs <;> first | omega | (exfalso; linarith)

theorem ulp_pos (a : ℚ) : 0 < ulp a := two_zpow_pos _

theorem roundMag_nonneg (a : ℚ) (ha : 0 ≤ a) : 0 ≤ roundMag a := by
  unfold roundMag
  have h0 : (0 : ℚ) ≤ a / ulp a := div_nonneg ha (le_of_lt (ulp_pos a))
  have h1 : rne ((0 : ℤ) : ℚ) ≤ rne (a / ulp a) := rne_mono _ _ (by simpa using h0)
  rw [rne_intCast] at h1
  exact mul_nonneg (by exact_mod_cast h1) (le_of_lt (ulp_pos a))

/-- Rounding a magnitude in the binade of exponent `E` stays within the closed binade. -/
theorem roundMag_binade (a : ℚ) (ha : 0 < a) :
    roundMag a ≤ 2 ^ (max (ilog2 a) (-1022) + 1) ∧
    (-1022 ≤ ilog2 a → 2 ^ (max (ilog2 a) (-1022)) ≤ roundMag a) := by
  obtain ⟨lo, hi⟩ := ilog2_spec a ha
  have hu : 0 < ulp a := ulp_pos a
  have two_ne : (2 : ℚ) ≠ 0 := by norm_num
  have hE1 : (2 : ℚ) ^ (max (ilog2 a) (-1022) + 1) = (2 ^ 53 : ℤ) * ulp a := by
    unfold ulp
    rw [show max (ilog2 a) (-1022) + 1 = (53 : ℤ) + (max (ilog2 a) (-1022) - 52) by ring,
      zpow_add₀ two_ne]
    norm_num
  have hE0 : (2 : ℚ) ^ (max (ilog2 a) (-1022)) = (2 ^ 52 : ℤ) * ulp a := by
    unfold ulp
    rw [show max (ilog2 a) (-1022) = (52 : ℤ) + (max (ilog2 a) (-1022) - 52) by ring,
      zpow_add₀ two_ne]
    norm_num
  constructor
  · have hle : a ≤ 2 ^ (max (ilog2 a) (-1022) + 1) :=
      le_trans (le_of_lt hi) (zpow_le_zpow_right₀ (by norm_num) (by omega))
    rw [hE1] at hle ⊢
    have h1 : a / ulp a ≤ ((2 ^ 53 : ℤ) : ℚ) := (div_le_iff₀ hu).mpr hle
    have h2 := rne_mono _ _ h1
    rw [rne_intCast] at h2
    unfold roundMag
    exact mul_le_mul_of_nonneg_right (by exact_mod_cast h2) (le_of_lt hu)
  · intro hn
    have hmax : max (ilog2 a) (-1022) = ilog2 a := max_eq_left hn
    have hge : (2 : ℚ) ^ (max (ilog2 a) (-1022)) ≤ a := by rw [hmax]; exact lo
    rw [hE0] at hge ⊢
    have h1 : ((2 ^ 52 : ℤ) : ℚ) ≤ a / ulp a := (le_div_iff₀ hu).mpr hge
    have h2 := rne_mono _ _ h1
    rw [rne_intCast] at h2
    unfold roundMag
    exact mul_le_mul_of_nonneg_right (by exact_mod_cast h2) (le_of_lt hu)

/-- Rounding of magnitudes is monotone. -/
theorem roundMag_mono (a b : ℚ) (ha : 0 < a) (hab : a ≤ b) : roundMag a ≤ roundMag b := by
  have hb : 0 < b := lt_of_lt_of_le ha hab
  have hlog := ilog2_mono a b ha hab
  rcases lt_or_eq_of_le (max_le_max hlog (le_refl (-1022 : ℤ))) with hlt | heq
  · have hbn : -1022 ≤ ilog2 b := by
      by_contra hc
      have : max (ilog2 b) (-1022) = -1022 := max_eq_right (by omega)
      have h2 : (-1022 : ℤ) ≤ max (ilog2 a) (-1022) := le_max_right _ _
      omega
    have h1 := (roundMag_binade a ha).1
    have h2 := (roundMag_binade b hb).2 hbn
    have h3 : (2 : ℚ) ^ (max (ilog2 a) (-1022) + 1) ≤ 2 ^ (max (ilog2 b) (-1022)) :=
      zpow_le_zpow_right₀ (by norm_num) (by omega)
    exact le_trans h1 (le_trans h3 h2)
  · have hu : ulp a = ulp b := by
      unfold ulp
      rw [heq]
    unfold roundMag
    rw [hu]
    have h1 : a / ulp b ≤ b / ulp b := div_le_div_of_nonneg_right hab (le_of_lt (ulp_pos b))
    have h2 := rne_mono _ _ h1
    exact mul_le_mul_of_nonneg_right (by exact_mod_cast h2) (le_of_lt (ulp_pos b))

theorem round_zero : round 0 = F64.fin 0 := by
  unfold round
  rw [if_pos rfl]

theorem round_of_pos (q : ℚ) (hq : 0 < q) :
    round q = if 2 ^ (1024 : ℕ) ≤ roundMag q then F64.inf false else F64.fin (roundMag q) := by
  unfold round
  rw [if_neg (ne_of_gt hq), abs_of_pos hq]
  have hn : ¬ q < 0 := not_lt.mpr (le_of_lt hq)
  simp only [hn, decide_False, if_false]

theorem round_of_neg (q : ℚ) (hq : q < 0) :
    round q = if 2 ^ (1024 : ℕ) ≤ roundMag (-q) then F64.inf true
      else F64.fin (-roundMag (-q)) := by
  unfold round
  rw [if_neg (ne_of_lt hq), abs_of_neg hq]
  simp only [hq, decide_True, if_true]

theorem round_ne_nan (q : ℚ) : round q ≠ F64.nan := by
  unfold round
  split_ifs <;> simp

/-- A non-negative real rounds to a non-negative double. -/
theorem round_nonneg (q : ℚ) (hq : 0 ≤ q) : F64.le (F64.fin 0) (round q) = true := by
  rcases eq_or_lt_of_le hq with h | h
  · rw [← h, round_zero]
    simp [F64.le]
  · rw [round_of_pos q h]
    split_ifs
    · rfl
    · simp only [F64.le, decide_eq_true_eq]
      exact roundMag_nonneg q hq

/-- A non-positive real rounds to a non-positive double. -/
theorem round_nonpos (q : ℚ) (hq : q ≤ 0) : F64.le (round q) (F64.fin 0) = true := by
  rcases eq_or_lt_of_le hq with h | h
  · rw [h, round_zero]
    simp [F64.le]
  · rw [round_of_neg q h]
    split_ifs
    · rfl
    · simp only [F64.le, decide_eq_true_eq]
      have := roundMag_nonneg (-q) (by linarith)
      linarith

theorem F64.le_chain (a b c : F64) (hab : F64.le a b = true) (hbc : F64.le b c = true) :
    F64.le a c = true := by
  cases a with
  | nan => simp [F64.le] at hab
  | inf x =>
    cases b with
    | nan => simp [F64.le] at hab
    | inf y =>
      cases c with
      | nan => simp [F64.le] at hbc
      | inf z => cases x <;> cases y <;> cases z <;> simp_all [F64.le]
      | fin r => cases x <;> cases y <;> simp_all [F64.le]
    | fin q =>
      cases c with
      | nan => simp [F64.le] at hbc
      | inf z => cases x <;> cases z <;> simp_all [F64.le]
      | fin r => cases x <;> simp_all [F64.le]
  | fin p =>
    cases b with
    | nan => simp [F64.le] at hab
    | inf y =>
      cases c with
      | nan => simp [F64.le] at hbc
      | inf z => cases y <;> cases z <;> simp_all [F64.le]
      | fin r => cases y <;> simp_all [F64.le]
    | fin q =>
      cases c with
      | nan => simp [F64.le] at hbc
      | inf z => cases z <;> simp_all [F64.le]
      | fin r =>
        simp only [F64.le, decide_eq_true_eq] at hab hbc ⊢
        exact le_trans hab hbc

/-- Rounding to binary64 is monotone. -/
theorem round_mono (p q : ℚ) (hpq : p ≤ q) : F64.le (round p) (round q) = true := by
  rcases lt_trichotomy q 0 with hq | hq | hq
  · -- both negative
    have hp : p < 0 := lt_of_le_of_lt hpq hq
    have hm := roundMag_mono (-q) (-p) (by linarith) (by linarith)
    rw [round_of_neg p hp, round_of_neg q hq]
    by_cases h1 : (2 : ℚ) ^ (1024 : ℕ) ≤ roundMag (-p)
    · rw [if_pos h1]
      split_ifs <;> rfl
    · rw [if_neg h1, if_neg (fun h2 => h1 (le_trans h2 hm))]
      simp only [F64.le, decide_eq_true_eq]
      linarith
  · rw [hq] at hpq ⊢
    rw [round_zero]
    exact round_nonpos p hpq
  · rcases lt_or_le 0 p with hp | hp
    · have hm := roundMag_mono p q hp hpq
      rw [round_of_pos p hp, round_of_pos q hq]
      by_cases h1 : (2 : ℚ) ^ (1024 : ℕ) ≤ roundMag q
      · rw [if_pos h1]
        split_ifs <;> rfl
      · rw [if_neg h1, if_neg (fun h2 => h1 (le_trans h2 hm))]
        simp only [F64.le, decide_eq_true_eq]
        exact hm
    · exact F64.le_chain _ _ _ (round_nonpos p hp) (round_nonneg q (le_of_lt hq))

/-- Rounding commutes with the absolute value. -/
theorem fabs_round (q : ℚ) : F64.fabs (round q) = round |q| := by
  rcases lt_trichotomy q 0 with hq | hq | hq
  · rw [abs_of_neg hq, round_of_neg q hq, round_of_pos (-q) (by linarith)]
    split_ifs
    · rfl
    · simp only [F64.fabs, abs_neg]
      rw [abs_of_nonneg (roundMag_nonneg (-q) (by linarith))]
  · rw [hq, abs_zero, round_zero]
    simp [F64.fabs]
  · rw [abs_of_pos hq, round_of_pos q hq]
    split_ifs
    · rfl
    · simp only [F64.fabs]
      rw [abs_of_nonneg (roundMag_nonneg q (le_of_lt hq))]

/-! ## The motion simulator over binary64 -/

theorem isFinite_iff (a : F64) : a.isFinite = true ↔ ∃ p : ℚ, a = F64.fin p ∧ round p = F64.fin p := by
  cases a with
  | nan => simp [F64.isFinite]
  | inf b => simp [F64.isFinite]
  | fin q => simp [F64.isFinite]

theorem eq_fin_iff (a : F64) (p : ℚ) : F64.eq a (F64.fin p) = true ↔ a = F64.fin p := by
  cases a with
  | nan => simp [F64.eq]
  | inf b => simp [F64.eq]
  | fin q => simp [F64.eq]

theorem lit_0_02_eq : lit_0_02 = F64.fin (5764607523034235 / 288230376151711744) := by decide!

theorem lit_2_4_eq : lit_2_4 = F64.fin (5404319552844595 / 2251799813685248) := by decide!

theorem lit_0_2_eq : lit_0_2 = F64.fin (3602879701896397 / 18014398509481984) := by decide!

theorem tick_x (s : State) :
    (simulateMotors s).x =
      if F64.le (F64.fabs (F64.sub s.x_goal (F64.add s.x (F64.mul (velocity s).1 lit_0_02))))
          lit_2_4 then s.x_goal
      else F64.add s.x (F64.mul (velocity s).1 lit_0_02) := by
  simp only [simulateMotors]
  split_ifs <;> rfl

theorem tick_y (s : State) :
    (simulateMotors s).y =
      if F64.le (F64.fabs (F64.sub s.y_goal (F64.add s.y (F64.mul (velocity s).2 lit_0_02))))
          lit_2_4 then s.y_goal
      else F64.add s.y (F64.mul (velocity s).2 lit_0_02) := by
  simp only [simulateMotors]
  split_ifs <;> rfl

theorem tick_frame (s : State) :
    simulateMotors s = { s with x := (simulateMotors s).x, y := (simulateMotors s).y } := by
  simp only [simulateMotors]
  split_ifs <;> rfl

/-- Integrating a zero velocity leaves a finite coordinate where it is. -/
theorem add_zero_step (p : ℚ) (hp : round p = F64.fin p) :
    F64.add (F64.fin p) (F64.mul (F64.fin 0) lit_0_02) = F64.fin p := by
  rw [lit_0_02_eq]
  simp only [F64.mul, F64.add, zero_mul, round_zero, add_zero, hp]

/-- At a finite goal a tick changes nothing at all. -/
theorem tick_fixed (s : State) (hx : s.x.isFinite = true) (hy : s.y.isFinite = true)
    (hg : atGoal s = true) : simulateMotors s = s := by
  obtain ⟨p, hxp, hp⟩ := (isFinite_iff _).mp hx
  obtain ⟨q, hyq, hq⟩ := (isFinite_iff _).mp hy
  unfold atGoal at hg
  rw [Bool.and_eq_true, hxp, hyq, eq_fin_iff, eq_fin_iff] at hg
  obtain ⟨hgx, hgy⟩ := hg
  have hv : velocity s = (F64.fin 0, F64.fin 0) := by
    unfold velocity
    rw [hgx, hgy, hxp, hyq]
    simp [F64.sub, round_zero, F64.eq]
  have ex : (simulateMotors s).x = s.x := by
    rw [tick_x, hv, hxp, hgx, add_zero_step p hp]
    split_ifs <;> rfl
  have ey : (simulateMotors s).y = s.y := by
    rw [tick_y, hv, hyq, hgy, add_zero_step q hq]
    split_ifs <;> rfl
  rw [tick_frame, ex, ey]

theorem iterate_of_fixed (s : State) (h : simulateMotors s = s) (n : ℕ) :
    simulateMotors^[n] s = s := by
  induction n with
  | zero => rfl
  | succ n ih => rw [Function.iterate_succ_apply, h, ih]

/-- The example scenario after `move_to (-300, 150)` and ten ticks: x is the double
-224.00000000000006. -/
theorem scenario_tick10 :
    simulateMotors^[10] (move_to scenario (F64.fin (-300)) (F64.fin 150))
      = { move_to scenario (F64.fin (-300)) (F64.fin 150) with
          x := F64.fin (-3940649673949185 / 17592186044416) } := by
  decide!

/-- The example scenario after `move_to (-300, 150)` and 40 ticks: x is the double
-295.9999999999998. -/
theorem scenario_tick40 :
    simulateMotors^[40] (move_to scenario (F64.fin (-300)) (F64.fin 150))
      = { move_to scenario (F64.fin (-300)) (F64.fin 150) with
          x := F64.fin (-1301821767286783 / 4398046511104) } := by
  decide!

/-- The example scenario after `move_to (-300, 150)` and 41 ticks: x is exactly -300. -/
theorem scenario_tick41 :
    simulateMotors^[41] (move_to scenario (F64.fin (-300)) (F64.fin 150))
      = { move_to scenario (F64.fin (-300)) (F64.fin 150) with x := F64.fin (-300) } := by
  rw [Function.iterate_succ_apply', scenario_tick40]
  decide!

/-! ## The homing sequence over binary64 -/

/-- Whatever a loop returns satisfies every invariant of its body. -/
theorem loop_invariant (cond : State → Bool) (body : State → State) (I : State → Prop)
    (hbody : ∀ t, I t → I (body t)) :
    ∀ (fuel : ℕ) (s t : State), I s → whileLoop cond body fuel s = some t → I t := by
  intro fuel
  induction fuel with
  | zero => intro s t _ h; simp [whileLoop] at h
  | succ f ih =>
    intro s t hI h
    cases hc : cond s with
    | false =>
      simp [whileLoop, hc] at h
      rw [← h]
      exact hI
    | true =>
      simp [whileLoop, hc] at h
      exact ih (body s) t (hbody s hI) h

/-- A loop whose condition is kept true by its body never returns. -/
theorem loop_diverges (cond : State → Bool) (body : State → State) (I : State → Prop)
    (hbody : ∀ t, I t → cond t = true ∧ I (body t)) :
    ∀ (fuel : ℕ) (s : State), I s → whileLoop cond body fuel s = none := by
  intro fuel
  induction fuel with
  | zero => intro s _; rfl
  | succ f ih =>
    intro s hI
    obtain ⟨hc, hI2⟩ := hbody s hI
    simp [whileLoop, hc, ih (body s) hI2]

/-- A loop that has returned returns the same state with more fuel. -/
theorem loop_mono (cond : State → Bool) (body : State → State) :
    ∀ (fuel fuel2 : ℕ) (s t : State), fuel ≤ fuel2 → whileLoop cond body fuel s = some t →
      whileLoop cond body fuel2 s = some t := by
  intro fuel
  induction fuel with
  | zero => intro fuel2 s t _ h; simp [whileLoop] at h
  | succ f ih =>
    intro fuel2 s t hle h
    obtain ⟨g, rfl⟩ : ∃ g, fuel2 = g + 1 := ⟨fuel2 - 1, by omega⟩
    cases hc : cond s with
    | false =>
      simp [whileLoop, hc] at h ⊢
      exact h
    | true =>
      simp [whileLoop, hc] at h ⊢
      exact ih g (body s) t (by omega) h

theorem sweep1_end (fuel : ℕ) (s t : State) (h : sweep1 fuel s = some t) :
    t = { s with x := s.x_bound } := by
  unfold sweep1 at h
  rw [Option.map_eq_some'] at h
  obtain ⟨u, hu, rfl⟩ := h
  obtain ⟨q, rfl⟩ := loop_invariant _ _ (fun u => ∃ q : F64, u = { s with x := q })
    (fun u hI => by obtain ⟨q, rfl⟩ := hI; exact ⟨_, rfl⟩) fuel s u ⟨s.x, rfl⟩ hu
  rfl

theorem sweep2_end (fuel : ℕ) (s t : State) (h : sweep2 fuel s = some t) :
    t = { s with x := F64.fin 0 } := by
  unfold sweep2 at h
  rw [Option.map_eq_some'] at h
  obtain ⟨u, hu, rfl⟩ := h
  obtain ⟨q, rfl⟩ := loop_invariant _ _ (fun u => ∃ q : F64, u = { s with x := q })
    (fun u hI => by obtain ⟨q, rfl⟩ := hI; exact ⟨_, rfl⟩) fuel s u ⟨s.x, rfl⟩ hu
  rfl

theorem sweep3_end (fuel : ℕ) (s t : State) (h : sweep3 fuel s = some t) :
    t = { s with x := F64.fin (-80) } := by
  unfold sweep3 at h
  rw [Option.map_eq_some'] at h
  obtain ⟨u, hu, rfl⟩ := h
  obtain ⟨q, rfl⟩ := loop_invariant _ _ (fun u => ∃ q : F64, u = { s with x := q })
    (fun u hI => by obtain ⟨q, rfl⟩ := hI; exact ⟨_, rfl⟩) fuel s u ⟨s.x, rfl⟩ hu
  rfl

theorem sweep4_end (fuel : ℕ) (s t : State) (h : sweep4 fuel s = some t) :
    t = { s with y := s.y_bound } := by
  unfold sweep4 at h
  rw [Option.map_eq_some'] at h
  obtain ⟨u, hu, rfl⟩ := h
  obtain ⟨q, rfl⟩ := loop_invariant _ _ (fun u => ∃ q : F64, u = { s with y := q })
    (fun u hI => by obtain ⟨q, rfl⟩ := hI; exact ⟨_, rfl⟩) fuel s u ⟨s.y, rfl⟩ hu
  rfl

theorem sweep5_end (fuel : ℕ) (s t : State) (h : sweep5 fuel s = some t) :
    t = { s with y := F64.fin 0 } := by
  unfold sweep5 at h
  rw [Option.map_eq_some'] at h
  obtain ⟨u, hu, rfl⟩ := h
  obtain ⟨q, rfl⟩ := loop_invariant _ _ (fun u => ∃ q : F64, u = { s with y := q })
    (fun u hI => by obtain ⟨q, rfl⟩ := hI; exact ⟨_, rfl⟩) fuel s u ⟨s.y, rfl⟩ hu
  rfl

/-- With the motors on, `home` is its five sweeps run one after the other, each on the
state the previous one returned. -/
theorem home_chain (fuel : ℕ) (s : State) (hm : s.motors_on = true) :
    home fuel s =
      (sweep1 fuel s).bind fun s1 =>
      (sweep2 fuel s1).bind fun s2 =>
      (sweep3 fuel s2).bind fun s3 =>
      (sweep4 fuel s3).bind fun s4 =>
      (sweep5 fuel s4).bind fun s5 =>
      some ({ s5 with x_goal := F64.fin 0, y_goal := F64.fin 0, reported := false },
            { success := true, message := "Successfully homed." }) := by
  unfold home
  rw [if_pos hm]

/-- With the motors off `home` takes its else branch. -/
theorem home_else (s : State) (hm : s.motors_on = false) (fuel : ℕ) :
    home fuel s = some (s, { success := false, message := "Failed to home." }) := by
  unfold home
  rw [hm]
  rfl

/-- Whenever `home` returns with the motors on, all five sweeps have returned, in order,
and the result is determined. -/
theorem home_returns (fuel : ℕ) (s t : State) (r : Response) (hm : s.motors_on = true)
    (h : home fuel s = some (t, r)) :
    sweep1 fuel s = some { s with x := s.x_bound } ∧
    sweep2 fuel { s with x := s.x_bound } = some { s with x := F64.fin 0 } ∧
    sweep3 fuel { s with x := F64.fin 0 } = some { s with x := F64.fin (-80) } ∧
    sweep4 fuel { s with x := F64.fin (-80) }
      = some { s with x := F64.fin (-80), y := s.y_bound } ∧
    sweep5 fuel { s with x := F64.fin (-80), y := s.y_bound }
      = some { s with x := F64.fin (-80), y := F64.fin 0 } ∧
    t = { s with x := F64.fin (-80), y := F64.fin 0, x_goal := F64.fin 0, y_goal := F64.fin 0,
                 reported := false } ∧
    r = { success := true, message := "Successfully homed." } := by
  rw [home_chain fuel s hm] at h
  simp only [Option.bind_eq_some] at h
  obtain ⟨s1, h1, s2, h2, s3, h3, s4, h4, s5, h5, h6⟩ := h
  have e1 := sweep1_end fuel s s1 h1
  subst e1
  have e2 := sweep2_end fuel _ s2 h2
  subst e2
  have e3 := sweep3_end fuel _ s3 h3
  subst e3
  have e4 := sweep4_end fuel _ s4 h4
  subst e4
  have e5 := sweep5_end fuel _ s5 h5
  subst e5
  simp only [Option.some.injEq, Prod.mk.injEq] at h6
  exact ⟨h1, h2, h3, h4, h5, h6.1.symm, h6.2.symm⟩

theorem sweep_mono (fuel fuel2 : ℕ) (hle : fuel ≤ fuel2) (s t : State) :
    (sweep1 fuel s = some t → sweep1 fuel2 s = some t) ∧
    (sweep2 fuel s = some t → sweep2 fuel2 s = some t) ∧
    (sweep3 fuel s = some t → sweep3 fuel2 s = some t) ∧
    (sweep4 fuel s = some t → sweep4 fuel2 s = some t) ∧
    (sweep5 fuel s = some t → sweep5 fuel2 s = some t) := by
  refine ⟨?_, ?_, ?_, ?_, ?_⟩ <;>
  · intro h
    simp only [sweep1, sweep2, sweep3, sweep4, sweep5, Option.map_eq_some'] at h ⊢
    obtain ⟨u, hu, rfl⟩ := h
    exact ⟨u, loop_mono _ _ fuel fuel2 s u hle hu, rfl⟩

/-- If `home` has returned, it returns the same result with more fuel. -/
theorem home_mono (fuel fuel2 : ℕ) (hle : fuel ≤ fuel2) (s t : State) (r : Response)
    (h : home fuel s = some (t, r)) : home fuel2 s = some (t, r) := by
  rcases Bool.eq_false_or_eq_true s.motors_on with hm | hm
  · obtain ⟨h1, h2, h3, h4, h5, ht, hr⟩ := home_returns fuel s t r hm h
    rw [home_chain fuel2 s hm, (sweep_mono fuel fuel2 hle _ _).1 h1, Option.some_bind,
      (sweep_mono fuel fuel2 hle _ _).2.1 h2, Option.some_bind,
      (sweep_mono fuel fuel2 hle _ _).2.2.1 h3, Option.some_bind,
      (sweep_mono fuel fuel2 hle _ _).2.2.2.1 h4, Option.some_bind,
      (sweep_mono fuel fuel2 hle _ _).2.2.2.2 h5, Option.some_bind, ht, hr]
  · rw [home_else s hm fuel] at h
    rw [home_else s hm fuel2]
    exact h

theorem home_startup : home 64 mainInit =
    some ({ mainInit with x := F64.fin (-80), y := F64.fin 0, x_goal := F64.fin 0,
                          y_goal := F64.fin 0, reported := false },
          { success := true, message := "Successfully homed." }) := by
  decide!

/-- A loop whose body leaves the state unchanged while its condition holds never ends. -/
theorem loop_stuck (cond : State → Bool) (body : State → State) (s : State)
    (hc : cond s = true) (hb : body s = s) (fuel : ℕ) : whileLoop cond body fuel s = none :=
  loop_diverges cond body (fun t => t = s)
    (fun t ht => by
      rw [ht]
      exact ⟨hc, hb⟩) fuel s rfl

theorem rne_error (n : ℚ) : |(rne n : ℚ) - n| ≤ 1 / 2 := by
  have h1 : (⌊n⌋ : ℚ) ≤ n := Int.floor_le n
  have h2 : n < ⌊n⌋ + 1 := Int.lt_floor_add_one n
  unfold rne
  rw [abs_le]
  split_ifs with a b c
  · constructor <;> linarith
  · push_cast
    constructor <;> linarith
  · have e : n - ⌊n⌋ = 1 / 2 := le_antisymm (not_lt.mp b) (not_lt.mp a)
    constructor <;> linarith
  · have e : n - ⌊n⌋ = 1 / 2 := le_antisymm (not_lt.mp b) (not_lt.mp a)
    push_cast
    constructor <;> linarith

/-- Below `2 ^ k` the rounded magnitude is within `2 ^ k / 2 ^ 54` of the exact one. -/
theorem roundMag_err (a : ℚ) (k : ℕ) (ha : 0 < a) (hb : a < 2 ^ k) :
    |roundMag a - a| ≤ 2 ^ k / 2 ^ (54 : ℕ) := by
  obtain ⟨lo, _⟩ := ilog2_spec a ha
  have hlog : ilog2 a < k := by
    have h : (2 : ℚ) ^ ilog2 a < 2 ^ (k : ℤ) := by
      rw [zpow_natCast]
      exact lt_of_le_of_lt lo hb
    exact (zpow_lt_zpow_iff_right₀ (by norm_num : (1 : ℚ) < 2)).mp h
  have hu : 0 < ulp a := ulp_pos a
  have hu1 : ulp a ≤ 2 ^ k / 2 ^ (53 : ℕ) := by
    unfold ulp
    have h := zpow_le_zpow_right₀ (by norm_num : (1 : ℚ) ≤ 2)
      (show max (ilog2 a) (-1022) - 52 ≤ (k : ℤ) - 53 by
        have := max_le (show ilog2 a ≤ (k : ℤ) - 1 by omega)
          (show (-1022 : ℤ) ≤ (k : ℤ) - 1 by omega)
        omega)
    have e : (2 : ℚ) ^ ((k : ℤ) - 53) = 2 ^ k / 2 ^ (53 : ℕ) := by
      rw [zpow_sub₀ (by norm_num : (2 : ℚ) ≠ 0), zpow_natCast]
      norm_num
    rwa [e] at h
  have he := rne_error (a / ulp a)
  have hmul : roundMag a - a = ((rne (a / ulp a) : ℚ) - a / ulp a) * ulp a := by
    unfold roundMag
    field_simp
  rw [hmul, abs_mul, abs_of_pos hu]
  calc |(rne (a / ulp a) : ℚ) - a / ulp a| * ulp a ≤ 1 / 2 * (2 ^ k / 2 ^ (53 : ℕ)) :=
        mul_le_mul he hu1 (le_of_lt hu) (by norm_num)
    _ = 2 ^ k / 2 ^ (54 : ℕ) := by ring

/-- Below `2 ^ k` in magnitude (`k ≤ 1023`), rounding to binary64 gives a finite value
within `2 ^ k / 2 ^ 54` of the exact one. -/
theorem round_err (r : ℚ) (k : ℕ) (hk : k ≤ 1023) (h : |r| < 2 ^ k) :
    ∃ r2 : ℚ, round r = F64.fin r2 ∧ |r2 - r| ≤ 2 ^ k / 2 ^ (54 : ℕ) := by
  have hpos : (0 : ℚ) < 2 ^ k := by positivity
  have hsm : (2 : ℚ) ^ k / 2 ^ (54 : ℕ) ≤ 2 ^ k := div_le_self (le_of_lt hpos) (by norm_num)
  have hlim : (2 : ℚ) ^ k + 2 ^ k ≤ 2 ^ (1024 : ℕ) := by
    have hpow : (2 : ℚ) ^ k ≤ 2 ^ (1023 : ℕ) := pow_le_pow_right₀ (by norm_num) hk
    have h24 : (2 : ℚ) ^ (1024 : ℕ) = 2 ^ (1023 : ℕ) + 2 ^ (1023 : ℕ) := by norm_num
    rw [h24]
    exact add_le_add hpow hpow
  obtain ⟨hlo, hhi⟩ := abs_lt.mp h
  rcases lt_trichotomy r 0 with hr | hr | hr
  · have ha : 0 < -r := by linarith
    have hb : -r < 2 ^ k := by linarith
    have he := roundMag_err (-r) k ha hb
    rw [abs_le] at he
    have hfin : ¬ (2 : ℚ) ^ (1024 : ℕ) ≤ roundMag (-r) := by
      intro hc
      linarith
    refine ⟨-roundMag (-r), by rw [round_of_neg r hr, if_neg hfin], ?_⟩
    rw [abs_le]
    constructor <;> linarith
  · refine ⟨0, by rw [hr, round_zero], ?_⟩
    rw [hr]
    simp only [sub_self, abs_zero]
    positivity
  · have hb : r < 2 ^ k := by rwa [abs_of_pos hr] at h
    have he := roundMag_err r k hr hb
    have he2 := he
    rw [abs_le] at he2
    have hfin : ¬ (2 : ℚ) ^ (1024 : ℕ) ≤ roundMag r := by
      intro hc
      linarith
    exact ⟨roundMag r, by rw [round_of_pos r hr, if_neg hfin], he⟩

theorem loop_bounded (cond : State → Bool) (body : State → State) (dist : State → ℚ)
    (δ : ℚ) (I : State → Prop)
    (hbody : ∀ t, I t → cond t = true → I (body t) ∧ dist (body t) ≤ dist t - δ)
    (hexit : ∀ t, I t → dist t ≤ 0 → cond t = false) (n : ℕ) :
    ∀ s, I s → dist s ≤ n * δ → ∀ fuel, n + 1 ≤ fuel →
      ∃ t, whileLoop cond body fuel s = some t := by
  induction n with
  | zero =>
    intro s hI hd fuel hf
    obtain ⟨f, rfl⟩ : ∃ f, fuel = f + 1 := ⟨fuel - 1, by omega⟩
    have hc : cond s = false := hexit s hI (by simpa using hd)
    exact ⟨s, by simp [whileLoop, hc]⟩
  | succ n ih =>
    intro s hI hd fuel hf
    obtain ⟨f, rfl⟩ : ∃ f, fuel = f + 1 := ⟨fuel - 1, by omega⟩
    cases hc : cond s with
    | false => exact ⟨s, by simp [whileLoop, hc]⟩
    | true =>
      obtain ⟨hI2, hd2⟩ := hbody s hI hc
      have hd3 : dist (body s) ≤ n * δ := by
        push_cast at hd
        linarith
      obtain ⟨t, ht⟩ := ih (body s) hI2 hd3 f (by omega)
      exact ⟨t, by simp [whileLoop, hc, ht]⟩

/-- A loop whose body brings a rational measure down by a fixed positive amount leaves
its condition after finitely many iterations. -/
theorem loop_terminates (cond : State → Bool) (body : State → State) (dist : State → ℚ)
    (δ : ℚ) (hδ : 0 < δ) (I : State → Prop)
    (hbody : ∀ t, I t → cond t = true → I (body t) ∧ dist (body t) ≤ dist t - δ)
    (hexit : ∀ t, I t → dist t ≤ 0 → cond t = false) (s : State) (hI : I s) :
    ∃ N, ∀ fuel, N ≤ fuel → ∃ t, whileLoop cond body fuel s = some t := by
  obtain ⟨n, hn⟩ := exists_nat_ge (dist s / δ)
  have hd : dist s ≤ n * δ := (div_le_iff₀ hδ).mp hn
  exact ⟨n + 1, fun fuel hf => loop_bounded cond body dist δ I hbody hexit n s hI hd fuel hf⟩

theorem step_down (p h : ℚ) (hp : |p| ≤ 2 ^ (20 : ℕ)) (h2 : 1 / 2 ^ (16 : ℕ) ≤ h)
    (h25 : h ≤ 25) :
    ∃ p2 : ℚ, F64.sub (F64.fin p) (F64.fin h) = F64.fin p2 ∧ p2 ≤ p - 1 / 2 ^ (17 : ℕ) ∧
      p - 26 ≤ p2 := by
  rw [abs_le] at hp
  have hb : |p - h| < 2 ^ (21 : ℕ) := by
    rw [abs_lt]
    constructor <;> norm_num at hp h2 ⊢ <;> linarith
  obtain ⟨p2, e, he⟩ := round_err (p - h) 21 (by norm_num) hb
  rw [abs_le] at he
  norm_num at he h2
  exact ⟨p2, e, by norm_num; linarith, by linarith⟩

theorem step_up (p h : ℚ) (hp : |p| ≤ 2 ^ (20 : ℕ)) (h2 : 1 / 2 ^ (16 : ℕ) ≤ h)
    (h25 : h ≤ 25) :
    ∃ p2 : ℚ, F64.add (F64.fin p) (F64.fin h) = F64.fin p2 ∧ p + 1 / 2 ^ (17 : ℕ) ≤ p2 ∧
      p2 ≤ p + 26 := by
  rw [abs_le] at hp
  have hb : |p + h| < 2 ^ (21 : ℕ) := by
    rw [abs_lt]
    constructor <;> norm_num at hp h2 ⊢ <;> linarith
  obtain ⟨p2, e, he⟩ := round_err (p + h) 21 (by norm_num) hb
  rw [abs_le] at he
  norm_num at he h2
  exact ⟨p2, e, by norm_num; linarith, by linarith⟩

/-- For a velocity scale between `2 ^ (-20)` and 1 the homing step is a finite double
between `2 ^ (-16)` and 25. -/
theorem homeStep_bounds (s : State) (v : ℚ) (hv : s.v_scale = F64.fin v)
    (h8 : 1 / 2 ^ (20 : ℕ) ≤ v) (h1 : v ≤ 1) :
    ∃ h : ℚ, homeStep s = F64.fin h ∧ 1 / 2 ^ (16 : ℕ) ≤ h ∧ h ≤ 25 := by
  unfold homeStep speed
  rw [hv, lit_0_2_eq]
  norm_num at h8
  have hb1 : |(((600 / 200 * 20 * 2 : ℤ) : ℚ)) * v| < 2 ^ (7 : ℕ) := by
    rw [abs_lt]
    constructor <;> norm_num <;> linarith
  obtain ⟨w, ew, hw⟩ := round_err _ 7 (by norm_num) hb1
  rw [abs_le] at hw
  norm_num at hw
  have hb2 : |w * (3602879701896397 / 18014398509481984)| < 2 ^ (5 : ℕ) := by
    rw [abs_lt]
    constructor <;> norm_num <;> linarith
  obtain ⟨h, eh, hh⟩ := round_err _ 5 (by norm_num) hb2
  rw [abs_le] at hh
  norm_num at hh
  refine ⟨h, ?_, ?_, ?_⟩
  · simp only [F64.mul]
    rw [ew]
    simp only [F64.mul]
    exact eh
  · norm_num
    linarith
  · linarith

theorem sweep1_returns (s : State) (h p : ℚ) (hstep : homeStep s = F64.fin h) (h2 : 1 / 2 ^ (16 : ℕ) ≤ h)
    (h25 : h ≤ 25) (hb : s.x_bound = F64.fin (-580)) (hx : s.x = F64.fin p)
    (hp : |p| ≤ 2 ^ (20 : ℕ)) :
    ∃ N, ∀ fuel, N ≤ fuel → sweep1 fuel s = some { s with x := s.x_bound } := by
  obtain ⟨N, hN⟩ := loop_terminates
    (fun t => F64.lt t.x_bound t.x) (fun t => { t with x := F64.sub t.x (homeStep t) })
    (fun t => F64.toRat t.x - (-580)) (1 / 2 ^ (17 : ℕ)) (by norm_num)
    (fun t => ∃ q : ℚ, t = { s with x := F64.fin q } ∧ |q| ≤ 2 ^ (20 : ℕ))
    (fun t hI hc => by
      obtain ⟨q, rfl, hq⟩ := hI
      have hs : homeStep ({ s with x := F64.fin q } : State) = F64.fin h := hstep
      obtain ⟨q2, e, hlo, hhi⟩ := step_down q h hq h2 h25
      dsimp only at hc ⊢
      rw [hb] at hc
      simp only [F64.lt, decide_eq_true_eq] at hc
      rw [hs, e]
      refine ⟨⟨q2, rfl, ?_⟩, ?_⟩
      · rw [abs_le] at hq ⊢
        norm_num at hq ⊢
        constructor <;> linarith
      · simp only [F64.toRat]
        linarith)
    (fun t hI hd => by
      obtain ⟨q, rfl, hq⟩ := hI
      dsimp only at hd ⊢
      rw [hb]
      simp only [F64.toRat] at hd
      simp only [F64.lt, decide_eq_false_iff_not, not_lt]
      linarith)
    s ⟨p, by rw [← hx], hp⟩
  refine ⟨N, fun fuel hf => ?_⟩
  obtain ⟨t, ht⟩ := hN fuel hf
  have hsome : sweep1 fuel s = some { t with x := t.x_bound } := by
    unfold sweep1
    rw [ht]
    rfl
  rw [hsome, sweep1_end fuel s _ hsome]

theorem sweep2_returns (s : State) (h p : ℚ) (hstep : homeStep s = F64.fin h) (h2 : 1 / 2 ^ (16 : ℕ) ≤ h)
    (h25 : h ≤ 25) (hx : s.x = F64.fin p)
    (hp : |p| ≤ 2 ^ (20 : ℕ)) :
    ∃ N, ∀ fuel, N ≤ fuel → sweep2 fuel s = some { s with x := F64.fin 0 } := by
  obtain ⟨N, hN⟩ := loop_terminates
    (fun t => F64.lt t.x (F64.fin 0)) (fun t => { t with x := F64.add t.x (homeStep t) })
    (fun t => 0 - F64.toRat t.x) (1 / 2 ^ (17 : ℕ)) (by norm_num)
    (fun t => ∃ q : ℚ, t = { s with x := F64.fin q } ∧ |q| ≤ 2 ^ (20 : ℕ))
    (fun t hI hc => by
      obtain ⟨q, rfl, hq⟩ := hI
      have hs : homeStep ({ s with x := F64.fin q } : State) = F64.fin h := hstep
      obtain ⟨q2, e, hlo, hhi⟩ := step_up q h hq h2 h25
      dsimp only at hc ⊢
      simp only [F64.lt, decide_eq_true_eq] at hc
      rw [hs, e]
      refine ⟨⟨q2, rfl, ?_⟩, ?_⟩
      · rw [abs_le] at hq ⊢
        norm_num at hq ⊢
        constructor <;> linarith
      · simp only [F64.toRat]
        linarith)
    (fun t hI hd => by
      obtain ⟨q, rfl, hq⟩ := hI
      dsimp only at hd ⊢
      simp only [F64.toRat] at hd
      simp only [F64.lt, decide_eq_false_iff_not, not_lt]
      linarith)
    s ⟨p, by rw [← hx], hp⟩
  refine ⟨N, fun fuel hf => ?_⟩
  obtain ⟨t, ht⟩ := hN fuel hf
  have hsome : sweep2 fuel s = some { t with x := F64.fin 0 } := by
    unfold sweep2
    rw [ht]
    rfl
  rw [hsome, sweep2_end fuel s _ hsome]

theorem sweep3_returns (s : State) (h p : ℚ) (hstep : homeStep s = F64.fin h) (h2 : 1 / 2 ^ (16 : ℕ) ≤ h)
    (h25 : h ≤ 25) (hx : s.x = F64.fin p)
    (hp : |p| ≤ 2 ^ (20 : ℕ)) :
    ∃ N, ∀ fuel, N ≤ fuel → sweep3 fuel s = some { s with x := F64.fin (-80) } := by
  obtain ⟨N, hN⟩ := loop_terminates
    (fun t => F64.lt (F64.fin (-80)) t.x) (fun t => { t with x := F64.sub t.x (homeStep t) })
    (fun t => F64.toRat t.x - (-80)) (1 / 2 ^ (17 : ℕ)) (by norm_num)
    (fun t => ∃ q : ℚ, t = { s with x := F64.fin q } ∧ |q| ≤ 2 ^ (20 : ℕ))
    (fun t hI hc => by
      obtain ⟨q, rfl, hq⟩ := hI
      have hs : homeStep ({ s with x := F64.fin q } : State) = F64.fin h := hstep
      obtain ⟨q2, e, hlo, hhi⟩ := step_down q h hq h2 h25
      dsimp only at hc ⊢
      simp only [F64.lt, decide_eq_true_eq] at hc
      rw [hs, e]
      refine ⟨⟨q2, rfl, ?_⟩, ?_⟩
      · rw [abs_le] at hq ⊢
        norm_num at hq ⊢
        constructor <;> linarith
      · simp only [F64.toRat]
        linarith)
    (fun t hI hd => by
      obtain ⟨q, rfl, hq⟩ := hI
      dsimp only at hd ⊢
      simp only [F64.toRat] at hd
      simp only [F64.lt, decide_eq_false_iff_not, not_lt]
      linarith)
    s ⟨p, by rw [← hx], hp⟩
  refine ⟨N, fun fuel hf => ?_⟩
  obtain ⟨t, ht⟩ := hN fuel hf
  have hsome : sweep3 fuel s = some { t with x := F64.fin (-80) } := by
    unfold sweep3
    rw [ht]
    rfl
  rw [hsome, sweep3_end fuel s _ hsome]

theorem sweep4_returns (s : State) (h p : ℚ) (hstep : homeStep s = F64.fin h) (h2 : 1 / 2 ^ (16 : ℕ) ≤ h)
    (h25 : h ≤ 25) (hb : s.y_bound = F64.fin 300) (hx : s.y = F64.fin p)
    (hp : |p| ≤ 2 ^ (20 : ℕ)) :
    ∃ N, ∀ fuel, N ≤ fuel → sweep4 fuel s = some { s with y := s.y_bound } := by
  obtain ⟨N, hN⟩ := loop_terminates
    (fun t => F64.lt t.y t.y_bound) (fun t => { t with y := F64.add t.y (homeStep t) })
    (fun t => 300 - F64.toRat t.y) (1 / 2 ^ (17 : ℕ)) (by norm_num)
    (fun t => ∃ q : ℚ, t = { s with y := F64.fin q } ∧ |q| ≤ 2 ^ (20 : ℕ))
    (fun t hI hc => by
      obtain ⟨q, rfl, hq⟩ := hI
      have hs : homeStep ({ s with y := F64.fin q } : State) = F64.fin h := hstep
      obtain ⟨q2, e, hlo, hhi⟩ := step_up q h hq h2 h25
      dsimp only at hc ⊢
      rw [hb] at hc
      simp only [F64.lt, decide_eq_true_eq] at hc
      rw [hs, e]
      refine ⟨⟨q2, rfl, ?_⟩, ?_⟩
      · rw [abs_le] at hq ⊢
        norm_num at hq ⊢
        constructor <;> linarith
      · simp only [F64.toRat]
        linarith)
    (fun t hI hd => by
      obtain ⟨q, rfl, hq⟩ := hI
      dsimp only at hd ⊢
      rw [hb]
      simp only [F64.toRat] at hd
      simp only [F64.lt, decide_eq_false_iff_not, not_lt]
      linarith)
    s ⟨p, by rw [← hx], hp⟩
  refine ⟨N, fun fuel hf => ?_⟩
  obtain ⟨t, ht⟩ := hN fuel hf
  have hsome : sweep4 fuel s = some { t with y := t.y_bound } := by
    unfold sweep4
    rw [ht]
    rfl
  rw [hsome, sweep4_end fuel s _ hsome]

theorem sweep5_returns (s : State) (h p : ℚ) (hstep : homeStep s = F64.fin h) (h2 : 1 / 2 ^ (16 : ℕ) ≤ h)
    (h25 : h ≤ 25) (hx : s.y = F64.fin p)
    (hp : |p| ≤ 2 ^ (20 : ℕ)) :
    ∃ N, ∀ fuel, N ≤ fuel → sweep5 fuel s = some { s with y := F64.fin 0 } := by
  obtain ⟨N, hN⟩ := loop_terminates
    (fun t => F64.lt (F64.fin 0) t.y) (fun t => { t with y := F64.sub t.y (homeStep t) })
    (fun t => F64.toRat t.y - 0) (1 / 2 ^ (17 : ℕ)) (by norm_num)
    (fun t => ∃ q : ℚ, t = { s with y := F64.fin q } ∧ |q| ≤ 2 ^ (20 : ℕ))
    (fun t hI hc => by
      obtain ⟨q, rfl, hq⟩ := hI
      have hs : homeStep ({ s with y := F64.fin q } : State) = F64.fin h := hstep
      obtain ⟨q2, e, hlo, hhi⟩ := step_down q h hq h2 h25
      dsimp only at hc ⊢
      simp only [F64.lt, decide_eq_true_eq] at hc
      rw [hs, e]
      refine ⟨⟨q2, rfl, ?_⟩, ?_⟩
      · rw [abs_le] at hq ⊢
        norm_num at hq ⊢
        constructor <;> linarith
      · simp only [F64.toRat]
        linarith)
    (fun t hI hd => by
      obtain ⟨q, rfl, hq⟩ := hI
      dsimp only at hd ⊢
      simp only [F64.toRat] at hd
      simp only [F64.lt, decide_eq_false_iff_not, not_lt]
      linarith)
    s ⟨p, by rw [← hx], hp⟩
  refine ⟨N, fun fuel hf => ?_⟩
  obtain ⟨t, ht⟩ := hN fuel hf
  have hsome : sweep5 fuel s = some { t with y := F64.fin 0 } := by
    unfold sweep5
    rw [ht]
    rfl
  rw [hsome, sweep5_end fuel s _ hsome]

/-- With the motors on, a velocity scale between `2 ^ (-20)` and 1, the bounds of `main` and a
start position within `2 ^ 20` of the origin on both axes, `home` returns for every
sufficiently large fuel. -/
theorem home_family (s : State) (v p q : ℚ) (hm : s.motors_on = true)
    (hv : s.v_scale = F64.fin v) (h8 : 1 / 2 ^ (20 : ℕ) ≤ v) (h1 : v ≤ 1)
    (hxb : s.x_bound = F64.fin (-580)) (hyb : s.y_bound = F64.fin 300)
    (hx : s.x = F64.fin p) (hp : |p| ≤ 2 ^ (20 : ℕ)) (hy : s.y = F64.fin q)
    (hq : |q| ≤ 2 ^ (20 : ℕ)) :
    ∃ N, ∀ fuel, N ≤ fuel →
      home fuel s =
        some ({ s with x := F64.fin (-80), y := F64.fin 0, x_goal := F64.fin 0,
                       y_goal := F64.fin 0, reported := false },
              { success := true, message := "Successfully homed." }) := by
  obtain ⟨h, hstep, h2, h25⟩ := homeStep_bounds s v hv h8 h1
  obtain ⟨N1, a1⟩ := sweep1_returns s h p hstep h2 h25 hxb hx hp
  obtain ⟨N2, a2⟩ := sweep2_returns { s with x := s.x_bound } h (-580) hstep h2 h25 hxb
    (by norm_num)
  obtain ⟨N3, a3⟩ := sweep3_returns { s with x := F64.fin 0 } h 0 hstep h2 h25 rfl
    (by norm_num)
  obtain ⟨N4, a4⟩ := sweep4_returns { s with x := F64.fin (-80) } h q hstep h2 h25 hyb hy hq
  obtain ⟨N5, a5⟩ := sweep5_returns { s with x := F64.fin (-80), y := s.y_bound } h 300 hstep
    h2 h25 hyb (by norm_num)
  refine ⟨N1 + N2 + N3 + N4 + N5, fun fuel hf => ?_⟩
  rw [home_chain fuel s hm, a1 fuel (by omega), Option.some_bind, a2 fuel (by omega),
    Option.some_bind, a3 fuel (by omega), Option.some_bind, a4 fuel (by omega),
    Option.some_bind, a5 fuel (by omega), Option.some_bind]

/-- With the motors on, `home` does not return when the first loop's condition holds and
its body leaves x where it is. -/
theorem home_stuck_first (s : State) (hm : s.motors_on = true)
    (hc : F64.lt s.x_bound s.x = true) (hb : F64.sub s.x (homeStep s) = s.x) (fuel : ℕ) :
    home fuel s = none := by
  have h1 : sweep1 fuel s = none := by
    unfold sweep1
    rw [loop_stuck _ _ s hc (by
      show ({ s with x := F64.sub s.x (homeStep s) } : State) = s
      rw [hb]) fuel]
    rfl
  rw [home_chain fuel s hm, h1]
  rfl

/-- At velocity scale 0 the homing step is 0. -/
theorem homeStep_zero (s : State) (hv : s.v_scale = F64.fin 0) : homeStep s = F64.fin 0 := by
  unfold homeStep
  rw [hv]
  decide!

/-- With the motors on, velocity scale 0 and `x_bound = -580`, `home` never returns: the
second loop starts at `x = -580` and its body leaves x there. -/
theorem home_zero_scale (s : State) (hm : s.motors_on = true) (hv : s.v_scale = F64.fin 0)
    (hb : s.x_bound = F64.fin (-580)) (fuel : ℕ) : home fuel s = none := by
  rw [home_chain fuel s hm]
  cases h1 : sweep1 fuel s with
  | none => rfl
  | some s1 =>
    have e := sweep1_end fuel s s1 h1
    subst e
    have h2 : sweep2 fuel { s with x := s.x_bound } = none := by
      unfold sweep2
      rw [loop_stuck _ _ { s with x := s.x_bound }
        (by
          show F64.lt s.x_bound (F64.fin 0) = true
          rw [hb]
          decide!)
        (by
          show ({ s with x := F64.add s.x_bound (homeStep { s with x := s.x_bound }) } : State)
            = { s with x := s.x_bound }
          have hs : homeStep ({ s with x := s.x_bound } : State) = F64.fin 0 :=
            homeStep_zero _ hv
          rw [hs, hb]
          have e : F64.add (F64.fin (-580)) (F64.fin 0) = F64.fin (-580) := by decide!
          rw [e]) fuel]
      rfl
    rw [Option.some_bind, h2]
    rfl

/-- The call of `home` made by `main` returns for every fuel from 64 on. -/
theorem home_startup_any (fuel : ℕ) (hf : 64 ≤ fuel) :
    home fuel mainInit =
      some ({ mainInit with x := F64.fin (-80), y := F64.fin 0, x_goal := F64.fin 0,
                            y_goal := F64.fin 0, reported := false },
            { success := true, message := "Successfully homed." }) :=
  home_mono 64 fuel hf mainInit _ _ home_startup

/-- Adding or subtracting the zero step leaves every double where it is. -/
theorem zero_step (a : F64) (ha : a.isDouble = true) :
    F64.sub a (F64.fin 0) = a ∧ F64.add a (F64.fin 0) = a := by
  cases a with
  | nan => exact ⟨rfl, rfl⟩
  | inf b => exact ⟨rfl, rfl⟩
  | fin q =>
    simp only [F64.isDouble, decide_eq_true_eq] at ha
    simp only [F64.sub, F64.add, sub_zero, add_zero, ha]
    exact ⟨trivial, trivial⟩

/-- C2 (as amended): with the motors on, whenever `home` returns it leaves Position
`(-80, 0)` and Goal `(0, 0)`; it returns (for all sufficiently large fuel) for every
velocity scale between `2 ^ (-20)` and 1 and every finite start position within `2 ^ 20`
of the origin on both axes when the bounds are those set by `main`, and in the call made
by `main` itself; at velocity scale 0 with `x_bound = -580` it never returns. -/
theorem home_position (s : State) (hm : s.motors_on = true) :
    (∀ fuel t r, home fuel s = some (t, r) →
      t.x = F64.fin (-80) ∧ t.y = F64.fin 0 ∧ t.x_goal = F64.fin 0 ∧ t.y_goal = F64.fin 0) ∧
    (∀ v p q : ℚ, s.v_scale = F64.fin v → 1 / 2 ^ (20 : ℕ) ≤ v → v ≤ 1 →
      s.x_bound = F64.fin (-580) → s.y_bound = F64.fin 300 →
      s.x = F64.fin p → |p| ≤ 2 ^ (20 : ℕ) → s.y = F64.fin q → |q| ≤ 2 ^ (20 : ℕ) →
      ∃ N, ∀ fuel, N ≤ fuel → ∃ t r, home fuel s = some (t, r) ∧
        t.x = F64.fin (-80) ∧ t.y = F64.fin 0 ∧ t.x_goal = F64.fin 0 ∧ t.y_goal = F64.fin 0) ∧
    (∀ fuel, 64 ≤ fuel → ∃ t r, home fuel mainInit = some (t, r) ∧
        t.x = F64.fin (-80) ∧ t.y = F64.fin 0 ∧ t.x_goal = F64.fin 0 ∧ t.y_goal = F64.fin 0) ∧
    (s.v_scale = F64.fin 0 → s.x_bound = F64.fin (-580) → ∀ fuel, home fuel s = none) := by
  refine ⟨fun fuel t r h => ?_, fun v p q hv h8 h1 hxb hyb hx hp hy hq => ?_,
    fun fuel hf => ?_, fun hv hb fuel => home_zero_scale s hm hv hb fuel⟩
  · obtain ⟨_, _, _, _, _, ht, _⟩ := home_returns fuel s t r hm h
    rw [ht]
    exact ⟨rfl, rfl, rfl, rfl⟩
  · obtain ⟨N, hN⟩ := home_family s v p q hm hv h8 h1 hxb hyb hx hp hy hq
    exact ⟨N, fun fuel hf => ⟨_, _, hN fuel hf, rfl, rfl, rfl, rfl⟩⟩
  · exact ⟨_, _, home_startup_any fuel hf, rfl, rfl, rfl, rfl⟩

/-- C2 at the example position `(-200, 150)` with the motors on and velocity scale 1/2:
`home` returns and leaves Position `(-80, 0)` and Goal `(0, 0)`. -/
theorem home_position_witness :
    ({ scenario with v_scale := F64.fin (1 / 2) } : State).motors_on = true ∧
    ∃ N, ∀ fuel, N ≤ fuel → ∃ t r,
      home fuel { scenario with v_scale := F64.fin (1 / 2) } = some (t, r) ∧
        t.x = F64.fin (-80) ∧ t.y = F64.fin 0 ∧ t.x_goal = F64.fin 0 ∧ t.y_goal = F64.fin 0 :=
  ⟨rfl, (home_position { scenario with v_scale := F64.fin (1 / 2) } rfl).2.1 (1 / 2) (-200) 150
    rfl (by norm_num) (by norm_num) rfl rfl rfl (by norm_num [abs_le]) rfl
    (by norm_num [abs_le])⟩

/-- C2 as stated fails: the call of `home` made by `main` (motors on, velocity scale 1)
returns with x equal to -80, which is not 0; and at velocity scale 0, which lies in
`[0, 1]`, `home` never returns. -/
theorem home_position_counterexample :
    mainInit.motors_on = true ∧
    (home 64 mainInit).map (fun r => (r.1.x, r.1.y)) = some (F64.fin (-80), F64.fin 0) ∧
    F64.eq (F64.fin (-80)) (F64.fin 0) = false ∧
    (∀ fuel, home fuel { mainInit with v_scale := F64.fin 0 } = none) :=
  ⟨rfl, by rw [home_startup]; rfl, by decide!,
    fun fuel => home_zero_scale _ rfl rfl rfl fuel⟩

/-- C3 (as amended): with the motors on, `home` is its five sweeps run strictly in order,
each started in the state the previous one left; a sweep that returns has changed only its
own coordinate, which it leaves at `x_bound`, 0, -80, `y_bound` and 0 respectively;
whenever `home` returns, the five sweeps have returned with Position `(x_bound, y0)`,
`(0, y0)`, `(-80, y0)`, `(-80, y_bound)` and `(-80, 0)` at their ends, and the final
state is the initial one with Position `(-80, 0)`, Goal `(0, 0)` and the reported flag
cleared, with result success and message "Successfully homed."; and `home` does return
for every velocity scale between `2 ^ (-20)` and 1 and every finite start position within
`2 ^ 20` of the origin on both axes when the bounds are those set by `main`. -/
theorem home_sweeps (s : State) (hm : s.motors_on = true) :
    (∀ fuel, home fuel s =
      (sweep1 fuel s).bind fun s1 =>
      (sweep2 fuel s1).bind fun s2 =>
      (sweep3 fuel s2).bind fun s3 =>
      (sweep4 fuel s3).bind fun s4 =>
      (sweep5 fuel s4).bind fun s5 =>
      some ({ s5 with x_goal := F64.fin 0, y_goal := F64.fin 0, reported := false },
            { success := true, message := "Successfully homed." })) ∧
    (∀ fuel (u t : State),
      (sweep1 fuel u = some t → t = { u with x := u.x_bound }) ∧
      (sweep2 fuel u = some t → t = { u with x := F64.fin 0 }) ∧
      (sweep3 fuel u = some t → t = { u with x := F64.fin (-80) }) ∧
      (sweep4 fuel u = some t → t = { u with y := u.y_bound }) ∧
      (sweep5 fuel u = some t → t = { u with y := F64.fin 0 })) ∧
    (∀ fuel t r, home fuel s = some (t, r) →
      sweep1 fuel s = some { s with x := s.x_bound } ∧
      sweep2 fuel { s with x := s.x_bound } = some { s with x := F64.fin 0 } ∧
      sweep3 fuel { s with x := F64.fin 0 } = some { s with x := F64.fin (-80) } ∧
      sweep4 fuel { s with x := F64.fin (-80) }
        = some { s with x := F64.fin (-80), y := s.y_bound } ∧
      sweep5 fuel { s with x := F64.fin (-80), y := s.y_bound }
        = some { s with x := F64.fin (-80), y := F64.fin 0 } ∧
      t = { s with x := F64.fin (-80), y := F64.fin 0, x_goal := F64.fin 0,
                   y_goal := F64.fin 0, reported := false } ∧
      r = { success := true, message := "Successfully homed." }) ∧
    (∀ v p q : ℚ, s.v_scale = F64.fin v → 1 / 2 ^ (20 : ℕ) ≤ v → v ≤ 1 →
      s.x_bound = F64.fin (-580) → s.y_bound = F64.fin 300 →
      s.x = F64.fin p → |p| ≤ 2 ^ (20 : ℕ) → s.y = F64.fin q → |q| ≤ 2 ^ (20 : ℕ) →
      ∃ N, ∀ fuel, N ≤ fuel →
        home fuel s =
          some ({ s with x := F64.fin (-80), y := F64.fin 0, x_goal := F64.fin 0,
                         y_goal := F64.fin 0, reported := false },
                { success := true, message := "Successfully homed." })) :=
  ⟨fun fuel => home_chain fuel s hm,
   fun fuel u t => ⟨sweep1_end fuel u t, sweep2_end fuel u t, sweep3_end fuel u t,
     sweep4_end fuel u t, sweep5_end fuel u t⟩,
   fun fuel t r h => home_returns fuel s t r hm h,
   fun v p q hv h8 h1 hxb hyb hx hp hy hq => home_family s v p q hm hv h8 h1 hxb hyb hx hp hy hq⟩

/-- C3 at the example position `(-200, 150)` with the motors on and velocity scale 1:
`home` returns with Position `(-80, 0)`, Goal `(0, 0)`, the flag cleared and success. -/
theorem home_sweeps_witness :
    scenario.motors_on = true ∧
    ∃ N, ∀ fuel, N ≤ fuel →
      home fuel scenario =
        some ({ scenario with x := F64.fin (-80), y := F64.fin 0, x_goal := F64.fin 0,
                              y_goal := F64.fin 0, reported := false },
              { success := true, message := "Successfully homed." }) :=
  ⟨rfl, (home_sweeps scenario rfl).2.2.2 1 (-200) 150 rfl (by norm_num) (by norm_num) rfl rfl
    rfl (by norm_num [abs_le]) rfl (by norm_num [abs_le])⟩

/-- C3 as stated fails: at velocity scale `2 ^ (-70)`, which lies in (0, 1], with the
motors on and Position `(-200, 150)`, the first loop's step leaves x at -200, so the
first sweep never ends and `home` never returns. -/
theorem home_sweeps_counterexample :
    ({ scenario with v_scale := F64.fin (1 / 2 ^ 70) } : State).motors_on = true ∧
    (F64.lt (F64.fin 0) (F64.fin (1 / 2 ^ 70)) = true ∧
      F64.le (F64.fin (1 / 2 ^ 70)) (F64.fin 1) = true) ∧
    (∀ fuel, sweep1 fuel { scenario with v_scale := F64.fin (1 / 2 ^ 70) } = none) ∧
    (∀ fuel, home fuel { scenario with v_scale := F64.fin (1 / 2 ^ 70) } = none) := by
  refine ⟨rfl, by decide!, fun fuel => ?_, fun fuel => home_stuck_first _ rfl (by decide!)
    (by decide!) fuel⟩
  unfold sweep1
  rw [loop_stuck _ _ _ (by decide!) (by decide!) fuel]
  rfl

/-- C17 (as amended): with the motors on and the bounds -580 and 300 set by `main`: for
every velocity scale between `2 ^ (-20)` and 1 and every finite start position within
`2 ^ 20` of the origin on both axes, the step `speed * v_scale * 0.2` is a finite double
between `2 ^ (-16)` and 25 (exactly 24 at velocity scale 1), each of the five sweeps
returns, and `home` returns; at velocity scale 0 the step is 0, the loop bodies leave
every double coordinate where it is, and `home` does not return from any start
position. -/
theorem home_termination (s : State) (hm : s.motors_on = true)
    (hxb : s.x_bound = F64.fin (-580)) (hyb : s.y_bound = F64.fin 300) :
    (∀ v p q : ℚ, s.v_scale = F64.fin v → 1 / 2 ^ (20 : ℕ) ≤ v → v ≤ 1 →
      s.x = F64.fin p → |p| ≤ 2 ^ (20 : ℕ) → s.y = F64.fin q → |q| ≤ 2 ^ (20 : ℕ) →
      (∃ h : ℚ, homeStep s = F64.fin h ∧ 1 / 2 ^ (16 : ℕ) ≤ h ∧ h ≤ 25) ∧
      ∃ N, ∀ fuel, N ≤ fuel →
        sweep1 fuel s = some { s with x := s.x_bound } ∧
        sweep2 fuel { s with x := s.x_bound } = some { s with x := F64.fin 0 } ∧
        sweep3 fuel { s with x := F64.fin 0 } = some { s with x := F64.fin (-80) } ∧
        sweep4 fuel { s with x := F64.fin (-80) }
          = some { s with x := F64.fin (-80), y := s.y_bound } ∧
        sweep5 fuel { s with x := F64.fin (-80), y := s.y_bound }
          = some { s with x := F64.fin (-80), y := F64.fin 0 } ∧
        home fuel s =
          some ({ s with x := F64.fin (-80), y := F64.fin 0, x_goal := F64.fin 0,
                         y_goal := F64.fin 0, reported := false },
                { success := true, message := "Successfully homed." })) ∧
    (s.v_scale = F64.fin 1 → homeStep s = F64.fin 24) ∧
    (s.v_scale = F64.fin 0 →
      homeStep s = F64.fin 0 ∧
      (s.x.isDouble = true → F64.sub s.x (homeStep s) = s.x ∧
        F64.add s.x (homeStep s) = s.x) ∧
      (s.y.isDouble = true → F64.sub s.y (homeStep s) = s.y ∧
        F64.add s.y (homeStep s) = s.y) ∧
      ∀ fuel, home fuel s = none) := by
  refine ⟨fun v p q hv h8 h1 hx hp hy hq => ⟨homeStep_bounds s v hv h8 h1, ?_⟩, fun hv => ?_,
    fun hv => ⟨homeStep_zero s hv, fun hd => ?_, fun hd => ?_,
      fun fuel => home_zero_scale s hm hv hxb fuel⟩⟩
  · obtain ⟨N, hN⟩ := home_family s v p q hm hv h8 h1 hxb hyb hx hp hy hq
    refine ⟨N, fun fuel hf => ?_⟩
    obtain ⟨a1, a2, a3, a4, a5, _, _⟩ := home_returns fuel s _ _ hm (hN fuel hf)
    exact ⟨a1, a2, a3, a4, a5, hN fuel hf⟩
  · unfold homeStep
    rw [hv]
    decide!
  · rw [homeStep_zero s hv]
    exact zero_step s.x hd
  · rw [homeStep_zero s hv]
    exact zero_step s.y hd

/-- C17 in the start-up state (motors on, bounds -580 and 300, velocity scale 1): the
homing step is exactly 24. -/
theorem home_termination_witness :
    mainInit.motors_on = true ∧ mainInit.x_bound = F64.fin (-580) ∧
    mainInit.y_bound = F64.fin 300 ∧ homeStep mainInit = F64.fin 24 :=
  ⟨rfl, rfl, rfl, (home_termination mainInit rfl rfl rfl).2.1 rfl⟩

/-- C17 as stated fails: with the motors on and the bounds of `main`, at the positive
velocity scale `2 ^ (-80)` and Position `(100, 0)` the subtraction in the first loop
leaves x at 100, so `home` never returns. -/
theorem home_termination_counterexample :
    F64.lt (F64.fin 0) (F64.fin (1 / 2 ^ 80)) = true ∧
    F64.le (F64.fin (1 / 2 ^ 80)) (F64.fin 1) = true ∧
    F64.sub (F64.fin 100)
      (homeStep { mainInit with x := F64.fin 100, v_scale := F64.fin (1 / 2 ^ 80) })
        = F64.fin 100 ∧
    (∀ fuel, home fuel { mainInit with x := F64.fin 100, v_scale := F64.fin (1 / 2 ^ 80) }
      = none) :=
  ⟨by decide!, by decide!, by decide!,
    fun fuel => home_stuck_first _ rfl (by decide!) (by decide!) fuel⟩

theorem publishPosition_frame (s : State) (now : ℕ) :
    (publishPosition s now).1 =
      { s with reported := (publishPosition s now).1.reported, seq := (s.seq + 1) % 2 ^ 32 } := by
  unfold publishPosition
  split_ifs <;> rfl

theorem exec_home (fuel : ℕ) (s t : State) (h : exec s (Command.home fuel) = some t) :
    ∃ r, home fuel s = some (t, r) := by
  simp only [exec, Option.map_eq_some'] at h
  obtain ⟨p, hp, rfl⟩ := h
  exact ⟨p.2, hp⟩

/-- Whatever `home` returns differs from the state before at most in the position, the
goal and the flag. -/
theorem home_frame (fuel : ℕ) (s t : State) (r : Response) (h : home fuel s = some (t, r)) :
    t = { s with x := t.x, y := t.y, x_goal := t.x_goal, y_goal := t.y_goal,
                 reported := t.reported } := by
  rcases Bool.eq_false_or_eq_true s.motors_on with hm | hm
  · obtain ⟨_, _, _, _, _, ht, _⟩ := home_returns fuel s t r hm h
    rw [ht]
  · rw [home_else s hm fuel] at h
    simp only [Option.some.injEq, Prod.mk.injEq] at h
    rw [← h.1]

/-- C4: with the motors off `home` returns at once, whatever the fuel, with the state
unchanged and the response `success = false`, "Failed to home.". -/
theorem home_motors_off (s : State) (hm : s.motors_on = false) (fuel : ℕ) :
    home fuel s = some (s, { success := false, message := "Failed to home." }) :=
  home_else s hm fuel

/-- C4 at the statically initialised state (motors off), with no fuel at all. -/
theorem home_motors_off_witness :
    staticInit.motors_on = false ∧
    home 0 staticInit = some (staticInit, { success := false, message := "Failed to home." }) :=
  ⟨rfl, home_motors_off staticInit rfl 0⟩

/-- C10: `move`, `move_to`, `velocity_scale`, `halt`, `tap`, `set_endeff`, `set_led`,
`set_motors` and `publishPosition` leave Position unchanged, for every state and argument;
no callback at all changes the collision offset; and `simulateMotors` and `home` do change
Position on some state. -/
theorem position_writers :
    (∀ (s : State) (a b : F64), (move s a b).x = s.x ∧ (move s a b).y = s.y) ∧
    (∀ (s : State) (a b : F64), (move_to s a b).x = s.x ∧ (move_to s a b).y = s.y) ∧
    (∀ (s : State) (d : F64), (velocity_scale s d).x = s.x ∧ (velocity_scale s d).y = s.y) ∧
    (∀ s : State, (halt s).x = s.x ∧ (halt s).y = s.y) ∧
    (∀ s : State, (tap s).x = s.x ∧ (tap s).y = s.y) ∧
    (∀ (s : State) (b : Bool), (set_endeff s b).1.x = s.x ∧ (set_endeff s b).1.y = s.y) ∧
    (∀ (s : State) (b : Bool), (set_led s b).1.x = s.x ∧ (set_led s b).1.y = s.y) ∧
    (∀ (s : State) (b : Bool), (set_motors s b).1.x = s.x ∧ (set_motors s b).1.y = s.y) ∧
    (∀ (s : State) (now : ℕ),
      (publishPosition s now).1.x = s.x ∧ (publishPosition s now).1.y = s.y) ∧
    (∀ (s t : State) (c : Command), exec s c = some t →
      t.x_col = s.x_col ∧ t.y_col = s.y_col) ∧
    (∃ s : State, (simulateMotors s).x ≠ s.x) ∧
    (∃ (fuel : ℕ) (s t : State) (r : Response), home fuel s = some (t, r) ∧ t.x ≠ s.x) := by
  refine ⟨fun _ _ _ => ⟨rfl, rfl⟩, fun _ _ _ => ⟨rfl, rfl⟩, fun _ _ => ⟨rfl, rfl⟩,
    fun _ => ⟨rfl, rfl⟩, fun _ => ⟨rfl, rfl⟩, ?_, ?_, ?_, ?_, ?_, ?_, ?_⟩
  · intro s b
    cases b <;> exact ⟨rfl, rfl⟩
  · intro s b
    cases b <;> exact ⟨rfl, rfl⟩
  · intro s b
    cases b <;> exact ⟨rfl, rfl⟩
  · intro s now
    rw [publishPosition_frame]
    exact ⟨rfl, rfl⟩
  · intro s t c hc
    cases c with
    | move dx dy => simp only [exec, Option.some.injEq] at hc; rw [← hc]; exact ⟨rfl, rfl⟩
    | move_to px py => simp only [exec, Option.some.injEq] at hc; rw [← hc]; exact ⟨rfl, rfl⟩
    | velocity_scale data =>
      simp only [exec, Option.some.injEq] at hc; rw [← hc]; exact ⟨rfl, rfl⟩
    | halt => simp only [exec, Option.some.injEq] at hc; rw [← hc]; exact ⟨rfl, rfl⟩
    | tap => simp only [exec, Option.some.injEq] at hc; rw [← hc]; exact ⟨rfl, rfl⟩
    | home fuel =>
      obtain ⟨r, hh⟩ := exec_home fuel s t hc
      rw [home_frame fuel s t r hh]
      exact ⟨rfl, rfl⟩
    | set_endeff data =>
      simp only [exec, Option.some.injEq] at hc; rw [← hc]; cases data <;> exact ⟨rfl, rfl⟩
    | set_led data =>
      simp only [exec, Option.some.injEq] at hc; rw [← hc]; cases data <;> exact ⟨rfl, rfl⟩
    | set_motors data =>
      simp only [exec, Option.some.injEq] at hc; rw [← hc]; cases data <;> exact ⟨rfl, rfl⟩
    | simulateMotors =>
      simp only [exec, Option.some.injEq] at hc
      rw [← hc, tick_frame]
      exact ⟨rfl, rfl⟩
    | publishPosition now =>
      simp only [exec, Option.some.injEq] at hc
      rw [← hc, publishPosition_frame]
      exact ⟨rfl, rfl⟩
  · exact ⟨move_to scenario (F64.fin (-300)) (F64.fin 150), by decide!⟩
  · exact ⟨64, mainInit, _, _, home_startup, by decide!⟩

/-- C10 at a concrete input: the start-up `home` leaves the collision offset at `(0, 0)`. -/
theorem position_writers_witness :
    exec mainInit (Command.home 64) =
      some { mainInit with x := F64.fin (-80), y := F64.fin 0, x_goal := F64.fin 0,
                           y_goal := F64.fin 0, reported := false } ∧
    ({ mainInit with x := F64.fin (-80), y := F64.fin 0, x_goal := F64.fin 0,
                     y_goal := F64.fin 0, reported := false } : State).x_col
      = mainInit.x_col ∧
    ({ mainInit with x := F64.fin (-80), y := F64.fin 0, x_goal := F64.fin 0,
                     y_goal := F64.fin 0, reported := false } : State).y_col
      = mainInit.y_col :=
  ⟨by decide!, position_writers.2.2.2.2.2.2.2.2.2.1 mainInit _ (Command.home 64) (by decide!)⟩

/-- C11: for every state and boolean `b`, `set_endeff b`, `set_led b` and `set_motors b`
set exactly their own flag to `b`, leave every other variable (the two other flags,
Position, Goal, VelocityScale, ReportedFlag and the rest) unchanged, and answer
`success = true` with the message that belongs to `b`. -/
theorem actuator_flags_independent (s : State) (b : Bool) :
    set_endeff s b = ({ s with endeff_down := b },
      { success := true,
        message := if b then "End Effector Pressed" else "End Effector Released" }) ∧
    set_led s b = ({ s with led_on := b },
      { success := true, message := if b then "LED Lit" else "LED Off" }) ∧
    set_motors s b = ({ s with motors_on := b },
      { success := true, message := if b then "Motors Enabled" else "Motors Disabled" }) := by
  cases b <;> exact ⟨rfl, rfl, rfl⟩

/-- C15: two states that agree on Position, Goal and VelocityScale get the same new
Position from a tick, whatever their actuator flags (and all other variables); and a tick
changes nothing but Position: the three flags, Goal, VelocityScale and ReportedFlag stay. -/
theorem tick_ignores_flags (s1 s2 : State) (hx : s1.x = s2.x) (hy : s1.y = s2.y)
    (hgx : s1.x_goal = s2.x_goal) (hgy : s1.y_goal = s2.y_goal)
    (hv : s1.v_scale = s2.v_scale) :
    (simulateMotors s1).x = (simulateMotors s2).x ∧
    (simulateMotors s1).y = (simulateMotors s2).y ∧
    (∀ s : State,
      (simulateMotors s).motors_on = s.motors_on ∧
      (simulateMotors s).endeff_down = s.endeff_down ∧
      (simulateMotors s).led_on = s.led_on ∧
      (simulateMotors s).x_goal = s.x_goal ∧ (simulateMotors s).y_goal = s.y_goal ∧
      (simulateMotors s).v_scale = s.v_scale ∧ (simulateMotors s).reported = s.reported ∧
      simulateMotors s = { s with x := (simulateMotors s).x, y := (simulateMotors s).y }) := by
  have hvel : velocity s1 = velocity s2 := by
    unfold velocity
    rw [hx, hy, hgx, hgy, hv]
  refine ⟨?_, ?_, fun s => ?_⟩
  · rw [tick_x, tick_x, hvel, hx, hgx]
  · rw [tick_y, tick_y, hvel, hy, hgy]
  · have hf := tick_frame s
    refine ⟨?_, ?_, ?_, ?_, ?_, ?_, ?_, hf⟩ <;> rw [hf]

/-- C15 at concrete inputs: the example scenario after `move_to (-300, 150)`, once with
the flags as `main` leaves them and once with motors off, end effector down and LED on. -/
theorem tick_ignores_flags_witness :
    (simulateMotors (move_to scenario (F64.fin (-300)) (F64.fin 150))).x =
      (simulateMotors { move_to scenario (F64.fin (-300)) (F64.fin 150) with
        motors_on := false, endeff_down := true, led_on := true }).x ∧
    (simulateMotors (move_to scenario (F64.fin (-300)) (F64.fin 150))).y =
      (simulateMotors { move_to scenario (F64.fin (-300)) (F64.fin 150) with
        motors_on := false, endeff_down := true, led_on := true }).y :=
  ⟨(tick_ignores_flags (move_to scenario (F64.fin (-300)) (F64.fin 150))
      { move_to scenario (F64.fin (-300)) (F64.fin 150) with
        motors_on := false, endeff_down := true, led_on := true }
      rfl rfl rfl rfl rfl).1,
   (tick_ignores_flags (move_to scenario (F64.fin (-300)) (F64.fin 150))
      { move_to scenario (F64.fin (-300)) (F64.fin 150) with
        motors_on := false, endeff_down := true, led_on := true }
      rfl rfl rfl rfl rfl).2.1⟩

theorem eq_self (a : F64) (h : a.isNaN = false) : F64.eq a a = true := by
  cases a with
  | nan => simp [F64.isNaN] at h
  | inf b => simp [F64.eq]
  | fin q => simp [F64.eq]

theorem infState_x : infState.x = F64.inf false ∧ infState.reported = false := by decide!

theorem nanState_y : nanState.y = F64.nan ∧ nanState.x = F64.fin 0 ∧
    nanState.x_goal = F64.fin 0 ∧ nanState.reported = false := by decide!

/-! ## The goal-reached detector -/

/-- What one `publishPosition` call puts on "goal_js", and what it does to the flag. -/
theorem publishPosition_goal (s : State) (now : ℕ) :
    (atGoal s = true ∧ s.reported = false →
      goalEvents (publishPosition s now).2 = [positionMsg s now] ∧
      (publishPosition s now).1.reported = true) ∧
    (¬ (atGoal s = true ∧ s.reported = false) →
      goalEvents (publishPosition s now).2 = [] ∧
      (publishPosition s now).1.reported = s.reported) := by
  constructor
  · intro h
    have h2 : (F64.eq s.x_goal s.x && F64.eq s.y_goal s.y && !s.reported) = true := by
      have h1 := h.1
      unfold atGoal at h1
      rw [h1, h.2]
      rfl
    simp only [publishPosition, h2, if_true]
    refine ⟨?_, ?_⟩ <;> simp [goalEvents]
  · intro h
    have h2 : ¬ ((F64.eq s.x_goal s.x && F64.eq s.y_goal s.y && !s.reported) = true) := by
      intro c
      rw [Bool.and_eq_true] at c
      exact h ⟨c.1, by simpa using c.2⟩
    simp only [publishPosition, if_neg h2]
    refine ⟨?_, ?_⟩ <;> simp [goalEvents]

/-- C6 (as amended): `move`, `move_to` and a successful `home` leave `reported = false`
for every prior state; `halt` does not write the flag and leaves it as it was. -/
theorem goal_writers_reported :
    (∀ (s : State) (dx dy : F64), (move s dx dy).reported = false) ∧
    (∀ (s : State) (px py : F64), (move_to s px py).reported = false) ∧
    (∀ (fuel : ℕ) (s t : State) (r : Response),
      home fuel s = some (t, r) → r.success = true → t.reported = false) ∧
    (∀ s : State, (halt s).reported = s.reported) := by
  refine ⟨fun _ _ _ => rfl, fun _ _ _ => rfl, ?_, fun _ => rfl⟩
  intro fuel s t r h hs
  rcases Bool.eq_false_or_eq_true s.motors_on with hm | hm
  · obtain ⟨_, _, _, _, _, ht, _⟩ := home_returns fuel s t r hm h
    rw [ht]
  · rw [home_else s hm fuel] at h
    simp only [Option.some.injEq, Prod.mk.injEq] at h
    rw [← h.2] at hs
    exact absurd hs (by decide)

/-- C6 at concrete inputs: the start-up `home` returns successfully with the flag
cleared. -/
theorem goal_writers_reported_witness :
    home 64 mainInit =
      some ({ mainInit with x := F64.fin (-80), y := F64.fin 0, x_goal := F64.fin 0,
                            y_goal := F64.fin 0, reported := false },
            { success := true, message := "Successfully homed." }) ∧
    ({ mainInit with x := F64.fin (-80), y := F64.fin 0, x_goal := F64.fin 0,
                     y_goal := F64.fin 0, reported := false } : State).reported = false :=
  ⟨home_startup, goal_writers_reported.2.2.1 64 mainInit _ _ home_startup rfl⟩

/-- C6 as stated fails for `halt`: in the state reached by the start-up `home`, 40 motor
ticks and one publisher call (carriage at rest at `(0, 0)`, goal event already sent) the
flag is set, and it is still set after `halt`; and in the state reached from start-up by
`move_to (1e307, 0)`, a tick, `halt`, a publisher call and a tick, the flag is set, Goal
differs from Position, and `halt` changes Goal and leaves the flag set. -/
theorem halt_reported_counterexample :
    Option.map (fun p =>
        ((runTimers p.1 (List.replicate 40 TimerEvent.simulate ++ [TimerEvent.publish 0])).1.reported,
         (halt (runTimers p.1
            (List.replicate 40 TimerEvent.simulate ++ [TimerEvent.publish 0])).1).reported))
      (home 64 mainInit) = some (true, true) ∧
    (simulateMotors (publishPosition (halt infState) 0).1).reported = true ∧
    (simulateMotors (publishPosition (halt infState) 0).1).x_goal = F64.inf false ∧
    (halt (simulateMotors (publishPosition (halt infState) 0).1)).x_goal = F64.nan ∧
    (halt (simulateMotors (publishPosition (halt infState) 0).1)).reported = true := by
  refine ⟨?_, ?_, ?_, ?_, ?_⟩
  · rw [home_startup]
    decide!
  all_goals decide!

theorem exec_v_scale (s t : State) (c : Command) (hc : exec s c = some t)
    (hne : ∀ d, c ≠ Command.velocity_scale d) : t.v_scale = s.v_scale := by
  cases c with
  | move dx dy => simp only [exec, Option.some.injEq] at hc; rw [← hc]; rfl
  | move_to px py => simp only [exec, Option.some.injEq] at hc; rw [← hc]; rfl
  | velocity_scale data => exact absurd rfl (hne data)
  | halt => simp only [exec, Option.some.injEq] at hc; rw [← hc]; rfl
  | tap => simp only [exec, Option.some.injEq] at hc; rw [← hc]; rfl
  | home fuel =>
    simp only [exec, Option.map_eq_some'] at hc
    obtain ⟨p, hp, rfl⟩ := hc
    rcases Bool.eq_false_or_eq_true s.motors_on with hm | hm
    · obtain ⟨_, _, _, _, _, ht, _⟩ := home_returns fuel s p.1 p.2 hm hp
      rw [ht]
    · rw [home_else s hm fuel] at hp
      simp only [Option.some.injEq] at hp
      rw [← hp]
  | set_endeff data => simp only [exec, Option.some.injEq] at hc; rw [← hc]; cases data <;> rfl
  | set_led data => simp only [exec, Option.some.injEq] at hc; rw [← hc]; cases data <;> rfl
  | set_motors data => simp only [exec, Option.some.injEq] at hc; rw [← hc]; cases data <;> rfl
  | simulateMotors =>
    simp only [exec, Option.some.injEq] at hc
    rw [← hc, tick_frame]
  | publishPosition now =>
    simp only [exec, Option.some.injEq] at hc
    rw [← hc]
    unfold publishPosition
    split_ifs <;> rfl

/-- The value `velocity_scale` stores for an input that is not NaN. -/
theorem clamp_value (d : F64) (hd : d ≠ F64.nan) :
    stdMin (stdMax d (F64.fin 0)) (F64.fin 1) =
      (if F64.lt d (F64.fin 0) then F64.fin 0 else if F64.lt (F64.fin 1) d then F64.fin 1
        else d) ∧
    F64.le (F64.fin 0) (stdMin (stdMax d (F64.fin 0)) (F64.fin 1)) = true ∧
    F64.le (stdMin (stdMax d (F64.fin 0)) (F64.fin 1)) (F64.fin 1) = true := by
  cases d with
  | nan => exact absurd rfl hd
  | inf b => cases b <;> decide!
  | fin q =>
    unfold stdMin stdMax
    by_cases h0 : q < 0
    · have h1 : F64.lt (F64.fin q) (F64.fin 0) = true := by simp [F64.lt, h0]
      rw [h1]
      norm_num [F64.lt, F64.le]
    · have h1 : F64.lt (F64.fin q) (F64.fin 0) = false := by simp [F64.lt, h0]
      rw [h1]
      by_cases h2 : 1 < q
      · have h3 : F64.lt (F64.fin 1) (F64.fin q) = true := by simp [F64.lt, h2]
        simp [h3, F64.le]
      · have h3 : F64.lt (F64.fin 1) (F64.fin q) = false := by simp [F64.lt, h2]
        simp only [h3, Bool.false_eq_true, if_false, F64.le, decide_eq_true_eq]
        exact ⟨trivial, not_lt.mp h0, not_lt.mp h2⟩

/-- C7 (as amended): for every input that is not NaN (the infinities included),
`velocity_scale` stores exactly the clamped input (0 below 0, 1 above 1, the input
otherwise), a value in [0,1], and changes nothing else; a NaN input is stored as NaN; no
other callback changes `v_scale`; `main` starts with `v_scale = 1`; hence every state
reached without a NaN `velocity_scale` message has `v_scale` in [0,1]. -/
theorem velocity_scale_clamped :
    (∀ (s : State) (d : F64), d ≠ F64.nan →
      velocity_scale s d =
        { s with v_scale := if F64.lt d (F64.fin 0) then F64.fin 0
                            else if F64.lt (F64.fin 1) d then F64.fin 1 else d } ∧
      F64.le (F64.fin 0) (velocity_scale s d).v_scale = true ∧
      F64.le (velocity_scale s d).v_scale (F64.fin 1) = true) ∧
    (∀ s : State, velocity_scale s F64.nan = { s with v_scale := F64.nan }) ∧
    (∀ (s t : State) (c : Command), exec s c = some t →
      (∀ d, c ≠ Command.velocity_scale d) → t.v_scale = s.v_scale) ∧
    mainInit.v_scale = F64.fin 1 ∧
    (∀ s : State, ReachableNoNaN s →
      F64.le (F64.fin 0) s.v_scale = true ∧ F64.le s.v_scale (F64.fin 1) = true) := by
  refine ⟨fun s d hd => ?_, fun s => rfl, exec_v_scale, rfl, ?_⟩
  · obtain ⟨e, h0, h1⟩ := clamp_value d hd
    refine ⟨?_, h0, h1⟩
    show ({ s with v_scale := stdMin (stdMax d (F64.fin 0)) (F64.fin 1) } : State) = _
    rw [e]
  · intro s hr
    induction hr with
    | start => exact ⟨by decide!, by decide!⟩
    | step s t c _ hn hc ih =>
      by_cases hv : ∃ d, c = Command.velocity_scale d
      · obtain ⟨d, rfl⟩ := hv
        simp only [exec, Option.some.injEq] at hc
        rw [← hc]
        obtain ⟨_, h0, h1⟩ := clamp_value d (hn d rfl)
        exact ⟨h0, h1⟩
      · rw [exec_v_scale s t c hc (fun d hd => hv ⟨d, hd⟩)]
        exact ih

/-- C7 at concrete inputs: after `velocity_scale 5` (out of range) the scale is 1, and
after a further motor tick it still lies in [0,1]. -/
theorem velocity_scale_clamped_witness :
    F64.fin 5 ≠ F64.nan ∧
    (velocity_scale mainInit (F64.fin 5)).v_scale = F64.fin 1 ∧
    F64.le (F64.fin 0) (simulateMotors (velocity_scale mainInit (F64.fin 5))).v_scale = true ∧
    F64.le (simulateMotors (velocity_scale mainInit (F64.fin 5))).v_scale (F64.fin 1) = true :=
  ⟨by decide, by decide!,
    velocity_scale_clamped.2.2.2.2 _
      (ReachableNoNaN.step _ _ Command.simulateMotors
        (ReachableNoNaN.step _ _ (Command.velocity_scale (F64.fin 5)) ReachableNoNaN.start
          (fun d hd => by
            cases hd
            decide) rfl)
        (fun d hd => by cases hd) rfl)⟩

/-- C7 as stated fails: a `velocity_scale` message carrying NaN passes through
`std::max` and `std::min` unchanged, so the state after it has `v_scale = NaN`, which is
neither at least 0 nor at most 1; and it stays NaN over a motor tick. -/
theorem velocity_scale_counterexample :
    (velocity_scale mainInit F64.nan).v_scale = F64.nan ∧
    F64.le (F64.fin 0) (velocity_scale mainInit F64.nan).v_scale = false ∧
    F64.le (velocity_scale mainInit F64.nan).v_scale (F64.fin 1) = false ∧
    exec mainInit (Command.velocity_scale F64.nan) = some (velocity_scale mainInit F64.nan) ∧
    (simulateMotors (velocity_scale mainInit F64.nan)).v_scale = F64.nan := by
  decide!

/-- C8 (as amended): `move_to`, `velocity_scale`, `halt`, `set_endeff`, `set_led` and
`set_motors` give the same state (and response) when repeated with the same argument;
whenever `home` returns and a second `home` returns, the second leaves the state of the
first and gives the same response; and for the motors on, a velocity scale between
`2 ^ (-20)` and 1, the bounds of `main` and a finite start position within `2 ^ 20` of the
origin, both calls do return. -/
theorem commands_idempotent :
    (∀ (s : State) (px py : F64), move_to (move_to s px py) px py = move_to s px py) ∧
    (∀ (s : State) (d : F64), velocity_scale (velocity_scale s d) d = velocity_scale s d) ∧
    (∀ s : State, halt (halt s) = halt s) ∧
    (∀ (fuel fuel2 : ℕ) (s t t2 : State) (r r2 : Response), home fuel s = some (t, r) →
      home fuel2 t = some (t2, r2) → t2 = t ∧ r2 = r) ∧
    (∀ (s : State) (v p q : ℚ), s.motors_on = true → s.v_scale = F64.fin v →
      1 / 2 ^ (20 : ℕ) ≤ v → v ≤ 1 → s.x_bound = F64.fin (-580) → s.y_bound = F64.fin 300 →
      s.x = F64.fin p → |p| ≤ 2 ^ (20 : ℕ) → s.y = F64.fin q → |q| ≤ 2 ^ (20 : ℕ) →
      ∃ N, ∀ fuel, N ≤ fuel → ∃ t r, home fuel s = some (t, r) ∧ home fuel t = some (t, r)) ∧
    (∀ (s : State) (b : Bool), set_endeff (set_endeff s b).1 b = set_endeff s b) ∧
    (∀ (s : State) (b : Bool), set_led (set_led s b).1 b = set_led s b) ∧
    (∀ (s : State) (b : Bool), set_motors (set_motors s b).1 b = set_motors s b) := by
  refine ⟨fun _ _ _ => rfl, fun _ _ => rfl, fun _ => rfl, ?_, ?_, ?_, ?_, ?_⟩
  · intro fuel fuel2 s t t2 r r2 h h2
    rcases Bool.eq_false_or_eq_true s.motors_on with hm | hm
    · obtain ⟨_, _, _, _, _, ht, hr⟩ := home_returns fuel s t r hm h
      have hmt : t.motors_on = true := by rw [ht]; exact hm
      obtain ⟨_, _, _, _, _, ht2, hr2⟩ := home_returns fuel2 t t2 r2 hmt h2
      refine ⟨?_, by rw [hr, hr2]⟩
      rw [ht2, ht]
    · rw [home_else s hm fuel] at h
      simp only [Option.some.injEq, Prod.mk.injEq] at h
      rw [← h.1, home_else s hm fuel2] at h2
      simp only [Option.some.injEq, Prod.mk.injEq] at h2
      rw [← h.1, ← h.2]
      exact ⟨h2.1.symm, h2.2.symm⟩
  · intro s v p q hm hv h8 h1 hxb hyb hx hp hy hq
    obtain ⟨N, hN⟩ := home_family s v p q hm hv h8 h1 hxb hyb hx hp hy hq
    obtain ⟨N2, hN2⟩ := home_family
      { s with x := F64.fin (-80), y := F64.fin 0, x_goal := F64.fin 0, y_goal := F64.fin 0,
               reported := false } v (-80) 0 hm hv h8 h1 hxb hyb rfl (by norm_num [abs_le]) rfl
      (by norm_num)
    refine ⟨N + N2, fun fuel hf => ⟨_, _, hN fuel (by omega), ?_⟩⟩
    rw [hN2 fuel (by omega)]
  · intro s b
    cases b <;> rfl
  · intro s b
    cases b <;> rfl
  · intro s b
    cases b <;> rfl

/-- C8 at concrete inputs: after the start-up `home` a second `home` returns the same
state and response. -/
theorem commands_idempotent_witness :
    ∃ N, ∀ fuel, N ≤ fuel → ∃ t r, home fuel mainInit = some (t, r) ∧
      home fuel t = some (t, r) :=
  commands_idempotent.2.2.2.2.1 mainInit 1 0 0 rfl rfl (by norm_num) (by norm_num) rfl rfl rfl
    (by norm_num) rfl (by norm_num)

/-- C8 as stated fails for the relative move: in the example scenario `move (1, 0)` once
sets the goal to `(-199, 150)`, twice to `(-198, 150)`. -/
theorem move_idempotent_counterexample :
    move (move scenario (F64.fin 1) (F64.fin 0)) (F64.fin 1) (F64.fin 0)
      ≠ move scenario (F64.fin 1) (F64.fin 0) ∧
    (move scenario (F64.fin 1) (F64.fin 0)).x_goal = F64.fin (-199) ∧
    (move (move scenario (F64.fin 1) (F64.fin 0)) (F64.fin 1) (F64.fin 0)).x_goal
      = F64.fin (-198) := by
  decide!

/-- C9 (as amended): `halt` sets Goal to the current Position and leaves Position (and
everything else) alone; when the Position is finite on both axes, any number of motor
ticks after `halt` leaves the whole state, so in particular Position, exactly as `halt`
left it, whatever the velocity scale. -/
theorem halt_cancels_motion (s : State) :
    (halt s).x_goal = s.x ∧ (halt s).y_goal = s.y ∧ (halt s).x = s.x ∧ (halt s).y = s.y ∧
    halt s = { s with x_goal := s.x, y_goal := s.y } ∧
    (s.x.isFinite = true → s.y.isFinite = true →
      ∀ n : ℕ, simulateMotors^[n] (halt s) = halt s ∧
        (simulateMotors^[n] (halt s)).x = s.x ∧ (simulateMotors^[n] (halt s)).y = s.y) := by
  refine ⟨rfl, rfl, rfl, rfl, rfl, fun hx hy n => ?_⟩
  have hg : atGoal (halt s) = true := by
    obtain ⟨p, hxp, _⟩ := (isFinite_iff _).mp hx
    obtain ⟨q, hyq, _⟩ := (isFinite_iff _).mp hy
    show (F64.eq s.x s.x && F64.eq s.y s.y) = true
    rw [hxp, hyq]
    simp [F64.eq]
  have h := iterate_of_fixed (halt s) (tick_fixed (halt s) hx hy hg) n
  rw [h]
  exact ⟨rfl, rfl, rfl⟩

/-- C9 in the example scenario: `halt` after ten ticks of the move to `(-300, 150)` keeps
the carriage where it is over 100 further ticks. -/
theorem halt_cancels_motion_witness :
    (simulateMotors^[10] (move_to scenario (F64.fin (-300)) (F64.fin 150))).x.isFinite = true ∧
    (simulateMotors^[10] (move_to scenario (F64.fin (-300)) (F64.fin 150))).y.isFinite = true ∧
    (simulateMotors^[100]
      (halt (simulateMotors^[10] (move_to scenario (F64.fin (-300)) (F64.fin 150))))).x
      = (simulateMotors^[10] (move_to scenario (F64.fin (-300)) (F64.fin 150))).x :=
  ⟨by rw [scenario_tick10]; decide!, by rw [scenario_tick10]; decide!,
    ((halt_cancels_motion (simulateMotors^[10]
      (move_to scenario (F64.fin (-300)) (F64.fin 150)))).2.2.2.2.2
        (by rw [scenario_tick10]; decide!) (by rw [scenario_tick10]; decide!) 100).2.1⟩

/-- C9 as stated fails: one tick after `move_to (1e307, 0)` from the start-up state the
x coordinate is `+inf`; `halt` there sets the goal to `+inf`, and the next tick computes
`inf - inf` and leaves the x coordinate NaN, not where it was. -/
theorem halt_cancels_motion_counterexample :
    infState.x = F64.inf false ∧ (halt infState).x_goal = F64.inf false ∧
    (simulateMotors (halt infState)).x = F64.nan := by
  decide!

/-- C19 (as amended): in a state with ReportedFlag false whose Position is not NaN on
either axis, `halt` followed by `publishPosition` publishes exactly one goal event,
carrying the halted Position, and sets ReportedFlag, whether or not the commanded goal was
reached; in a state with ReportedFlag true, `halt` followed by `publishPosition` publishes
no goal event. -/
theorem halt_goal_event (s : State) (now : ℕ) :
    (s.reported = false → s.x.isNaN = false → s.y.isNaN = false →
      goalEvents (publishPosition (halt s) now).2
        = [{ seq := s.seq, stamp := now, frame_id := "rvc", name := ["x", "y"],
             position := [s.x, s.y], effort := [s.x_col, s.y_col] }] ∧
      (publishPosition (halt s) now).1.reported = true ∧
      (publishPosition (halt s) now).1.x = s.x ∧ (publishPosition (halt s) now).1.y = s.y) ∧
    (s.reported = true →
      goalEvents (publishPosition (halt s) now).2 = [] ∧
      (publishPosition (halt s) now).1.reported = true) := by
  constructor
  · intro h hx hy
    have hg : atGoal (halt s) = true := by
      show (F64.eq s.x s.x && F64.eq s.y s.y) = true
      rw [eq_self s.x hx, eq_self s.y hy]
      rfl
    obtain ⟨hev, hrep⟩ := (publishPosition_goal (halt s) now).1 ⟨hg, h⟩
    refine ⟨hev, hrep, ?_, ?_⟩ <;> rw [publishPosition_frame] <;> rfl
  · intro h
    obtain ⟨hev, hrep⟩ := (publishPosition_goal (halt s) now).2
      (fun c => by
        have hc : s.reported = false := c.2
        rw [h] at hc
        exact absurd hc (by decide))
    exact ⟨hev, hrep.trans h⟩

/-- C19 at the example scenario: `move_to (-300, 150)`, ten ticks, then `halt` and a
publisher call give one goal event at the halted position, whose x is the double
-224.00000000000006 and not the commanded goal; a second `halt` and publisher call give
none. -/
theorem halt_goal_event_witness :
    (simulateMotors^[10] (move_to scenario (F64.fin (-300)) (F64.fin 150))).reported = false ∧
    goalEvents (publishPosition (halt (simulateMotors^[10]
        (move_to scenario (F64.fin (-300)) (F64.fin 150)))) 5).2
      = [{ seq := 0, stamp := 5, frame_id := "rvc", name := ["x", "y"],
           position := [F64.fin (-3940649673949185 / 17592186044416), F64.fin 150],
           effort := [F64.fin 0, F64.fin 0] }] ∧
    goalEvents (publishPosition (halt (publishPosition
        (halt (simulateMotors^[10] (move_to scenario (F64.fin (-300)) (F64.fin 150)))) 5).1)
          6).2 = [] := by
  refine ⟨by rw [scenario_tick10]; rfl, ?_, ?_⟩
  · rw [((halt_goal_event (simulateMotors^[10]
      (move_to scenario (F64.fin (-300)) (F64.fin 150))) 5).1
      (by rw [scenario_tick10]; rfl) (by rw [scenario_tick10]; rfl)
      (by rw [scenario_tick10]; rfl)).1, scenario_tick10]
    rfl
  · exact ((halt_goal_event _ 6).2 (by rw [scenario_tick10]; decide!)).1

/-- C19 as stated fails: two ticks after `move_to (0, 1e307)` from the start-up state
ReportedFlag is false and the y coordinate is NaN; `halt` followed by `publishPosition`
then publishes no goal event and leaves ReportedFlag false, because `y_goal == y`
compares NaN with NaN. -/
theorem halt_goal_event_counterexample :
    nanState.reported = false ∧ nanState.y = F64.nan ∧
    goalEvents (publishPosition (halt nanState) 0).2 = [] ∧
    (publishPosition (halt nanState) 0).1.reported = false := by
  decide!

/-! ## Division by zero -/

/-- C13 (as amended): when neither delta `x_goal - x`, `y_goal - y` is NaN (so for all
finite positions and goals): if both deltas are zero no division is evaluated; otherwise
in the branch taken when `|y_goal - y| > |x_goal - x|` both divisions are by
`|y_goal - y|`, which is not zero, and in the remaining branch both are by `|x_goal - x|`,
which is not zero; so the checked velocity is the velocity. -/
theorem no_division_by_zero (s : State) (hx : (F64.sub s.x_goal s.x).isNaN = false)
    (hy : (F64.sub s.y_goal s.y).isNaN = false) :
    ((F64.eq (F64.sub s.y_goal s.y) (F64.fin 0) && F64.eq (F64.sub s.x_goal s.x) (F64.fin 0))
        = true → divisors s = []) ∧
    ((F64.eq (F64.sub s.y_goal s.y) (F64.fin 0) && F64.eq (F64.sub s.x_goal s.x) (F64.fin 0))
        = false →
      (F64.lt (F64.fabs (F64.sub s.x_goal s.x)) (F64.fabs (F64.sub s.y_goal s.y)) = true →
        divisors s = [F64.fabs (F64.sub s.y_goal s.y), F64.fabs (F64.sub s.y_goal s.y)] ∧
        F64.eq (F64.fabs (F64.sub s.y_goal s.y)) (F64.fin 0) = false) ∧
      (F64.lt (F64.fabs (F64.sub s.x_goal s.x)) (F64.fabs (F64.sub s.y_goal s.y)) = false →
        divisors s = [F64.fabs (F64.sub s.x_goal s.x), F64.fabs (F64.sub s.x_goal s.x)] ∧
        F64.eq (F64.fabs (F64.sub s.x_goal s.x)) (F64.fin 0) = false)) ∧
    (∀ d ∈ divisors s, F64.eq d (F64.fin 0) = false) ∧
    velocityChecked s = some (velocity s) := by
  unfold divisors velocityChecked velocity checkedDiv
  generalize F64.sub s.x_goal s.x = dx at hx ⊢
  generalize F64.sub s.y_goal s.y = dy at hy ⊢
  cases dx with
  | nan => simp [F64.isNaN] at hx
  | inf a =>
    cases dy with
    | nan => simp [F64.isNaN] at hy
    | inf b => simp [F64.eq, F64.fabs, F64.lt]
    | fin q => simp [F64.eq, F64.fabs, F64.lt]
  | fin p =>
    cases dy with
    | nan => simp [F64.isNaN] at hy
    | inf b => simp [F64.eq, F64.fabs, F64.lt]
    | fin q =>
      simp only [F64.eq, F64.fabs, F64.lt, Bool.and_eq_true, decide_eq_true_eq,
        Bool.and_eq_false_iff, decide_eq_false_iff_not]
      by_cases h0 : q = 0 ∧ p = 0
      · simp [h0]
      · by_cases h1 : |p| < |q|
        · have hq : ¬ |q| = 0 := fun c => by
            rw [c] at h1
            exact absurd h1 (not_lt.mpr (abs_nonneg p))
          simp [h0, h1, hq]
        · have hp : ¬ |p| = 0 := fun c => by
            rw [c] at h1
            have hq0 : |q| = 0 := le_antisymm (not_lt.mp h1) (abs_nonneg q)
            exact h0 ⟨abs_eq_zero.mp hq0, abs_eq_zero.mp c⟩
          simp [h0, h1, hp]

/-- C13 in the example scenario after `move_to (-300, 150)`: the y delta is zero, the
branch taken divides twice by `|x_goal - x| = 100`. -/
theorem no_division_by_zero_witness :
    (F64.sub (move_to scenario (F64.fin (-300)) (F64.fin 150)).x_goal
      (move_to scenario (F64.fin (-300)) (F64.fin 150)).x).isNaN = false ∧
    (F64.sub (move_to scenario (F64.fin (-300)) (F64.fin 150)).y_goal
      (move_to scenario (F64.fin (-300)) (F64.fin 150)).y).isNaN = false ∧
    divisors (move_to scenario (F64.fin (-300)) (F64.fin 150)) = [F64.fin 100, F64.fin 100] ∧
    velocityChecked (move_to scenario (F64.fin (-300)) (F64.fin 150))
      = some (velocity (move_to scenario (F64.fin (-300)) (F64.fin 150))) :=
  ⟨by decide!, by decide!, by decide!,
    (no_division_by_zero (move_to scenario (F64.fin (-300)) (F64.fin 150)) (by decide!)
      (by decide!)).2.2.2⟩

/-- C13 as stated fails: two ticks after `move_to (0, 1e307)` from the start-up state the
y coordinate is NaN while x equals its goal 0; the y delta is NaN, both comparisons of
lines 210 and 213 are false, and the last branch divides twice by `|x_goal - x| = 0`. -/
theorem no_division_by_zero_counterexample :
    nanState.y = F64.nan ∧ nanState.x = nanState.x_goal ∧
    divisors nanState = [F64.fin 0, F64.fin 0] ∧ velocityChecked nanState = none := by
  decide!

/-- In the normal range the rounded magnitude is within a relative `2 ^ (-53)`. -/
theorem roundMag_rel (a : ℚ) (k : ℕ) (hk : k ≤ 1022) (ha : 1 / 2 ^ k ≤ a) :
    |roundMag a - a| ≤ a / 2 ^ (53 : ℕ) := by
  have hpos : 0 < a := lt_of_lt_of_le (by positivity) ha
  obtain ⟨lo, hi⟩ := ilog2_spec a hpos
  have hlog : -1022 ≤ ilog2 a := by
    have h : (2 : ℚ) ^ (-(k : ℤ)) < 2 ^ (ilog2 a + 1) := by
      rw [zpow_neg, zpow_natCast, ← one_div]
      exact lt_of_le_of_lt ha hi
    have := (zpow_lt_zpow_iff_right₀ (by norm_num : (1 : ℚ) < 2)).mp h
    omega
  have hu : 0 < ulp a := ulp_pos a
  have hu1 : ulp a ≤ a / 2 ^ (52 : ℕ) := by
    unfold ulp
    rw [max_eq_left hlog, zpow_sub₀ (by norm_num : (2 : ℚ) ≠ 0)]
    have e : (2 : ℚ) ^ (52 : ℤ) = 2 ^ (52 : ℕ) := by norm_num
    rw [e]
    exact div_le_div_of_nonneg_right lo (by positivity)
  have he := rne_error (a / ulp a)
  have hmul : roundMag a - a = ((rne (a / ulp a) : ℚ) - a / ulp a) * ulp a := by
    unfold roundMag
    field_simp
  rw [hmul, abs_mul, abs_of_pos hu]
  calc |(rne (a / ulp a) : ℚ) - a / ulp a| * ulp a ≤ 1 / 2 * (a / 2 ^ (52 : ℕ)) :=
        mul_le_mul he hu1 (le_of_lt hu) (by norm_num)
    _ = a / 2 ^ (53 : ℕ) := by ring

/-- Between `2 ^ (-k)` (`k ≤ 1022`) and `2 ^ m` (`m ≤ 1023`) in magnitude, rounding to
binary64 gives a finite value with relative error at most `2 ^ (-53)`. -/
theorem round_rel (r : ℚ) (k m : ℕ) (hk : k ≤ 1022) (hm : m ≤ 1023) (h1 : 1 / 2 ^ k ≤ |r|)
    (h2 : |r| < 2 ^ m) :
    ∃ r2 : ℚ, round r = F64.fin r2 ∧ |r2 - r| ≤ |r| / 2 ^ (53 : ℕ) := by
  have hpos : (0 : ℚ) < 2 ^ m := by positivity
  have hlim : (2 : ℚ) ^ m + 2 ^ m ≤ 2 ^ (1024 : ℕ) := by
    have hpow : (2 : ℚ) ^ m ≤ 2 ^ (1023 : ℕ) := pow_le_pow_right₀ (by norm_num) hm
    have h24 : (2 : ℚ) ^ (1024 : ℕ) = 2 ^ (1023 : ℕ) + 2 ^ (1023 : ℕ) := by norm_num
    rw [h24]
    exact add_le_add hpow hpow
  have hr0 : 0 < |r| := lt_of_lt_of_le (by positivity) h1
  have hsm : |r| / 2 ^ (53 : ℕ) ≤ |r| := div_le_self (le_of_lt hr0) (by norm_num)
  rcases lt_trichotomy r 0 with hr | hr | hr
  · rw [abs_of_neg hr] at h1 h2 hsm ⊢
    have he := roundMag_rel (-r) k hk h1
    rw [abs_le] at he
    have hfin : ¬ (2 : ℚ) ^ (1024 : ℕ) ≤ roundMag (-r) := by
      intro hc
      linarith
    refine ⟨-roundMag (-r), by rw [round_of_neg r hr, if_neg hfin], ?_⟩
    rw [abs_le]
    constructor <;> linarith
  · rw [hr] at hr0
    simp at hr0
  · rw [abs_of_pos hr] at h1 h2 hsm ⊢
    have he := roundMag_rel r k hk h1
    have he2 := he
    rw [abs_le] at he2
    have hfin : ¬ (2 : ℚ) ^ (1024 : ℕ) ≤ roundMag r := by
      intro hc
      linarith
    exact ⟨roundMag r, by rw [round_of_pos r hr, if_neg hfin], he⟩

/-- Rounding a non-negative real gives a non-negative finite double or `+inf`. -/
theorem round_nonneg_cases (q : ℚ) (hq : 0 ≤ q) :
    (∃ r : ℚ, round q = F64.fin r ∧ 0 ≤ r) ∨ round q = F64.inf false := by
  have h := round_nonneg q hq
  cases e : round q with
  | nan => exact absurd e (round_ne_nan q)
  | inf b =>
    rw [e] at h
    cases b with
    | false => exact Or.inr rfl
    | true => simp [F64.le] at h
  | fin r =>
    rw [e] at h
    simp only [F64.le, decide_eq_true_eq] at h
    exact Or.inl ⟨r, rfl, h⟩

/-- Rounding a non-positive real gives a non-positive finite double or `-inf`. -/
theorem round_nonpos_cases (q : ℚ) (hq : q ≤ 0) :
    (∃ r : ℚ, round q = F64.fin r ∧ r ≤ 0) ∨ round q = F64.inf true := by
  have h := round_nonpos q hq
  cases e : round q with
  | nan => exact absurd e (round_ne_nan q)
  | inf b =>
    rw [e] at h
    cases b with
    | true => exact Or.inr rfl
    | false => simp [F64.le] at h
  | fin r =>
    rw [e] at h
    simp only [F64.le, decide_eq_true_eq] at h
    exact Or.inl ⟨r, rfl, h⟩

/-- A finite rounding result has the sign of the exact value. -/
theorem round_fin_sign (q r : ℚ) (h : round q = F64.fin r) :
    (0 ≤ q → 0 ≤ r) ∧ (q ≤ 0 → r ≤ 0) := by
  constructor
  · intro hq
    rcases round_nonneg_cases q hq with ⟨r2, e, hr⟩ | e
    · rw [h] at e
      cases e
      exact hr
    · rw [h] at e
      cases e
  · intro hq
    rcases round_nonpos_cases q hq with ⟨r2, e, hr⟩ | e
    · rw [h] at e
      cases e
      exact hr
    · rw [h] at e
      cases e

/-- A finite rounding result of a real at most (at least) a double is at most (at least)
that double. -/
theorem round_fin_le (q r d : ℚ) (h : round q = F64.fin r) (hd : round d = F64.fin d) :
    (q ≤ d → r ≤ d) ∧ (d ≤ q → d ≤ r) := by
  constructor
  · intro hq
    have := round_mono q d hq
    rw [h, hd] at this
    simpa [F64.le] using this
  · intro hq
    have := round_mono d q hq
    rw [h, hd] at this
    simpa [F64.le] using this

/-- The magnitude of a finite rounding result is the rounding of the magnitude. -/
theorem round_fin_abs (q r : ℚ) (h : round q = F64.fin r) : round |q| = F64.fin |r| := by
  have := fabs_round q
  rw [h] at this
  exact this.symm

/-! ## Snapping -/

/-- The snap test of lines 224-227 on one axis with finite goal `g` and finite coordinate
`p`: a real distance of at most 2.4 snaps, and an axis that is not snapped is more than
2.4 away. -/
theorem snap_axis (g p : ℚ) :
    (|g - p| ≤ 24 / 10 →
      F64.le (F64.fabs (F64.sub (F64.fin g) (F64.fin p))) lit_2_4 = true) ∧
    (F64.le (F64.fabs (F64.sub (F64.fin g) (F64.fin p))) lit_2_4 = false →
      24 / 10 < |g - p|) := by
  have h1 : |g - p| ≤ 24 / 10 →
      F64.le (F64.fabs (F64.sub (F64.fin g) (F64.fin p))) lit_2_4 = true := by
    intro h
    simp only [F64.sub]
    rw [fabs_round]
    exact round_mono _ _ h
  refine ⟨h1, fun h => ?_⟩
  by_contra hc
  rw [h1 (not_lt.mp hc)] at h
  exact absurd h (by decide)

/-! ## Velocity scale 0 -/

theorem mul_zero_right (r : ℚ) : F64.mul (F64.fin r) (F64.fin 0) = F64.fin 0 := by
  simp only [F64.mul, mul_zero, round_zero]

theorem mul_zero_left (r : ℚ) : F64.mul (F64.fin 0) (F64.fin r) = F64.fin 0 := by
  simp only [F64.mul, zero_mul, round_zero]

/-- At velocity scale 0 the velocity of the major axis is 0. -/
theorem zero_major (d : ℚ) (hd : d ≠ 0) :
    F64.div (F64.mul (F64.mul speed (F64.fin 0)) (F64.fin d)) (F64.fabs (F64.fin d))
      = F64.fin 0 := by
  have h1 : F64.mul speed (F64.fin 0) = F64.fin 0 := by
    unfold speed
    exact mul_zero_right _
  rw [h1, mul_zero_left]
  simp only [F64.fabs, F64.div, abs_eq_zero, hd, if_false, zero_div, round_zero]

/-- The quotient of the minor delta by the magnitude of the major one is finite, at most
1 in magnitude. -/
theorem minor_quotient (d a : ℚ) (ha : a ≠ 0) (hda : |d| ≤ |a|) :
    ∃ q : ℚ, F64.div (F64.fin d) (F64.fabs (F64.fin a)) = F64.fin q ∧ |q| ≤ 1 ∧
      (0 ≤ d → 0 ≤ q) ∧ (d ≤ 0 → q ≤ 0) ∧ (d = 0 → q = 0) := by
  have hapos : 0 < |a| := abs_pos.mpr ha
  have hq1 : abs (d / abs a) ≤ 1 := by
    rw [abs_div, abs_abs]
    exact (div_le_one hapos).mpr hda
  obtain ⟨q, e, _⟩ := round_err (d / |a|) 1 (by norm_num) (lt_of_le_of_lt hq1 (by norm_num))
  have hone : round 1 = F64.fin 1 := by decide!
  have hmone : round (-1) = F64.fin (-1) := by decide!
  rw [abs_le] at hq1
  refine ⟨q, ?_, ?_, ?_, ?_, ?_⟩
  · simp only [F64.fabs, F64.div, abs_eq_zero, ha, if_false]
    exact e
  · rw [abs_le]
    exact ⟨(round_fin_le _ q (-1) e hmone).2 hq1.1, (round_fin_le _ q 1 e hone).1 hq1.2⟩
  · intro h
    exact (round_fin_sign _ q e).1 (div_nonneg h (le_of_lt hapos))
  · intro h
    exact (round_fin_sign _ q e).2 (div_nonpos_of_nonpos_of_nonneg h (le_of_lt hapos))
  · intro h
    rw [h, zero_div, round_zero] at e
    cases e
    rfl

/-- At velocity scale 0 the velocity of the minor axis is 0. -/
theorem zero_minor (d a : ℚ) (ha : a ≠ 0) (hda : |d| ≤ |a|) :
    F64.mul (F64.mul (F64.div (F64.fin d) (F64.fabs (F64.fin a))) speed) (F64.fin 0)
      = F64.fin 0 := by
  obtain ⟨q, e, hq, _⟩ := minor_quotient d a ha hda
  rw [e]
  unfold speed
  rw [abs_le] at hq
  have hb : |q * (((600 / 200 * 20 * 2 : ℤ) : ℚ))| < 2 ^ (8 : ℕ) := by
    rw [abs_lt]
    constructor <;> norm_num <;> linarith
  obtain ⟨r, er, _⟩ := round_err _ 8 (by norm_num) hb
  simp only [F64.mul]
  rw [er]
  exact mul_zero_right r

/-- At velocity scale 0 and with finite deltas the velocity is zero on both axes. -/
theorem velocity_zero_scale (s : State) (dx dy : ℚ) (hv : s.v_scale = F64.fin 0)
    (hdx : F64.sub s.x_goal s.x = F64.fin dx) (hdy : F64.sub s.y_goal s.y = F64.fin dy) :
    velocity s = (F64.fin 0, F64.fin 0) := by
  unfold velocity
  rw [hdx, hdy, hv]
  by_cases h0 : dy = 0 ∧ dx = 0
  · simp [F64.eq, h0]
  · have hc : (F64.eq (F64.fin dy) (F64.fin 0) && F64.eq (F64.fin dx) (F64.fin 0)) = false := by
      simp only [F64.eq, Bool.and_eq_false_iff, decide_eq_false_iff_not]
      by_cases hy : dy = 0
      · exact Or.inr (fun hx => h0 ⟨hy, hx⟩)
      · exact Or.inl hy
    rw [hc]
    simp only [Bool.false_eq_true, if_false]
    by_cases h1 : |dx| < |dy|
    · have hl : F64.lt (F64.fabs (F64.fin dx)) (F64.fabs (F64.fin dy)) = true := by
        simp [F64.lt, F64.fabs, h1]
      have hy : dy ≠ 0 := fun c => by
        rw [c, abs_zero] at h1
        exact absurd h1 (not_lt.mpr (abs_nonneg dx))
      rw [hl]
      simp only [if_true]
      rw [zero_major dy hy, zero_minor dx dy hy (le_of_lt h1)]
    · have hl : F64.lt (F64.fabs (F64.fin dx)) (F64.fabs (F64.fin dy)) = false := by
        simp [F64.lt, F64.fabs, h1]
      have hx : dx ≠ 0 := fun c => by
        rw [c, abs_zero] at h1
        have hq0 : |dy| = 0 := le_antisymm (not_lt.mp h1) (abs_nonneg dy)
        exact h0 ⟨abs_eq_zero.mp hq0, c⟩
      rw [hl]
      simp only [Bool.false_eq_true, if_false]
      rw [zero_major dx hx, zero_minor dy dx hx (not_lt.mp h1)]

/-- A tick at velocity scale 0 from a finite position with finite deltas: each axis is set
to its goal if the computed distance is at most the double 2.4 and left alone otherwise. -/
theorem zero_tick (t : State) (px py gx gy dx dy : ℚ) (hv : t.v_scale = F64.fin 0)
    (hx : t.x = F64.fin px) (hpx : round px = F64.fin px)
    (hy : t.y = F64.fin py) (hpy : round py = F64.fin py)
    (hgx : t.x_goal = F64.fin gx) (hgy : t.y_goal = F64.fin gy)
    (hdx : F64.sub (F64.fin gx) (F64.fin px) = F64.fin dx)
    (hdy : F64.sub (F64.fin gy) (F64.fin py) = F64.fin dy) :
    simulateMotors t =
      { t with x := if F64.le (F64.fin |dx|) lit_2_4 then F64.fin gx else F64.fin px,
               y := if F64.le (F64.fin |dy|) lit_2_4 then F64.fin gy else F64.fin py } := by
  have hvel := velocity_zero_scale t dx dy hv (by rw [hgx, hx]; exact hdx)
    (by rw [hgy, hy]; exact hdy)
  have ex : (simulateMotors t).x =
      if F64.le (F64.fin |dx|) lit_2_4 then F64.fin gx else F64.fin px := by
    rw [tick_x, hvel, hx, hgx, add_zero_step px hpx, hdx]
    rfl
  have ey : (simulateMotors t).y =
      if F64.le (F64.fin |dy|) lit_2_4 then F64.fin gy else F64.fin py := by
    rw [tick_y, hvel, hy, hgy, add_zero_step py hpy, hdy]
    rfl
  rw [tick_frame t, ex, ey]

theorem sub_self_fin (g : ℚ) : F64.sub (F64.fin g) (F64.fin g) = F64.fin 0 := by
  simp only [F64.sub, sub_self, round_zero]

/-- At velocity scale 0 an x axis whose computed distance exceeds the double 2.4 stays
where it is over any number of ticks, and Position never equals Goal. -/
theorem zero_stuck_x (px gx gy dx : ℚ) (hpx : round px = F64.fin px)
    (hgy2 : round gy = F64.fin gy)
    (hdx : F64.sub (F64.fin gx) (F64.fin px) = F64.fin dx)
    (hfar : F64.le (F64.fin |dx|) lit_2_4 = false) (n : ℕ) :
    ∀ (t : State) (py dy : ℚ), t.v_scale = F64.fin 0 → t.x = F64.fin px →
      t.y = F64.fin py → round py = F64.fin py → t.x_goal = F64.fin gx →
      t.y_goal = F64.fin gy → F64.sub (F64.fin gy) (F64.fin py) = F64.fin dy →
      (simulateMotors^[n] t).x = F64.fin px ∧ atGoal (simulateMotors^[n] t) = false := by
  have hne : gx ≠ px := by
    intro c
    rw [c, sub_self_fin] at hdx
    cases hdx
    rw [abs_zero] at hfar
    have : F64.le (F64.fin 0) lit_2_4 = true := by decide!
    rw [this] at hfar
    exact absurd hfar (by decide)
  induction n with
  | zero =>
    intro t py dy hv hx hy hpy hgx hgy hdy
    refine ⟨hx, ?_⟩
    show (F64.eq t.x_goal t.x && F64.eq t.y_goal t.y) = false
    rw [hgx, hx]
    simp [F64.eq, hne]
  | succ n ih =>
    intro t py dy hv hx hy hpy hgx hgy hdy
    rw [Function.iterate_succ_apply, zero_tick t px py gx gy dx dy hv hx hpx hy hpy hgx hgy
      hdx hdy, hfar]
    simp only [Bool.false_eq_true, if_false]
    cases hc : F64.le (F64.fin |dy|) lit_2_4 with
    | true =>
      simp only [if_true]
      exact ih _ gy 0 hv rfl rfl hgy2 hgx hgy (sub_self_fin gy)
    | false =>
      simp only [Bool.false_eq_true, if_false]
      exact ih _ py dy hv rfl rfl hpy hgx hgy hdy

/-- At velocity scale 0 a y axis whose computed distance exceeds the double 2.4 stays
where it is over any number of ticks, and Position never equals Goal. -/
theorem zero_stuck_y (py gx gy dy : ℚ) (hpy : round py = F64.fin py)
    (hgx2 : round gx = F64.fin gx)
    (hdy : F64.sub (F64.fin gy) (F64.fin py) = F64.fin dy)
    (hfar : F64.le (F64.fin |dy|) lit_2_4 = false) (n : ℕ) :
    ∀ (t : State) (px dx : ℚ), t.v_scale = F64.fin 0 → t.x = F64.fin px →
      t.y = F64.fin py → round px = F64.fin px → t.x_goal = F64.fin gx →
      t.y_goal = F64.fin gy → F64.sub (F64.fin gx) (F64.fin px) = F64.fin dx →
      (simulateMotors^[n] t).y = F64.fin py ∧ atGoal (simulateMotors^[n] t) = false := by
  have hne : gy ≠ py := by
    intro c
    rw [c, sub_self_fin] at hdy
    cases hdy
    rw [abs_zero] at hfar
    have : F64.le (F64.fin 0) lit_2_4 = true := by decide!
    rw [this] at hfar
    exact absurd hfar (by decide)
  induction n with
  | zero =>
    intro t px dx hv hx hy hpx hgx hgy hdx
    refine ⟨hy, ?_⟩
    show (F64.eq t.x_goal t.x && F64.eq t.y_goal t.y) = false
    rw [hgy, hy]
    simp [F64.eq, hne]
  | succ n ih =>
    intro t px dx hv hx hy hpx hgx hgy hdx
    rw [Function.iterate_succ_apply, zero_tick t px py gx gy dx dy hv hx hpx hy hpy hgx hgy
      hdx hdy, hfar]
    simp only [Bool.false_eq_true, if_false]
    cases hc : F64.le (F64.fin |dx|) lit_2_4 with
    | true =>
      simp only [if_true]
      exact ih _ gx 0 hv rfl rfl hgx2 hgx hgy (sub_self_fin gx)
    | false =>
      simp only [Bool.false_eq_true, if_false]
      exact ih _ px dx hv rfl rfl hpx hgx hgy hdx

/-- The computed distance against the double 2.4, in terms of the real distance. -/
theorem far_axis (g p d : ℚ) (hd : F64.sub (F64.fin g) (F64.fin p) = F64.fin d) :
    (|g - p| ≤ 24 / 10 → F64.le (F64.fin |d|) lit_2_4 = true) ∧
    (snapUp ≤ |g - p| → F64.le (F64.fin |d|) lit_2_4 = false) := by
  have hr : round |g - p| = F64.fin |d| := round_fin_abs _ d hd
  constructor
  · intro h
    rw [← hr]
    exact round_mono _ _ h
  · intro h
    have hup : round snapUp = F64.fin snapUp := by decide!
    have hm := (round_fin_le _ _ snapUp hr hup).2 h
    rw [lit_2_4_eq]
    simp only [F64.le, decide_eq_false_iff_not, not_le]
    unfold snapUp at hm
    linarith

/-- C18 (as amended): with VelocityScale 0, finite Position and Goal (doubles) and finite
deltas, a tick sets an axis to its goal value exactly when the computed distance
`fabs (goal - position)` is at most the double 2.4 and leaves it unchanged otherwise; so it
sets the axis to its goal when the real distance is at most 2.4, and leaves it unchanged
when the real distance is at least 2.4000000000000004 (the next double); in the latter
case the axis stays where it is over any number of ticks and Position never equals
Goal. -/
theorem zero_scale_tick (s : State) (px py gx gy dx dy : ℚ) (hv : s.v_scale = F64.fin 0)
    (hx : s.x = F64.fin px) (hpx : round px = F64.fin px)
    (hy : s.y = F64.fin py) (hpy : round py = F64.fin py)
    (hgx : s.x_goal = F64.fin gx) (hgx2 : round gx = F64.fin gx)
    (hgy : s.y_goal = F64.fin gy) (hgy2 : round gy = F64.fin gy)
    (hdx : F64.sub (F64.fin gx) (F64.fin px) = F64.fin dx)
    (hdy : F64.sub (F64.fin gy) (F64.fin py) = F64.fin dy) :
    simulateMotors s =
      { s with x := if F64.le (F64.fin |dx|) lit_2_4 then F64.fin gx else F64.fin px,
               y := if F64.le (F64.fin |dy|) lit_2_4 then F64.fin gy else F64.fin py } ∧
    (|gx - px| ≤ 24 / 10 → (simulateMotors s).x = F64.fin gx) ∧
    (|gy - py| ≤ 24 / 10 → (simulateMotors s).y = F64.fin gy) ∧
    (snapUp ≤ |gx - px| → ∀ n : ℕ,
      (simulateMotors^[n] s).x = F64.fin px ∧ atGoal (simulateMotors^[n] s) = false) ∧
    (snapUp ≤ |gy - py| → ∀ n : ℕ,
      (simulateMotors^[n] s).y = F64.fin py ∧ atGoal (simulateMotors^[n] s) = false) := by
  have ht := zero_tick s px py gx gy dx dy hv hx hpx hy hpy hgx hgy hdx hdy
  refine ⟨ht, fun h => ?_, fun h => ?_, fun h n => ?_, fun h n => ?_⟩
  · rw [ht]
    show (if F64.le (F64.fin |dx|) lit_2_4 then F64.fin gx else F64.fin px) = _
    rw [(far_axis gx px dx hdx).1 h]
    rfl
  · rw [ht]
    show (if F64.le (F64.fin |dy|) lit_2_4 then F64.fin gy else F64.fin py) = _
    rw [(far_axis gy py dy hdy).1 h]
    rfl
  · exact zero_stuck_x px gx gy dx hpx hgy2 hdx ((far_axis gx px dx hdx).2 h) n s py dy hv hx
      hy hpy hgx hgy hdy
  · exact zero_stuck_y py gx gy dy hpy hgx2 hdy ((far_axis gy py dy hdy).2 h) n s px dx hv hx
      hy hpx hgx hgy hdx

/-- C18 in the example scenario at velocity scale 0 after `move_to (-300, 150)`: the x
axis is 100 from its goal and stays at -200 over 1000 ticks. -/
theorem zero_scale_tick_witness :
    (simulateMotors^[1000]
      (move_to { scenario with v_scale := F64.fin 0 } (F64.fin (-300)) (F64.fin 150))).x
      = F64.fin (-200) ∧
    atGoal (simulateMotors^[1000]
      (move_to { scenario with v_scale := F64.fin 0 } (F64.fin (-300)) (F64.fin 150)))
      = false :=
  (zero_scale_tick
    (move_to { scenario with v_scale := F64.fin 0 } (F64.fin (-300)) (F64.fin 150))
    (-200) 150 (-300) 150 (-100) 0 rfl rfl (by decide!) rfl (by decide!) rfl (by decide!) rfl
    (by decide!) (by decide!) (by decide!)).2.2.2.1 (by norm_num [snapUp, abs_le]) 1000

/-- C18 as stated fails: with VelocityScale 0, x the double 2.5e-16 and x goal the double
2.4000000000000004, the distance exceeds 2.4, but the computed difference rounds to the
double 2.4 and the tick sets x to the goal. -/
theorem zero_scale_tick_counterexample :
    (24 : ℚ) / 10 < 1351079888211149 / 562949953421312
      - 2535301200456459 / 10141204801825835211973625643008 ∧
    round (25 / 10 ^ 17) = F64.fin (2535301200456459 / 10141204801825835211973625643008) ∧
    round (24000000000000004 / 10 ^ 16) = F64.fin (1351079888211149 / 562949953421312) ∧
    (simulateMotors { mainInit with v_scale := F64.fin 0, x := round (25 / 10 ^ 17),
                                    x_goal := round (24000000000000004 / 10 ^ 16) }).x
      = F64.fin (1351079888211149 / 562949953421312) := by
  refine ⟨by norm_num, by decide!, by decide!, by decide!⟩

/-! ## The velocity chosen by a tick -/

theorem speed_val : speed = F64.fin 120 := by decide!

/-- For a velocity scale in [0,1] the product `speed * v_scale` is a finite double between
0 and 120, within `2 ^ (-47)` of `120 * v_scale`. -/
theorem scaled_speed (v : ℚ) (hv0 : 0 ≤ v) (hv1 : v ≤ 1) :
    ∃ w : ℚ, F64.mul speed (F64.fin v) = F64.fin w ∧ 0 ≤ w ∧ w ≤ 120 ∧
      |w - 120 * v| ≤ 1 / 2 ^ (47 : ℕ) := by
  rw [speed_val]
  have hb : |120 * v| < 2 ^ (7 : ℕ) := by
    rw [abs_lt]
    constructor <;> norm_num <;> linarith
  obtain ⟨w, e, he⟩ := round_err (120 * v) 7 (by norm_num) hb
  have h120 : round 120 = F64.fin 120 := by decide!
  refine ⟨w, e, (round_fin_sign _ w e).1 (by linarith),
    (round_fin_le _ w 120 e h120).1 (by linarith), ?_⟩
  norm_num at he ⊢
  exact he

/-- The velocity of the major axis, whose delta `d` is finite and not zero, for a velocity
scale in [0,1]: it is zero or has the sign of the delta. -/
theorem major_sign (v d : ℚ) (hv0 : 0 ≤ v) (hv1 : v ≤ 1) (hd : d ≠ 0) :
    (0 ≤ d → F64.le (F64.fin 0)
      (F64.div (F64.mul (F64.mul speed (F64.fin v)) (F64.fin d)) (F64.fabs (F64.fin d)))
        = true) ∧
    (d ≤ 0 → F64.le
      (F64.div (F64.mul (F64.mul speed (F64.fin v)) (F64.fin d)) (F64.fabs (F64.fin d)))
        (F64.fin 0) = true) := by
  obtain ⟨w, ew, hw0, _, _⟩ := scaled_speed v hv0 hv1
  have hapos : 0 < |d| := abs_pos.mpr hd
  have hna : ¬ |d| < 0 := not_lt.mpr (le_of_lt hapos)
  rw [ew]
  simp only [F64.mul, F64.fabs]
  constructor
  · intro h
    rcases round_nonneg_cases (w * d) (mul_nonneg hw0 h) with ⟨t, et, ht⟩ | et
    · rw [et]
      simp only [F64.div, abs_eq_zero, hd, if_false]
      exact round_nonneg _ (div_nonneg ht (le_of_lt hapos))
    · rw [et]
      simp [F64.div, F64.le, hna]
  · intro h
    rcases round_nonpos_cases (w * d) (mul_nonpos_of_nonneg_of_nonpos hw0 h) with
      ⟨t, et, ht⟩ | et
    · rw [et]
      simp only [F64.div, abs_eq_zero, hd, if_false]
      exact round_nonpos _ (div_nonpos_of_nonpos_of_nonneg ht (le_of_lt hapos))
    · rw [et]
      simp [F64.div, F64.le, hna]

/-- The velocity of the minor axis, with finite delta `d` at most the major delta `a ≠ 0`
in magnitude, for a velocity scale in [0,1]: it is finite, zero or of the sign of its
delta, zero for a zero delta, and at most `speed * v_scale` in magnitude. -/
theorem minor_speed (v d a : ℚ) (hv0 : 0 ≤ v) (hv1 : v ≤ 1) (ha : a ≠ 0) (hda : |d| ≤ |a|) :
    ∃ n : ℚ, F64.mul (F64.mul (F64.div (F64.fin d) (F64.fabs (F64.fin a))) speed) (F64.fin v)
        = F64.fin n ∧
      (0 ≤ d → 0 ≤ n) ∧ (d ≤ 0 → n ≤ 0) ∧ (d = 0 → n = 0) ∧ |n| ≤ 120 ∧
      F64.le (F64.fin |n|) (F64.mul speed (F64.fin v)) = true := by
  obtain ⟨q, e, hq, hq0, hq1, hq2⟩ := minor_quotient d a ha hda
  rw [e, speed_val]
  have hq' := abs_le.mp hq
  have hb : |q * 120| < 2 ^ (7 : ℕ) := by
    rw [abs_lt]
    constructor <;> norm_num <;> linarith
  obtain ⟨r, er, _⟩ := round_err (q * 120) 7 (by norm_num) hb
  have h120 : round 120 = F64.fin 120 := by decide!
  have hm120 : round (-120) = F64.fin (-120) := by decide!
  have hr : |r| ≤ 120 := by
    rw [abs_le]
    exact ⟨(round_fin_le _ r (-120) er hm120).2 (by linarith),
      (round_fin_le _ r 120 er h120).1 (by linarith)⟩
  have hr' := abs_le.mp hr
  have hrv : |r * v| ≤ 120 * v := by
    rw [abs_mul, abs_of_nonneg hv0]
    exact mul_le_mul_of_nonneg_right hr hv0
  have hb2 : |r * v| < 2 ^ (7 : ℕ) := by
    have : 120 * v ≤ 120 := by linarith
    norm_num
    linarith
  obtain ⟨n, en, _⟩ := round_err (r * v) 7 (by norm_num) hb2
  have hrv' := abs_le.mp hrv
  have hn : |n| ≤ 120 := by
    rw [abs_le]
    exact ⟨(round_fin_le _ n (-120) en hm120).2 (by linarith),
      (round_fin_le _ n 120 en h120).1 (by linarith)⟩
  refine ⟨n, ?_, ?_, ?_, ?_, hn, ?_⟩
  · simp only [F64.mul]
    rw [er]
    simp only [F64.mul]
    exact en
  · intro h
    have h1 := (round_fin_sign _ r er).1 (mul_nonneg (hq0 h) (by norm_num))
    exact (round_fin_sign _ n en).1 (mul_nonneg h1 hv0)
  · intro h
    have h1 := (round_fin_sign _ r er).2
      (mul_nonpos_of_nonpos_of_nonneg (hq1 h) (by norm_num))
    exact (round_fin_sign _ n en).2 (mul_nonpos_of_nonpos_of_nonneg h1 hv0)
  · intro h
    rw [hq2 h, zero_mul, round_zero] at er
    cases er
    rw [zero_mul, round_zero] at en
    cases en
    rfl
  · rw [← round_fin_abs _ n en]
    simp only [F64.mul]
    exact round_mono _ _ hrv

/-- The velocity of the major axis for a velocity scale between `2 ^ (-20)` and 1 and a
delta between `2 ^ (-20)` and `2 ^ 22` in magnitude: finite, of the sign of the delta, and
within a relative `2 ^ (-51)` of `120 * v_scale` in magnitude. -/
theorem major_speed_rel (v d : ℚ) (hv8 : 1 / 2 ^ (20 : ℕ) ≤ v) (hv1 : v ≤ 1)
    (hd1 : 1 / 2 ^ (20 : ℕ) ≤ |d|) (hd2 : |d| ≤ 2 ^ (22 : ℕ)) :
    ∃ m : ℚ, F64.div (F64.mul (F64.mul speed (F64.fin v)) (F64.fin d)) (F64.fabs (F64.fin d))
        = F64.fin m ∧
      (0 ≤ d → 0 ≤ m) ∧ (d ≤ 0 → m ≤ 0) ∧
      |(|m| - 120 * v)| ≤ 120 * v / 2 ^ (51 : ℕ) := by
  have hv0 : 0 < v := lt_of_lt_of_le (by positivity) hv8
  have hapos : 0 < |d| := lt_of_lt_of_le (by positivity) hd1
  have hd : d ≠ 0 := abs_pos.mp hapos
  norm_num at hv8 hd1 hd2
  rw [speed_val]
  -- speed * v_scale
  have hA1 : 1 / 2 ^ (14 : ℕ) ≤ |120 * v| := by
    rw [abs_of_pos (by linarith)]
    norm_num
    linarith
  have hA2 : |120 * v| < 2 ^ (7 : ℕ) := by
    rw [abs_of_pos (by linarith)]
    norm_num
    linarith
  obtain ⟨w, ew, hw⟩ := round_rel (120 * v) 14 7 (by norm_num) (by norm_num) hA1 hA2
  rw [abs_of_pos (by linarith : (0 : ℚ) < 120 * v), abs_le] at hw
  norm_num at hw
  have hw0 : 0 < w := by linarith
  have hwlo : (1 : ℚ) / 2 ^ (14 : ℕ) ≤ w := by
    norm_num
    linarith
  have hwhi : w ≤ 121 := by linarith
  -- (speed * v_scale) * delta
  have hP : |w * d| = w * |d| := by rw [abs_mul, abs_of_pos hw0]
  have hPlo : (1 : ℚ) / 2 ^ (34 : ℕ) ≤ w * |d| := by
    have := mul_le_mul hwlo hd1 (by norm_num) (le_of_lt hw0)
    norm_num at this ⊢
    linarith
  have hPhi : w * |d| < 2 ^ (29 : ℕ) := by
    have := mul_le_mul hwhi hd2 (le_of_lt hapos) (by norm_num)
    norm_num at this ⊢
    linarith
  obtain ⟨t, et, ht⟩ := round_rel (w * d) 34 29 (by norm_num) (by norm_num)
    (by rw [hP]; exact hPlo) (by rw [hP]; exact hPhi)
  have hT : round (w * |d|) = F64.fin |t| := by
    rw [← hP]
    exact round_fin_abs _ t et
  have htabs : |(|t| - w * |d|)| ≤ w * |d| / 2 ^ (53 : ℕ) := by
    have h1 := abs_abs_sub_abs_le_abs_sub t (w * d)
    rw [hP] at h1 ht
    exact le_trans h1 ht
  rw [abs_le] at htabs
  norm_num at htabs hPlo hPhi
  have ht0 : 0 < |t| := by linarith
  -- ... / fabs delta
  have hQ : abs (t / |d|) = |t| / |d| := by rw [abs_div, abs_abs]
  have hQlo : w * (1 - 1 / 2 ^ (53 : ℕ)) ≤ |t| / |d| := by
    rw [le_div_iff₀ hapos]
    norm_num
    linarith
  have hQhi : |t| / |d| ≤ w * (1 + 1 / 2 ^ (53 : ℕ)) := by
    rw [div_le_iff₀ hapos]
    norm_num
    linarith
  norm_num at hQlo hQhi
  obtain ⟨m, em, hm⟩ := round_rel (t / |d|) 15 8 (by norm_num) (by norm_num)
    (by
      rw [hQ]
      norm_num
      linarith)
    (by
      rw [hQ]
      norm_num
      linarith)
  have hmabs : |(|m| - |t| / |d|)| ≤ |t| / |d| / 2 ^ (53 : ℕ) := by
    have h1 := abs_abs_sub_abs_le_abs_sub m (t / |d|)
    rw [hQ] at h1 hm
    exact le_trans h1 hm
  rw [abs_le] at hmabs
  norm_num at hmabs
  have hts := round_fin_sign _ t et
  have hms := round_fin_sign _ m em
  refine ⟨m, ?_, ?_, ?_, ?_⟩
  · simp only [F64.mul, F64.fabs]
    rw [ew]
    simp only [F64.mul]
    rw [et]
    simp only [F64.div, abs_eq_zero, hd, if_false]
    exact em
  · intro h
    exact hms.1 (div_nonneg (hts.1 (mul_nonneg (le_of_lt hw0) h)) (le_of_lt hapos))
  · intro h
    exact hms.2 (div_nonpos_of_nonpos_of_nonneg
      (hts.2 (mul_nonpos_of_nonneg_of_nonpos (le_of_lt hw0) h)) (le_of_lt hapos))
  · rw [abs_le]
    norm_num
    constructor <;> linarith

/-- The velocity in the branch of line 213, where `|y_goal - y| > |x_goal - x|`. -/
theorem velocity_y_major (s : State) (dx dy : ℚ) (hdx : F64.sub s.x_goal s.x = F64.fin dx)
    (hdy : F64.sub s.y_goal s.y = F64.fin dy) (h : |dx| < |dy|) :
    dy ≠ 0 ∧
    velocity s =
      (F64.mul (F64.mul (F64.div (F64.fin dx) (F64.fabs (F64.fin dy))) speed) s.v_scale,
       F64.div (F64.mul (F64.mul speed s.v_scale) (F64.fin dy)) (F64.fabs (F64.fin dy))) := by
  have hy : dy ≠ 0 := fun c => by
    rw [c, abs_zero] at h
    exact absurd h (not_lt.mpr (abs_nonneg dx))
  refine ⟨hy, ?_⟩
  unfold velocity
  rw [hdx, hdy]
  have hc : (F64.eq (F64.fin dy) (F64.fin 0) && F64.eq (F64.fin dx) (F64.fin 0)) = false := by
    simp [F64.eq, hy]
  have hl : F64.lt (F64.fabs (F64.fin dx)) (F64.fabs (F64.fin dy)) = true := by
    simp [F64.lt, F64.fabs, h]
  rw [hc, hl]
  rfl

/-- The velocity in the branch of line 216, where the deltas are not both zero and
`|y_goal - y| > |x_goal - x|` does not hold. -/
theorem velocity_x_major (s : State) (dx dy : ℚ) (hdx : F64.sub s.x_goal s.x = F64.fin dx)
    (hdy : F64.sub s.y_goal s.y = F64.fin dy) (hne : ¬ (dx = 0 ∧ dy = 0))
    (h : ¬ |dx| < |dy|) :
    dx ≠ 0 ∧
    velocity s =
      (F64.div (F64.mul (F64.mul speed s.v_scale) (F64.fin dx)) (F64.fabs (F64.fin dx)),
       F64.mul (F64.mul (F64.div (F64.fin dy) (F64.fabs (F64.fin dx))) speed) s.v_scale) := by
  have hx : dx ≠ 0 := fun c => by
    rw [c, abs_zero] at h
    have hq0 : |dy| = 0 := le_antisymm (not_lt.mp h) (abs_nonneg dy)
    exact hne ⟨c, abs_eq_zero.mp hq0⟩
  refine ⟨hx, ?_⟩
  unfold velocity
  rw [hdx, hdy]
  have hc : (F64.eq (F64.fin dy) (F64.fin 0) && F64.eq (F64.fin dx) (F64.fin 0)) = false := by
    simp [F64.eq, hx]
  have hl : F64.lt (F64.fabs (F64.fin dx)) (F64.fabs (F64.fin dy)) = false := by
    simp [F64.lt, F64.fabs, h]
  rw [hc, hl]
  rfl

/-- C12 (as amended): in a state whose deltas `x_goal - x` and `y_goal - y` are finite
and not both zero and whose VelocityScale lies in [0,1], the major axis is the one with
the larger absolute delta (x when they are equal); its velocity is the double result of
`speed * v_scale * delta / fabs(delta)` and that of the other axis the double result of
`minor_delta / fabs(major_delta) * speed * v_scale`, with `speed = 120`; each velocity
component is zero or has the sign of its delta; the minor speed is at most the double
`speed * v_scale`; and for VelocityScale at least `2 ^ (-20)` and a major delta between
`2 ^ (-20)` and `2 ^ 22` in magnitude the major speed is finite and differs from
`120 * VelocityScale` by at most the fraction `2 ^ (-51)` of it. -/
theorem velocity_direction (s : State) (dx dy v : ℚ)
    (hdx : F64.sub s.x_goal s.x = F64.fin dx) (hdy : F64.sub s.y_goal s.y = F64.fin dy)
    (hv : s.v_scale = F64.fin v) (hv0 : 0 ≤ v) (hv1 : v ≤ 1) (hne : ¬ (dx = 0 ∧ dy = 0)) :
    speed = F64.fin 120 ∧
    (|dx| < |dy| →
      velocity s =
        (F64.mul (F64.mul (F64.div (F64.fin dx) (F64.fabs (F64.fin dy))) speed) (F64.fin v),
         F64.div (F64.mul (F64.mul speed (F64.fin v)) (F64.fin dy)) (F64.fabs (F64.fin dy))) ∧
      F64.le (F64.fabs (velocity s).1) (F64.mul speed (F64.fin v)) = true ∧
      (1 / 2 ^ (20 : ℕ) ≤ v → 1 / 2 ^ (20 : ℕ) ≤ |dy| → |dy| ≤ 2 ^ (22 : ℕ) →
        ∃ m : ℚ, (velocity s).2 = F64.fin m ∧
          |(|m| - 120 * v)| ≤ 120 * v / 2 ^ (51 : ℕ))) ∧
    (¬ |dx| < |dy| →
      velocity s =
        (F64.div (F64.mul (F64.mul speed (F64.fin v)) (F64.fin dx)) (F64.fabs (F64.fin dx)),
         F64.mul (F64.mul (F64.div (F64.fin dy) (F64.fabs (F64.fin dx))) speed) (F64.fin v)) ∧
      F64.le (F64.fabs (velocity s).2) (F64.mul speed (F64.fin v)) = true ∧
      (1 / 2 ^ (20 : ℕ) ≤ v → 1 / 2 ^ (20 : ℕ) ≤ |dx| → |dx| ≤ 2 ^ (22 : ℕ) →
        ∃ m : ℚ, (velocity s).1 = F64.fin m ∧
          |(|m| - 120 * v)| ≤ 120 * v / 2 ^ (51 : ℕ))) ∧
    (0 ≤ dx → F64.le (F64.fin 0) (velocity s).1 = true) ∧
    (dx ≤ 0 → F64.le (velocity s).1 (F64.fin 0) = true) ∧
    (0 ≤ dy → F64.le (F64.fin 0) (velocity s).2 = true) ∧
    (dy ≤ 0 → F64.le (velocity s).2 (F64.fin 0) = true) := by
  have hbr : (|dx| < |dy| →
      velocity s =
        (F64.mul (F64.mul (F64.div (F64.fin dx) (F64.fabs (F64.fin dy))) speed) (F64.fin v),
         F64.div (F64.mul (F64.mul speed (F64.fin v)) (F64.fin dy)) (F64.fabs (F64.fin dy))) ∧
      dy ≠ 0) ∧
    (¬ |dx| < |dy| →
      velocity s =
        (F64.div (F64.mul (F64.mul speed (F64.fin v)) (F64.fin dx)) (F64.fabs (F64.fin dx)),
         F64.mul (F64.mul (F64.div (F64.fin dy) (F64.fabs (F64.fin dx))) speed) (F64.fin v)) ∧
      dx ≠ 0) := by
    constructor
    · intro h
      obtain ⟨hy, e⟩ := velocity_y_major s dx dy hdx hdy h
      rw [hv] at e
      exact ⟨e, hy⟩
    · intro h
      obtain ⟨hx, e⟩ := velocity_x_major s dx dy hdx hdy hne h
      rw [hv] at e
      exact ⟨e, hx⟩
  refine ⟨speed_val, fun h => ?_, fun h => ?_, fun hs => ?_, fun hs => ?_, fun hs => ?_,
    fun hs => ?_⟩
  · obtain ⟨e, hy⟩ := hbr.1 h
    obtain ⟨n, en, _, _, _, _, hle⟩ := minor_speed v dx dy hv0 hv1 hy (le_of_lt h)
    refine ⟨e, ?_, fun h8 h1 h2 => ?_⟩
    · rw [e]
      show F64.le (F64.fabs (F64.mul (F64.mul (F64.div (F64.fin dx) (F64.fabs (F64.fin dy)))
        speed) (F64.fin v))) _ = true
      rw [en]
      exact hle
    · obtain ⟨m, em, _, _, hm⟩ := major_speed_rel v dy h8 hv1 h1 h2
      exact ⟨m, by rw [e]; exact em, hm⟩
  · obtain ⟨e, hx⟩ := hbr.2 h
    obtain ⟨n, en, _, _, _, _, hle⟩ := minor_speed v dy dx hv0 hv1 hx (not_lt.mp h)
    refine ⟨e, ?_, fun h8 h1 h2 => ?_⟩
    · rw [e]
      show F64.le (F64.fabs (F64.mul (F64.mul (F64.div (F64.fin dy) (F64.fabs (F64.fin dx)))
        speed) (F64.fin v))) _ = true
      rw [en]
      exact hle
    · obtain ⟨m, em, _, _, hm⟩ := major_speed_rel v dx h8 hv1 h1 h2
      exact ⟨m, by rw [e]; exact em, hm⟩
  · by_cases h : |dx| < |dy|
    · obtain ⟨e, hy⟩ := hbr.1 h
      obtain ⟨n, en, h0, _⟩ := minor_speed v dx dy hv0 hv1 hy (le_of_lt h)
      rw [e]
      show F64.le (F64.fin 0) (F64.mul (F64.mul (F64.div (F64.fin dx) (F64.fabs (F64.fin dy)))
        speed) (F64.fin v)) = true
      rw [en]
      simpa [F64.le] using h0 hs
    · obtain ⟨e, hx⟩ := hbr.2 h
      rw [e]
      exact (major_sign v dx hv0 hv1 hx).1 hs
  · by_cases h : |dx| < |dy|
    · obtain ⟨e, hy⟩ := hbr.1 h
      obtain ⟨n, en, _, h0, _⟩ := minor_speed v dx dy hv0 hv1 hy (le_of_lt h)
      rw [e]
      show F64.le (F64.mul (F64.mul (F64.div (F64.fin dx) (F64.fabs (F64.fin dy)))
        speed) (F64.fin v)) (F64.fin 0) = true
      rw [en]
      simpa [F64.le] using h0 hs
    · obtain ⟨e, hx⟩ := hbr.2 h
      rw [e]
      exact (major_sign v dx hv0 hv1 hx).2 hs
  · by_cases h : |dx| < |dy|
    · obtain ⟨e, hy⟩ := hbr.1 h
      rw [e]
      exact (major_sign v dy hv0 hv1 hy).1 hs
    · obtain ⟨e, hx⟩ := hbr.2 h
      obtain ⟨n, en, h0, _⟩ := minor_speed v dy dx hv0 hv1 hx (not_lt.mp h)
      rw [e]
      show F64.le (F64.fin 0) (F64.mul (F64.mul (F64.div (F64.fin dy) (F64.fabs (F64.fin dx)))
        speed) (F64.fin v)) = true
      rw [en]
      simpa [F64.le] using h0 hs
  · by_cases h : |dx| < |dy|
    · obtain ⟨e, hy⟩ := hbr.1 h
      rw [e]
      exact (major_sign v dy hv0 hv1 hy).2 hs
    · obtain ⟨e, hx⟩ := hbr.2 h
      obtain ⟨n, en, _, h0, _⟩ := minor_speed v dy dx hv0 hv1 hx (not_lt.mp h)
      rw [e]
      show F64.le (F64.mul (F64.mul (F64.div (F64.fin dy) (F64.fabs (F64.fin dx)))
        speed) (F64.fin v)) (F64.fin 0) = true
      rw [en]
      simpa [F64.le] using h0 hs

/-- C12 in the example scenario after `move_to (-300, 150)` (deltas -100 and 0,
VelocityScale 1): x is the major axis, its velocity is finite, within the fraction
`2 ^ (-51)` of 120 in magnitude, and not positive. -/
theorem velocity_direction_witness :
    (∃ m : ℚ, (velocity (move_to scenario (F64.fin (-300)) (F64.fin 150))).1 = F64.fin m ∧
      |(|m| - 120 * 1)| ≤ 120 * 1 / 2 ^ (51 : ℕ)) ∧
    F64.le (velocity (move_to scenario (F64.fin (-300)) (F64.fin 150))).1 (F64.fin 0) = true :=
  ⟨((velocity_direction (move_to scenario (F64.fin (-300)) (F64.fin 150)) (-100) 0 1
      (by decide!) (by decide!) rfl (by norm_num) (by norm_num) (by norm_num)).2.2.1
        (by norm_num)).2.2 (by norm_num) (by norm_num) (by norm_num),
   (velocity_direction (move_to scenario (F64.fin (-300)) (F64.fin 150)) (-100) 0 1
      (by decide!) (by decide!) rfl (by norm_num) (by norm_num) (by norm_num)).2.2.2.2.1
        (by norm_num)⟩

/-- C12 as stated fails: from Position `(0, 0)` with VelocityScale 1 and the goal
`(0.27, 0)` the x velocity computed by the tick is the double 120.00000000000001, not
`120 * VelocityScale = 120`. -/
theorem velocity_direction_counterexample :
    F64.sub (move_to mainInit (round (27 / 100)) (F64.fin 0)).x_goal
      (move_to mainInit (round (27 / 100)) (F64.fin 0)).x
      = F64.fin (607985949695017 / 2251799813685248) ∧
    (move_to mainInit (round (27 / 100)) (F64.fin 0)).v_scale = F64.fin 1 ∧
    velocity (move_to mainInit (round (27 / 100)) (F64.fin 0))
      = (F64.fin (8444249301319681 / 70368744177664), F64.fin 0) ∧
    F64.eq (F64.fin (8444249301319681 / 70368744177664)) (F64.mul speed (F64.fin 1)) = false ∧
    F64.mul speed (F64.fin 1) = F64.fin 120 := by
  decide!

/-! ## One tick away from the goal -/

/-- The velocity of the major axis for a velocity scale in [0,1] and a delta between 2
and `2 ^ 22` in magnitude: finite, of the sign of the delta, and within `2 ^ (-25)` of
`120 * v_scale` in magnitude. -/
theorem major_speed_abs (v d : ℚ) (hv0 : 0 ≤ v) (hv1 : v ≤ 1) (hd1 : 2 ≤ |d|)
    (hd2 : |d| ≤ 2 ^ (22 : ℕ)) :
    ∃ m : ℚ, F64.div (F64.mul (F64.mul speed (F64.fin v)) (F64.fin d)) (F64.fabs (F64.fin d))
        = F64.fin m ∧
      (0 ≤ d → 0 ≤ m) ∧ (d ≤ 0 → m ≤ 0) ∧ |(|m| - 120 * v)| ≤ 1 / 2 ^ (25 : ℕ) := by
  obtain ⟨w, ew, hw0, hw120, hw⟩ := scaled_speed v hv0 hv1
  have hapos : 0 < |d| := by linarith
  have hd : d ≠ 0 := abs_pos.mp hapos
  norm_num at hd2
  rw [abs_le] at hw
  norm_num at hw
  have hP : |w * d| = w * |d| := by rw [abs_mul, abs_of_nonneg hw0]
  have hPhi : w * |d| ≤ 120 * 4194304 := mul_le_mul hw120 hd2 (le_of_lt hapos) (by norm_num)
  obtain ⟨t, et, ht⟩ := round_err (w * d) 29 (by norm_num)
    (by
      rw [hP]
      norm_num
      linarith)
  have htabs : |(|t| - w * |d|)| ≤ 2 ^ (29 : ℕ) / 2 ^ (54 : ℕ) := by
    have h1 := abs_abs_sub_abs_le_abs_sub t (w * d)
    rw [hP] at h1
    exact le_trans h1 ht
  rw [abs_le] at htabs
  norm_num at htabs
  have hQ : abs (t / |d|) = |t| / |d| := by rw [abs_div, abs_abs]
  have hQlo : w - 1 / 2 ^ (26 : ℕ) ≤ |t| / |d| := by
    rw [le_div_iff₀ hapos]
    have e : (w - 1 / 2 ^ (26 : ℕ)) * |d| = w * |d| - |d| / 2 ^ (26 : ℕ) := by ring
    rw [e]
    norm_num
    linarith
  have hQhi : |t| / |d| ≤ w + 1 / 2 ^ (26 : ℕ) := by
    rw [div_le_iff₀ hapos]
    have e : (w + 1 / 2 ^ (26 : ℕ)) * |d| = w * |d| + |d| / 2 ^ (26 : ℕ) := by ring
    rw [e]
    norm_num
    linarith
  norm_num at hQlo hQhi
  have hQ0 : 0 ≤ |t| / |d| := div_nonneg (abs_nonneg t) (le_of_lt hapos)
  obtain ⟨m, em, hm⟩ := round_err (t / |d|) 7 (by norm_num)
    (by
      rw [hQ]
      norm_num
      linarith)
  have hmabs : |(|m| - |t| / |d|)| ≤ 2 ^ (7 : ℕ) / 2 ^ (54 : ℕ) := by
    have h1 := abs_abs_sub_abs_le_abs_sub m (t / |d|)
    rw [hQ] at h1
    exact le_trans h1 hm
  rw [abs_le] at hmabs
  norm_num at hmabs
  have hts := round_fin_sign _ t et
  have hms := round_fin_sign _ m em
  refine ⟨m, ?_, ?_, ?_, ?_⟩
  · simp only [F64.fabs]
    rw [ew]
    simp only [F64.mul]
    rw [et]
    simp only [F64.div, abs_eq_zero, hd, if_false]
    exact em
  · intro h
    exact hms.1 (div_nonneg (hts.1 (mul_nonneg hw0 h)) (le_of_lt hapos))
  · intro h
    exact hms.2 (div_nonpos_of_nonpos_of_nonneg
      (hts.2 (mul_nonpos_of_nonneg_of_nonpos hw0 h)) (le_of_lt hapos))
  · rw [abs_le]
    norm_num
    constructor <;> linarith

/-- The displacement `vel * 0.02` for a velocity of magnitude at most 121: finite, of the
sign of the velocity, within `2 ^ (-50)` of a fiftieth of it in magnitude. -/
theorem step_of (m : ℚ) (hm : |m| ≤ 121) :
    ∃ st : ℚ, F64.mul (F64.fin m) lit_0_02 = F64.fin st ∧
      (0 ≤ m → 0 ≤ st) ∧ (m ≤ 0 → st ≤ 0) ∧ (m = 0 → st = 0) ∧
      |(|st| - |m| / 50)| ≤ 1 / 2 ^ (50 : ℕ) := by
  rw [lit_0_02_eq]
  simp only [F64.mul]
  have hc : |m * (5764607523034235 / 288230376151711744)|
      = |m| * (5764607523034235 / 288230376151711744) := by
    rw [abs_mul, abs_of_pos (by norm_num : (0 : ℚ) < 5764607523034235 / 288230376151711744)]
  have hm0 := abs_nonneg m
  obtain ⟨st, e, he⟩ := round_err (m * (5764607523034235 / 288230376151711744)) 2
    (by norm_num)
    (by
      rw [hc]
      norm_num
      linarith)
  have heabs : |(|st| - |m| * (5764607523034235 / 288230376151711744))|
      ≤ 2 ^ (2 : ℕ) / 2 ^ (54 : ℕ) := by
    have h1 := abs_abs_sub_abs_le_abs_sub st (m * (5764607523034235 / 288230376151711744))
    rw [hc] at h1
    exact le_trans h1 he
  rw [abs_le] at heabs
  norm_num at heabs
  have hs := round_fin_sign _ st e
  refine ⟨st, e, ?_, ?_, ?_, ?_⟩
  · intro h
    exact hs.1 (mul_nonneg h (by norm_num))
  · intro h
    exact hs.2 (mul_nonpos_of_nonpos_of_nonneg h (by norm_num))
  · intro h
    rw [h, zero_mul, round_zero] at e
    cases e
    rfl
  · rw [abs_le]
    norm_num
    constructor <;> linarith

/-- The delta `goal - position` computed by the tick, for a real distance of at most
`2 ^ 21`. -/
theorem delta_props (p g : ℚ) (hD : |g - p| ≤ 2 ^ (21 : ℕ)) :
    ∃ d : ℚ, F64.sub (F64.fin g) (F64.fin p) = F64.fin d ∧ |d - (g - p)| ≤ 1 / 2 ^ (32 : ℕ) ∧
      (0 ≤ g - p → 0 ≤ d) ∧ (g - p ≤ 0 → d ≤ 0) ∧ |d| ≤ 2 ^ (22 : ℕ) ∧
      (24 / 10 < |g - p| → 2 ≤ |d|) ∧ (g = p → d = 0) := by
  obtain ⟨d, e, he⟩ := round_err (g - p) 22 (by norm_num)
    (lt_of_le_of_lt hD (by norm_num))
  norm_num at he hD
  have hs := round_fin_sign _ d e
  have h1 := abs_abs_sub_abs_le_abs_sub d (g - p)
  have h2 := abs_le.mp (le_trans h1 he)
  refine ⟨d, e, by norm_num; exact he, hs.1, hs.2, ?_, ?_, ?_⟩
  · norm_num
    linarith
  · intro h
    linarith
  · intro h
    rw [h, sub_self, round_zero] at e
    cases e
    rfl

/-- One axis of a tick, away from its goal: the coordinate `p`, more than 2.4 from the
goal `g`, is moved by a displacement `st` towards the goal of magnitude at most
`2.4 + 2 ^ (-28)` and then snapped.  The result is the goal or is more than 2.4 from it,
the distance has gone down by the displacement up to `2 ^ (-27)`, and if `p` is a double
the result lies between `p` and the goal. -/
theorem axis_move (p g st : ℚ) (hgb : |g| ≤ 2 ^ (20 : ℕ))
    (hD : |g - p| ≤ 2 ^ (21 : ℕ)) (hfar : 24 / 10 < |g - p|)
    (hs1 : 0 ≤ g - p → 0 ≤ st) (hs2 : g - p ≤ 0 → st ≤ 0)
    (hmag : |st| ≤ 24 / 10 + 1 / 2 ^ (28 : ℕ)) :
    ∃ p2 : ℚ,
      (if F64.le (F64.fabs (F64.sub (F64.fin g) (F64.add (F64.fin p) (F64.fin st)))) lit_2_4
        then F64.fin g else F64.add (F64.fin p) (F64.fin st)) = F64.fin p2 ∧
      (p2 = g ∨ 24 / 10 < |g - p2|) ∧ |g - p2| ≤ |g - p| - |st| + 1 / 2 ^ (27 : ℕ) ∧
      (round p = F64.fin p → (p ≤ p2 ∧ p2 ≤ g) ∨ (g ≤ p2 ∧ p2 ≤ p)) := by
  have hgb2 := abs_le.mp hgb
  have hD2 := abs_le.mp hD
  have hmag2 := abs_le.mp hmag
  norm_num at hgb2 hD2 hmag2
  obtain ⟨p1, e1, he1⟩ := round_err (p + st) 22 (by norm_num)
    (by
      rw [abs_lt]
      norm_num
      constructor <;> linarith)
  have he2 := abs_le.mp he1
  norm_num at he2
  simp only [F64.add]
  rw [e1]
  obtain ⟨sn1, sn2⟩ := snap_axis g p1
  rcases le_or_lt 0 (g - p) with hpos | hneg
  · rw [abs_of_nonneg hpos] at hfar ⊢
    have hst := hs1 hpos
    rw [abs_of_nonneg hst] at hmag ⊢
    norm_num at hmag
    cases hc : F64.le (F64.fabs (F64.sub (F64.fin g) (F64.fin p1))) lit_2_4 with
    | true =>
      refine ⟨g, by simp, Or.inl rfl, ?_, fun _ => Or.inl ⟨by linarith, le_refl g⟩⟩
      rw [sub_self, abs_zero]
      norm_num
      linarith
    | false =>
      have hf := sn2 hc
      have hgp : 0 < g - p1 := by
        by_contra hn
        rw [abs_of_nonpos (not_lt.mp hn)] at hf
        linarith
      rw [abs_of_pos hgp] at hf
      refine ⟨p1, by simp, Or.inr (by rw [abs_of_pos hgp]; exact hf), ?_, fun hp => ?_⟩
      · rw [abs_of_pos hgp]
        norm_num
        linarith
      · exact Or.inl ⟨(round_fin_le _ p1 p e1 hp).2 (by linarith), by linarith⟩
  · rw [abs_of_neg hneg] at hfar ⊢
    have hst := hs2 (le_of_lt hneg)
    rw [abs_of_nonpos hst] at hmag ⊢
    norm_num at hmag
    cases hc : F64.le (F64.fabs (F64.sub (F64.fin g) (F64.fin p1))) lit_2_4 with
    | true =>
      refine ⟨g, by simp, Or.inl rfl, ?_, fun _ => Or.inr ⟨le_refl g, by linarith⟩⟩
      rw [sub_self, abs_zero]
      norm_num
      linarith
    | false =>
      have hf := sn2 hc
      have hgp : g - p1 < 0 := by
        by_contra hn
        rw [abs_of_nonneg (not_lt.mp hn)] at hf
        linarith
      rw [abs_of_neg hgp] at hf
      refine ⟨p1, by simp, Or.inr (by rw [abs_of_neg hgp]; exact hf), ?_, fun hp => ?_⟩
      · rw [abs_of_neg hgp]
        norm_num
        linarith
      · exact Or.inr ⟨by linarith, (round_fin_le _ p1 p e1 hp).1 (by linarith)⟩

/-- One axis of a tick, at its goal and with zero displacement: it stays. -/
theorem axis_stay (g : ℚ) (hg2 : round g = F64.fin g) :
    (if F64.le (F64.fabs (F64.sub (F64.fin g) (F64.add (F64.fin g) (F64.fin 0)))) lit_2_4
      then F64.fin g else F64.add (F64.fin g) (F64.fin 0)) = F64.fin g := by
  simp only [F64.add, add_zero, hg2]
  split_ifs <;> rfl

/-- The major axis of a tick: more than 2.4 from its goal, with a velocity scale in
[0,1].  After the tick the coordinate is the goal or more than 2.4 from it, the distance
has gone down by `2.4 * v_scale` up to `2 ^ (-26)`, and if the old coordinate is a double
the new one lies between it and the goal. -/
theorem axis_major_result (p g v d : ℚ) (hgb : |g| ≤ 2 ^ (20 : ℕ))
    (hD : |g - p| ≤ 2 ^ (21 : ℕ)) (hfar : 24 / 10 < |g - p|) (hv0 : 0 ≤ v) (hv1 : v ≤ 1)
    (hd : F64.sub (F64.fin g) (F64.fin p) = F64.fin d) :
    ∃ p2 : ℚ,
      (if F64.le (F64.fabs (F64.sub (F64.fin g) (F64.add (F64.fin p)
          (F64.mul (F64.div (F64.mul (F64.mul speed (F64.fin v)) (F64.fin d))
            (F64.fabs (F64.fin d))) lit_0_02)))) lit_2_4
        then F64.fin g
        else F64.add (F64.fin p)
          (F64.mul (F64.div (F64.mul (F64.mul speed (F64.fin v)) (F64.fin d))
            (F64.fabs (F64.fin d))) lit_0_02)) = F64.fin p2 ∧
      (p2 = g ∨ 24 / 10 < |g - p2|) ∧
      |g - p2| ≤ |g - p| - 12 / 5 * v + 1 / 2 ^ (26 : ℕ) ∧
      (round p = F64.fin p → (p ≤ p2 ∧ p2 ≤ g) ∨ (g ≤ p2 ∧ p2 ≤ p)) := by
  obtain ⟨d2, e2, _, hsg1, hsg2, hdb, hd2, _⟩ := delta_props p g hD
  rw [hd] at e2
  cases e2
  obtain ⟨m, em, hm1, hm2, hm⟩ := major_speed_abs v d hv0 hv1 (hd2 hfar) hdb
  have hm' := abs_le.mp hm
  norm_num at hm'
  obtain ⟨st, es, hst1, hst2, _, hst⟩ := step_of m (by linarith)
  have hst' := abs_le.mp hst
  norm_num at hst'
  rw [em, es]
  obtain ⟨p2, e, hJ, hdist, hbetween⟩ := axis_move p g st hgb hD hfar
    (fun h => hst1 (hm1 (hsg1 h))) (fun h => hst2 (hm2 (hsg2 h)))
    (by
      norm_num
      linarith)
  refine ⟨p2, e, hJ, ?_, hbetween⟩
  norm_num at hdist ⊢
  linarith

/-- The minor axis of a tick: at its goal or more than 2.4 from it, with a delta at most
the major delta `a ≠ 0` in magnitude and a velocity scale in [0,1].  After the tick the
coordinate is the goal or more than 2.4 from it, the distance has not grown by more than
`2 ^ (-27)`, and if the old coordinate is a double the new one lies between it and the
goal. -/
theorem axis_minor_result (p g v d a : ℚ) (hg2 : round g = F64.fin g)
    (hgb : |g| ≤ 2 ^ (20 : ℕ)) (hD : |g - p| ≤ 2 ^ (21 : ℕ))
    (hJ : p = g ∨ 24 / 10 < |g - p|) (hv0 : 0 ≤ v) (hv1 : v ≤ 1)
    (hd : F64.sub (F64.fin g) (F64.fin p) = F64.fin d) (ha : a ≠ 0) (hda : |d| ≤ |a|) :
    ∃ p2 : ℚ,
      (if F64.le (F64.fabs (F64.sub (F64.fin g) (F64.add (F64.fin p)
          (F64.mul (F64.mul (F64.mul (F64.div (F64.fin d) (F64.fabs (F64.fin a))) speed)
            (F64.fin v)) lit_0_02)))) lit_2_4
        then F64.fin g
        else F64.add (F64.fin p)
          (F64.mul (F64.mul (F64.mul (F64.div (F64.fin d) (F64.fabs (F64.fin a))) speed)
            (F64.fin v)) lit_0_02)) = F64.fin p2 ∧
      (p2 = g ∨ 24 / 10 < |g - p2|) ∧
      |g - p2| ≤ |g - p| + 1 / 2 ^ (27 : ℕ) ∧
      (round p = F64.fin p → (p ≤ p2 ∧ p2 ≤ g) ∨ (g ≤ p2 ∧ p2 ≤ p)) := by
  obtain ⟨d2, e2, _, hsg1, hsg2, _, _, hd0⟩ := delta_props p g hD
  rw [hd] at e2
  cases e2
  obtain ⟨n, en, hn1, hn2, hn0, hn, _⟩ := minor_speed v d a hv0 hv1 ha hda
  obtain ⟨st, es, hst1, hst2, hst0, hst⟩ := step_of n (by linarith)
  have hst' := abs_le.mp hst
  norm_num at hst'
  rw [en, es]
  rcases hJ with hJ | hJ
  · subst hJ
    rw [hst0 (hn0 (hd0 rfl)), axis_stay p hg2]
    refine ⟨p, rfl, Or.inl rfl, ?_, fun _ => Or.inl ⟨le_refl p, le_refl p⟩⟩
    norm_num
  · obtain ⟨p2, e, hJ2, hdist, hbetween⟩ := axis_move p g st hgb hD hJ
      (fun h => hst1 (hn1 (hsg1 h))) (fun h => hst2 (hn2 (hsg2 h)))
      (by
        norm_num
        linarith)
    refine ⟨p2, e, hJ2, ?_, hbetween⟩
    have := abs_nonneg st
    norm_num at hdist ⊢
    linarith

/-- One tick in a state with finite Position, a finite Goal within `2 ^ 20` of the origin
on both axes, total distance at most `2 ^ 21`, VelocityScale in [0,1], and each axis at its
goal or more than 2.4 from it, Position not at Goal.  After the tick each axis is again at
its goal or more than 2.4 from it, the total distance has gone down by `2.4 * v_scale` up
to `2 ^ (-25)`, no axis is farther from its goal by more than `2 ^ (-26)`, and an axis that
was a double lies between its old value and its goal. -/
theorem tick_step (s : State) (px py gx gy v : ℚ) (hx : s.x = F64.fin px)
    (hy : s.y = F64.fin py) (hgx : s.x_goal = F64.fin gx) (hgy : s.y_goal = F64.fin gy)
    (hv : s.v_scale = F64.fin v) (hgx2 : round gx = F64.fin gx)
    (hgy2 : round gy = F64.fin gy) (hgxb : |gx| ≤ 2 ^ (20 : ℕ)) (hgyb : |gy| ≤ 2 ^ (20 : ℕ))
    (hΦ : |gx - px| + |gy - py| ≤ 2 ^ (21 : ℕ))
    (hJx : px = gx ∨ 24 / 10 < |gx - px|) (hJy : py = gy ∨ 24 / 10 < |gy - py|)
    (hv0 : 0 ≤ v) (hv1 : v ≤ 1) (hng : ¬ (px = gx ∧ py = gy)) :
    ∃ px2 py2 : ℚ, simulateMotors s = { s with x := F64.fin px2, y := F64.fin py2 } ∧
      (px2 = gx ∨ 24 / 10 < |gx - px2|) ∧ (py2 = gy ∨ 24 / 10 < |gy - py2|) ∧
      |gx - px2| + |gy - py2| ≤ |gx - px| + |gy - py| - 12 / 5 * v + 1 / 2 ^ (25 : ℕ) ∧
      |gx - px2| ≤ |gx - px| + 1 / 2 ^ (26 : ℕ) ∧ |gy - py2| ≤ |gy - py| + 1 / 2 ^ (26 : ℕ) ∧
      (round px = F64.fin px → (px ≤ px2 ∧ px2 ≤ gx) ∨ (gx ≤ px2 ∧ px2 ≤ px)) ∧
      (round py = F64.fin py → (py ≤ py2 ∧ py2 ≤ gy) ∨ (gy ≤ py2 ∧ py2 ≤ py)) := by
  have hDx : |gx - px| ≤ 2 ^ (21 : ℕ) := by
    have := abs_nonneg (gy - py)
    linarith
  have hDy : |gy - py| ≤ 2 ^ (21 : ℕ) := by
    have := abs_nonneg (gx - px)
    linarith
  obtain ⟨dx, edx, _, _, _, _, hfx, hzx⟩ := delta_props px gx hDx
  obtain ⟨dy, edy, _, _, _, _, hfy, hzy⟩ := delta_props py gy hDy
  have hdx : F64.sub s.x_goal s.x = F64.fin dx := by rw [hgx, hx]; exact edx
  have hdy : F64.sub s.y_goal s.y = F64.fin dy := by rw [hgy, hy]; exact edy
  have hne : ¬ (dx = 0 ∧ dy = 0) := by
    rintro ⟨h1, h2⟩
    apply hng
    constructor
    · rcases hJx with h | h
      · exact h
      · have := hfx h
        rw [h1, abs_zero] at this
        linarith
    · rcases hJy with h | h
      · exact h
      · have := hfy h
        rw [h2, abs_zero] at this
        linarith
  by_cases h : |dx| < |dy|
  · obtain ⟨hy0, e⟩ := velocity_y_major s dx dy hdx hdy h
    rw [hv] at e
    have hfar : 24 / 10 < |gy - py| := by
      rcases hJy with hc | hc
      · exact absurd (hzy hc.symm) hy0
      · exact hc
    obtain ⟨py2, ey, hJy2, hdisty, hby⟩ := axis_major_result py gy v dy hgyb hDy hfar hv0 hv1 edy
    obtain ⟨px2, ex, hJx2, hdistx, hbx⟩ := axis_minor_result px gx v dx dy hgx2 hgxb hDx hJx
      hv0 hv1 edx hy0 (le_of_lt h)
    refine ⟨px2, py2, ?_, hJx2, hJy2, ?_, ?_, ?_, hbx, hby⟩
    · have e1 : (simulateMotors s).x = F64.fin px2 := by
        rw [tick_x, e, hx, hgx]
        exact ex
      have e2 : (simulateMotors s).y = F64.fin py2 := by
        rw [tick_y, e, hy, hgy]
        exact ey
      rw [tick_frame s, e1, e2]
    · norm_num at hdistx hdisty ⊢
      linarith
    · norm_num at hdistx ⊢
      linarith
    · norm_num at hdisty ⊢
      have : 0 ≤ 12 / 5 * v := by positivity
      linarith
  · obtain ⟨hx0, e⟩ := velocity_x_major s dx dy hdx hdy hne h
    rw [hv] at e
    have hfar : 24 / 10 < |gx - px| := by
      rcases hJx with hc | hc
      · exact absurd (hzx hc.symm) hx0
      · exact hc
    obtain ⟨px2, ex, hJx2, hdistx, hbx⟩ := axis_major_result px gx v dx hgxb hDx hfar hv0 hv1 edx
    obtain ⟨py2, ey, hJy2, hdisty, hby⟩ := axis_minor_result py gy v dy dx hgy2 hgyb hDy hJy
      hv0 hv1 edy hx0 (not_lt.mp h)
    refine ⟨px2, py2, ?_, hJx2, hJy2, ?_, ?_, ?_, hbx, hby⟩
    · have e1 : (simulateMotors s).x = F64.fin px2 := by
        rw [tick_x, e, hx, hgx]
        exact ex
      have e2 : (simulateMotors s).y = F64.fin py2 := by
        rw [tick_y, e, hy, hgy]
        exact ey
      rw [tick_frame s, e1, e2]
    · norm_num at hdistx hdisty ⊢
      linarith
    · norm_num at hdistx ⊢
      have : 0 ≤ 12 / 5 * v := by positivity
      linarith
    · norm_num at hdisty ⊢
      linarith

/-- Convergence: in a state with finite Position, a finite Goal (doubles) within `2 ^ 20`
of the origin on both axes, total distance at most `2 ^ 21`, VelocityScale between
`2 ^ (-20)` and 1, and each axis at its goal or more than 2.4 from it, `n` ticks bring
Position exactly to Goal as soon as `n * (2.4 * v_scale - 2 ^ (-25))` is at least the total
distance. -/
theorem ticks_converge (gx gy v : ℚ) (hgx2 : round gx = F64.fin gx)
    (hgy2 : round gy = F64.fin gy) (hgxb : |gx| ≤ 2 ^ (20 : ℕ)) (hgyb : |gy| ≤ 2 ^ (20 : ℕ))
    (hv8 : 1 / 2 ^ (20 : ℕ) ≤ v) (hv1 : v ≤ 1) (n : ℕ) :
    ∀ (s : State) (px py : ℚ), s.x = F64.fin px → s.y = F64.fin py →
      s.x_goal = F64.fin gx → s.y_goal = F64.fin gy → s.v_scale = F64.fin v →
      |gx - px| + |gy - py| ≤ 2 ^ (21 : ℕ) →
      (px = gx ∨ 24 / 10 < |gx - px|) → (py = gy ∨ 24 / 10 < |gy - py|) →
      |gx - px| + |gy - py| ≤ n * (12 / 5 * v - 1 / 2 ^ (25 : ℕ)) →
      simulateMotors^[n] s = { s with x := F64.fin gx, y := F64.fin gy } := by
  have hv0 : 0 ≤ v := le_trans (by positivity) hv8
  have hδ : 0 ≤ 12 / 5 * v - 1 / 2 ^ (25 : ℕ) := by
    norm_num at hv8 ⊢
    linarith
  have hfixed : ∀ (s : State), s.x = F64.fin gx → s.y = F64.fin gy →
      s.x_goal = F64.fin gx → s.y_goal = F64.fin gy → ∀ k : ℕ,
      simulateMotors^[k] s = { s with x := F64.fin gx, y := F64.fin gy } := by
    intro s hx hy hgx hgy k
    have hfix : simulateMotors s = s := by
      apply tick_fixed s
      · rw [hx]
        simp [F64.isFinite, hgx2]
      · rw [hy]
        simp [F64.isFinite, hgy2]
      · unfold atGoal
        rw [hx, hy, hgx, hgy]
        simp [F64.eq]
    rw [iterate_of_fixed s hfix k, ← hx, ← hy]
  induction n with
  | zero =>
    intro s px py hx hy hgx hgy _ _ _ _ hn
    have h1 := abs_nonneg (gx - px)
    have h2 := abs_nonneg (gy - py)
    simp only [Nat.cast_zero, zero_mul] at hn
    have e1 : px = gx := by
      have : |gx - px| = 0 := by linarith
      linarith [abs_eq_zero.mp this]
    have e2 : py = gy := by
      have : |gy - py| = 0 := by linarith
      linarith [abs_eq_zero.mp this]
    rw [e1] at hx
    rw [e2] at hy
    exact hfixed s hx hy hgx hgy 0
  | succ n ih =>
    intro s px py hx hy hgx hgy hv hΦ hJx hJy hn
    by_cases hg : px = gx ∧ py = gy
    · rw [hg.1] at hx
      rw [hg.2] at hy
      exact hfixed s hx hy hgx hgy (n + 1)
    · obtain ⟨px2, py2, e, hJx2, hJy2, hdist, _, _, _, _⟩ := tick_step s px py gx gy v hx hy hgx
        hgy hv hgx2 hgy2 hgxb hgyb hΦ hJx hJy hv0 hv1 hg
      rw [Function.iterate_succ_apply, e]
      push_cast at hn
      have h3 := ih { s with x := F64.fin px2, y := F64.fin py2 } px2 py2 rfl rfl hgx hgy hv
        (by linarith) hJx2 hJy2 (by linarith)
      rw [h3]

/-! ## One tick from any finite state -/

/-- The unit in the last place is at least `2 ^ (-1074)`. -/
theorem ulp_min (a : ℚ) : 1 / 2 ^ (1074 : ℕ) ≤ ulp a := by
  unfold ulp
  have h := zpow_le_zpow_right₀ (by norm_num : (1 : ℚ) ≤ 2)
    (show (-1074 : ℤ) ≤ max (ilog2 a) (-1022) - 52 by
      have := le_max_right (ilog2 a) (-1022)
      omega)
  have e : (2 : ℚ) ^ (-1074 : ℤ) = 1 / 2 ^ (1074 : ℕ) := by
    rw [show (-1074 : ℤ) = -((1074 : ℕ) : ℤ) by norm_num, zpow_neg, zpow_natCast, one_div]
  rwa [e] at h

/-- A finite rounding result that is not zero is at least `2 ^ (-1074)` in magnitude. -/
theorem round_fin_min (q d : ℚ) (h : round q = F64.fin d) (hd : d ≠ 0) :
    1 / 2 ^ (1074 : ℕ) ≤ |d| := by
  have hq : q ≠ 0 := by
    intro c
    rw [c, round_zero] at h
    cases h
    exact hd rfl
  have ha : 0 < |q| := abs_pos.mpr hq
  have h1 := round_fin_abs q d h
  rw [round_of_pos _ ha] at h1
  have hrm : roundMag |q| = |d| := by
    by_cases hov : (2 : ℚ) ^ (1024 : ℕ) ≤ roundMag |q|
    · rw [if_pos hov] at h1
      exact F64.noConfusion h1
    · rw [if_neg hov] at h1
      exact F64.fin.inj h1
  have hpos : 0 < roundMag |q| := by
    rw [hrm]
    exact abs_pos.mpr hd
  rw [← hrm]
  unfold roundMag at hpos ⊢
  have hu := ulp_pos |q|
  have hn : 0 < (rne (|q| / ulp |q|) : ℚ) := by
    by_contra hc
    have := mul_nonpos_of_nonpos_of_nonneg (not_lt.mp hc) (le_of_lt hu)
    linarith
  have hn1 : (1 : ℚ) ≤ (rne (|q| / ulp |q|) : ℚ) := by
    have : (0 : ℤ) < rne (|q| / ulp |q|) := by exact_mod_cast hn
    exact_mod_cast this
  calc 1 / 2 ^ (1074 : ℕ) ≤ ulp |q| := ulp_min _
    _ = 1 * ulp |q| := by ring
    _ ≤ (rne (|q| / ulp |q|) : ℚ) * ulp |q| := mul_le_mul_of_nonneg_right hn1 (le_of_lt hu)

/-- Below `2 ^ (-1022)` the rounded magnitude is within `2 ^ (-1075)` of the exact one. -/
theorem roundMag_sub (a : ℚ) (ha : 0 < a) (hb : a < 1 / 2 ^ (1022 : ℕ)) :
    |roundMag a - a| ≤ 1 / 2 ^ (1074 : ℕ) / 2 := by
  obtain ⟨lo, _⟩ := ilog2_spec a ha
  have hlog : ilog2 a < -1022 := by
    have h : (2 : ℚ) ^ ilog2 a < 2 ^ (-1022 : ℤ) := by
      have e : (2 : ℚ) ^ (-1022 : ℤ) = 1 / 2 ^ (1022 : ℕ) := by
        rw [show (-1022 : ℤ) = -((1022 : ℕ) : ℤ) by norm_num, zpow_neg, zpow_natCast, one_div]
      rw [e]
      exact lt_of_le_of_lt lo hb
    exact (zpow_lt_zpow_iff_right₀ (by norm_num : (1 : ℚ) < 2)).mp h
  have hu : 0 < ulp a := ulp_pos a
  have hu1 : ulp a = 1 / 2 ^ (1074 : ℕ) := by
    unfold ulp
    rw [max_eq_right (le_of_lt hlog),
      show (-1022 - 52 : ℤ) = -((1074 : ℕ) : ℤ) by norm_num, zpow_neg, zpow_natCast, one_div]
  have he := rne_error (a / ulp a)
  have hmul : roundMag a - a = ((rne (a / ulp a) : ℚ) - a / ulp a) * ulp a := by
    unfold roundMag
    field_simp
  rw [hmul, abs_mul, abs_of_pos hu, ← hu1]
  calc |(rne (a / ulp a) : ℚ) - a / ulp a| * ulp a ≤ 1 / 2 * ulp a :=
        mul_le_mul_of_nonneg_right he (le_of_lt hu)
    _ = ulp a / 2 := by ring

/-- Below `2 ^ (-1022)` in magnitude, rounding to binary64 gives a finite value within
`2 ^ (-1075)` of the exact one. -/
theorem round_sub (r : ℚ) (h : |r| < 1 / 2 ^ (1022 : ℕ)) :
    ∃ r2 : ℚ, round r = F64.fin r2 ∧ |r2 - r| ≤ 1 / 2 ^ (1074 : ℕ) / 2 := by
  have hsmall : (1 : ℚ) / 2 ^ (1022 : ℕ) ≤ 1 := by
    rw [div_le_one (by positivity)]
    exact one_le_pow₀ (by norm_num)
  have hsmall2 : (1 : ℚ) / 2 ^ (1074 : ℕ) / 2 ≤ 1 := by
    have h1 : (1 : ℚ) / 2 ^ (1074 : ℕ) ≤ 1 := by
      rw [div_le_one (by positivity)]
      exact one_le_pow₀ (by norm_num)
    linarith
  have hbig : (2 : ℚ) < 2 ^ (1024 : ℕ) := by
    have h1 : (2 : ℚ) ^ (1 : ℕ) < 2 ^ (1024 : ℕ) :=
      pow_lt_pow_right₀ (by norm_num) (by norm_num)
    simpa using h1
  obtain ⟨hlo, hhi⟩ := abs_lt.mp h
  rcases lt_trichotomy r 0 with hr | hr | hr
  · have ha : 0 < -r := by linarith
    have hb : -r < 1 / 2 ^ (1022 : ℕ) := by linarith
    have he := roundMag_sub (-r) ha hb
    rw [abs_le] at he
    have hfin : ¬ (2 : ℚ) ^ (1024 : ℕ) ≤ roundMag (-r) := by
      intro hc
      linarith
    refine ⟨-roundMag (-r), by rw [round_of_neg r hr, if_neg hfin], ?_⟩
    rw [abs_le]
    constructor <;> linarith
  · refine ⟨0, by rw [hr, round_zero], ?_⟩
    rw [hr]
    simp only [sub_self, abs_zero]
    positivity
  · have he := roundMag_sub r hr hhi
    have he2 := he
    rw [abs_le] at he2
    have hfin : ¬ (2 : ℚ) ^ (1024 : ℕ) ≤ roundMag r := by
      intro hc
      linarith
    exact ⟨roundMag r, by rw [round_of_pos r hr, if_neg hfin], he⟩

/-- The velocity of the major axis for a velocity scale in [0,1] and any delta computed
by a subtraction, not zero and at most `2 ^ 22` in magnitude: finite, of the sign of the
delta, at most 121 in magnitude. -/
theorem major_speed_any (v d : ℚ) (hv0 : 0 ≤ v) (hv1 : v ≤ 1)
    (hdmin : 1 / 2 ^ (1074 : ℕ) ≤ |d|) (hd2 : |d| ≤ 2 ^ (22 : ℕ)) :
    ∃ m : ℚ, F64.div (F64.mul (F64.mul speed (F64.fin v)) (F64.fin d)) (F64.fabs (F64.fin d))
        = F64.fin m ∧
      (0 ≤ d → 0 ≤ m) ∧ (d ≤ 0 → m ≤ 0) ∧ |m| ≤ 121 := by
  obtain ⟨w, ew, hw0, hw120, _⟩ := scaled_speed v hv0 hv1
  have hapos : 0 < |d| := lt_of_lt_of_le (by positivity) hdmin
  have hd : d ≠ 0 := abs_pos.mp hapos
  have hP : |w * d| = w * |d| := by rw [abs_mul, abs_of_nonneg hw0]
  have hPhi : w * |d| ≤ 120 * 2 ^ (22 : ℕ) := mul_le_mul hw120 hd2 (le_of_lt hapos) (by norm_num)
  have hquot : ∃ t : ℚ, round (w * d) = F64.fin t ∧ |t| / |d| ≤ w + 1 / 2 := by
    by_cases hs : |w * d| < 1 / 2 ^ (1022 : ℕ)
    · obtain ⟨t, et, ht⟩ := round_sub (w * d) hs
      refine ⟨t, et, ?_⟩
      have h1 := le_trans (abs_abs_sub_abs_le_abs_sub t (w * d)) ht
      rw [hP] at h1
      have h2 := (abs_le.mp h1).2
      rw [div_le_iff₀ hapos]
      have e : (w + 1 / 2) * |d| = w * |d| + |d| / 2 := by ring
      rw [e]
      linarith
    · have hs2 : 1 / 2 ^ (1022 : ℕ) ≤ |w * d| := not_lt.mp hs
      obtain ⟨t, et, ht⟩ := round_rel (w * d) 1022 29 (by norm_num) (by norm_num) hs2
        (by
          rw [hP]
          norm_num at hPhi ⊢
          linarith)
      refine ⟨t, et, ?_⟩
      have h1 := le_trans (abs_abs_sub_abs_le_abs_sub t (w * d)) ht
      rw [hP] at h1
      have h2 := (abs_le.mp h1).2
      rw [div_le_iff₀ hapos]
      have e : (w + 1 / 2) * |d| = w * |d| + |d| / 2 := by ring
      rw [e]
      have h3 : w * |d| / 2 ^ (53 : ℕ) ≤ |d| / 2 := by
        rw [div_le_iff₀ (by positivity)]
        have : w * |d| ≤ 120 * |d| := mul_le_mul_of_nonneg_right hw120 (le_of_lt hapos)
        have h4 : |d| / 2 * 2 ^ (53 : ℕ) = 4503599627370496 * |d| := by norm_num; ring
        rw [h4]
        linarith
      linarith
  obtain ⟨t, et, hq⟩ := hquot
  have hQ : abs (t / |d|) = |t| / |d| := by rw [abs_div, abs_abs]
  obtain ⟨m, em, hm⟩ := round_err (t / |d|) 7 (by norm_num)
    (by
      rw [hQ]
      norm_num
      linarith)
  have hmabs := abs_le.mp (le_trans (abs_abs_sub_abs_le_abs_sub m (t / |d|)) hm)
  rw [hQ] at hmabs
  norm_num at hmabs
  have hts := round_fin_sign _ t et
  have hms := round_fin_sign _ m em
  refine ⟨m, ?_, ?_, ?_, ?_⟩
  · simp only [F64.fabs]
    rw [ew]
    simp only [F64.mul]
    rw [et]
    simp only [F64.div, abs_eq_zero, hd, if_false]
    exact em
  · intro h
    exact hms.1 (div_nonneg (hts.1 (mul_nonneg hw0 h)) (le_of_lt hapos))
  · intro h
    exact hms.2 (div_nonpos_of_nonpos_of_nonneg
      (hts.2 (mul_nonpos_of_nonneg_of_nonpos hw0 h)) (le_of_lt hapos))
  · linarith

/-- One axis of a tick from any finite coordinate: the coordinate is moved by a finite
displacement of magnitude at most 3 and then snapped.  The result is finite, it is the
goal or more than 2.4 from it, and the distance has grown by at most 4. -/
theorem axis_any (p g st : ℚ) (hgb : |g| ≤ 2 ^ (20 : ℕ)) (hD : |g - p| ≤ 2 ^ (20 : ℕ))
    (hmag : |st| ≤ 3) :
    ∃ p2 : ℚ,
      (if F64.le (F64.fabs (F64.sub (F64.fin g) (F64.add (F64.fin p) (F64.fin st)))) lit_2_4
        then F64.fin g else F64.add (F64.fin p) (F64.fin st)) = F64.fin p2 ∧
      (p2 = g ∨ 24 / 10 < |g - p2|) ∧ |g - p2| ≤ |g - p| + 4 := by
  have hgb2 := abs_le.mp hgb
  have hD2 := abs_le.mp hD
  have hmag2 := abs_le.mp hmag
  norm_num at hgb2 hD2
  obtain ⟨p1, e1, he1⟩ := round_err (p + st) 22 (by norm_num)
    (by
      rw [abs_lt]
      norm_num
      constructor <;> linarith)
  have he2 := abs_le.mp he1
  norm_num at he2
  simp only [F64.add]
  rw [e1]
  obtain ⟨_, sn2⟩ := snap_axis g p1
  have h0 := abs_nonneg (g - p)
  cases hc : F64.le (F64.fabs (F64.sub (F64.fin g) (F64.fin p1))) lit_2_4 with
  | true =>
    refine ⟨g, by simp, Or.inl rfl, ?_⟩
    rw [sub_self, abs_zero]
    linarith
  | false =>
    refine ⟨p1, by simp, Or.inr (sn2 hc), ?_⟩
    have e : g - p1 = (g - p) - st - (p1 - (p + st)) := by ring
    rw [e]
    have h1 := abs_sub (g - p - st) (p1 - (p + st))
    have h2 := abs_sub (g - p) st
    have h3 : |p1 - (p + st)| ≤ 1 := by
      rw [abs_le]
      constructor <;> linarith
    linarith

/-- The major axis of a tick from any finite coordinate within `2 ^ 20` of its goal. -/
theorem axis_major_any (p g v d : ℚ) (hgb : |g| ≤ 2 ^ (20 : ℕ))
    (hD : |g - p| ≤ 2 ^ (20 : ℕ)) (hv0 : 0 ≤ v) (hv1 : v ≤ 1)
    (hd : F64.sub (F64.fin g) (F64.fin p) = F64.fin d) (hd0 : d ≠ 0) :
    ∃ p2 : ℚ,
      (if F64.le (F64.fabs (F64.sub (F64.fin g) (F64.add (F64.fin p)
          (F64.mul (F64.div (F64.mul (F64.mul speed (F64.fin v)) (F64.fin d))
            (F64.fabs (F64.fin d))) lit_0_02)))) lit_2_4
        then F64.fin g
        else F64.add (F64.fin p)
          (F64.mul (F64.div (F64.mul (F64.mul speed (F64.fin v)) (F64.fin d))
            (F64.fabs (F64.fin d))) lit_0_02)) = F64.fin p2 ∧
      (p2 = g ∨ 24 / 10 < |g - p2|) ∧ |g - p2| ≤ |g - p| + 4 := by
  obtain ⟨d2, e2, _, _, _, hdb, _, _⟩ := delta_props p g (le_trans hD (by norm_num))
  rw [hd] at e2
  cases e2
  have hmin := round_fin_min (g - p) d hd hd0
  obtain ⟨m, em, _, _, hm⟩ := major_speed_any v d hv0 hv1 hmin hdb
  obtain ⟨st, es, _, _, _, hst⟩ := step_of m hm
  have hst2 := abs_le.mp hst
  norm_num at hst2
  rw [em, es]
  exact axis_any p g st hgb hD (by linarith)

/-- The minor axis of a tick from any finite coordinate within `2 ^ 20` of its goal. -/
theorem axis_minor_any (p g v d a : ℚ) (hgb : |g| ≤ 2 ^ (20 : ℕ))
    (hD : |g - p| ≤ 2 ^ (20 : ℕ)) (hv0 : 0 ≤ v) (hv1 : v ≤ 1) (ha : a ≠ 0)
    (hda : |d| ≤ |a|) :
    ∃ p2 : ℚ,
      (if F64.le (F64.fabs (F64.sub (F64.fin g) (F64.add (F64.fin p)
          (F64.mul (F64.mul (F64.mul (F64.div (F64.fin d) (F64.fabs (F64.fin a))) speed)
            (F64.fin v)) lit_0_02)))) lit_2_4
        then F64.fin g
        else F64.add (F64.fin p)
          (F64.mul (F64.mul (F64.mul (F64.div (F64.fin d) (F64.fabs (F64.fin a))) speed)
            (F64.fin v)) lit_0_02)) = F64.fin p2 ∧
      (p2 = g ∨ 24 / 10 < |g - p2|) ∧ |g - p2| ≤ |g - p| + 4 := by
  obtain ⟨n, en, _, _, _, hn, _⟩ := minor_speed v d a hv0 hv1 ha hda
  obtain ⟨st, es, _, _, _, hst⟩ := step_of n (by linarith)
  have hst2 := abs_le.mp hst
  norm_num at hst2
  rw [en, es]
  exact axis_any p g st hgb hD (by linarith)

/-- An axis of a tick with zero velocity, from any finite coordinate within `2 ^ 20` of
its goal. -/
theorem axis_zero_any (p g : ℚ) (hgb : |g| ≤ 2 ^ (20 : ℕ)) (hD : |g - p| ≤ 2 ^ (20 : ℕ)) :
    ∃ p2 : ℚ,
      (if F64.le (F64.fabs (F64.sub (F64.fin g) (F64.add (F64.fin p)
          (F64.mul (F64.fin 0) lit_0_02)))) lit_2_4
        then F64.fin g
        else F64.add (F64.fin p) (F64.mul (F64.fin 0) lit_0_02)) = F64.fin p2 ∧
      (p2 = g ∨ 24 / 10 < |g - p2|) ∧ |g - p2| ≤ |g - p| + 4 := by
  obtain ⟨st, es, _, _, hst0, _⟩ := step_of 0 (by norm_num)
  rw [es, hst0 rfl]
  exact axis_any p g 0 hgb hD (by norm_num)

/-- One tick from any state with finite Position, a finite Goal within `2 ^ 20` of the
origin on both axes, total distance at most `2 ^ 20` and VelocityScale in [0,1]: Position
stays finite, each axis is then at its goal or more than 2.4 from it, and the total
distance has grown by at most 8. -/
theorem tick_any (s : State) (px py gx gy v : ℚ) (hx : s.x = F64.fin px)
    (hy : s.y = F64.fin py) (hgx : s.x_goal = F64.fin gx) (hgy : s.y_goal = F64.fin gy)
    (hv : s.v_scale = F64.fin v) (hgxb : |gx| ≤ 2 ^ (20 : ℕ)) (hgyb : |gy| ≤ 2 ^ (20 : ℕ))
    (hΦ : |gx - px| + |gy - py| ≤ 2 ^ (20 : ℕ)) (hv0 : 0 ≤ v) (hv1 : v ≤ 1) :
    ∃ px2 py2 : ℚ, simulateMotors s = { s with x := F64.fin px2, y := F64.fin py2 } ∧
      (px2 = gx ∨ 24 / 10 < |gx - px2|) ∧ (py2 = gy ∨ 24 / 10 < |gy - py2|) ∧
      |gx - px2| + |gy - py2| ≤ |gx - px| + |gy - py| + 8 := by
  have hDx : |gx - px| ≤ 2 ^ (20 : ℕ) := by
    have := abs_nonneg (gy - py)
    linarith
  have hDy : |gy - py| ≤ 2 ^ (20 : ℕ) := by
    have := abs_nonneg (gx - px)
    linarith
  obtain ⟨dx, edx, _⟩ := delta_props px gx (le_trans hDx (by norm_num))
  obtain ⟨dy, edy, _⟩ := delta_props py gy (le_trans hDy (by norm_num))
  have hdx : F64.sub s.x_goal s.x = F64.fin dx := by rw [hgx, hx]; exact edx
  have hdy : F64.sub s.y_goal s.y = F64.fin dy := by rw [hgy, hy]; exact edy
  have hfinish : ∀ (A B : F64), velocity s = (A, B) →
      (∃ p2 : ℚ,
        (if F64.le (F64.fabs (F64.sub (F64.fin gx) (F64.add (F64.fin px)
            (F64.mul A lit_0_02)))) lit_2_4
          then F64.fin gx else F64.add (F64.fin px) (F64.mul A lit_0_02)) = F64.fin p2 ∧
        (p2 = gx ∨ 24 / 10 < |gx - p2|) ∧ |gx - p2| ≤ |gx - px| + 4) →
      (∃ p2 : ℚ,
        (if F64.le (F64.fabs (F64.sub (F64.fin gy) (F64.add (F64.fin py)
            (F64.mul B lit_0_02)))) lit_2_4
          then F64.fin gy else F64.add (F64.fin py) (F64.mul B lit_0_02)) = F64.fin p2 ∧
        (p2 = gy ∨ 24 / 10 < |gy - p2|) ∧ |gy - p2| ≤ |gy - py| + 4) →
      ∃ px2 py2 : ℚ, simulateMotors s = { s with x := F64.fin px2, y := F64.fin py2 } ∧
        (px2 = gx ∨ 24 / 10 < |gx - px2|) ∧ (py2 = gy ∨ 24 / 10 < |gy - py2|) ∧
        |gx - px2| + |gy - py2| ≤ |gx - px| + |gy - py| + 8 := by
    intro A B e hA hB
    obtain ⟨px2, ex, hJx2, hdistx⟩ := hA
    obtain ⟨py2, ey, hJy2, hdisty⟩ := hB
    refine ⟨px2, py2, ?_, hJx2, hJy2, by linarith⟩
    have e1 : (simulateMotors s).x = F64.fin px2 := by
      rw [tick_x, e, hx, hgx]
      exact ex
    have e2 : (simulateMotors s).y = F64.fin py2 := by
      rw [tick_y, e, hy, hgy]
      exact ey
    rw [tick_frame s, e1, e2]
  by_cases h0 : dx = 0 ∧ dy = 0
  · have e : velocity s = (F64.fin 0, F64.fin 0) := by
      unfold velocity
      rw [hdx, hdy, h0.1, h0.2]
      simp [F64.eq]
    exact hfinish _ _ e (axis_zero_any px gx hgxb hDx) (axis_zero_any py gy hgyb hDy)
  · by_cases h : |dx| < |dy|
    · obtain ⟨hy0, e⟩ := velocity_y_major s dx dy hdx hdy h
      rw [hv] at e
      exact hfinish _ _ e (axis_minor_any px gx v dx dy hgxb hDx hv0 hv1 hy0 (le_of_lt h))
        (axis_major_any py gy v dy hgyb hDy hv0 hv1 edy hy0)
    · obtain ⟨hx0, e⟩ := velocity_x_major s dx dy hdx hdy h0 h
      rw [hv] at e
      exact hfinish _ _ e (axis_major_any px gx v dx hgxb hDx hv0 hv1 edx hx0)
        (axis_minor_any py gy v dy dx hgyb hDy hv0 hv1 hx0 (not_lt.mp h))

/-- Convergence from any finite Position: with Goal a pair of doubles within `2 ^ 20` of
the origin, total distance at most `2 ^ 20` and VelocityScale between `2 ^ (-20)` and 1,
`n + 1` ticks bring Position exactly to Goal as soon as
`n * (2.4 * v_scale - 2 ^ (-25))` is at least the total distance plus 8. -/
theorem ticks_converge_any (s : State) (px py gx gy v : ℚ) (hx : s.x = F64.fin px)
    (hy : s.y = F64.fin py) (hgx : s.x_goal = F64.fin gx) (hgy : s.y_goal = F64.fin gy)
    (hv : s.v_scale = F64.fin v) (hgx2 : round gx = F64.fin gx)
    (hgy2 : round gy = F64.fin gy) (hgxb : |gx| ≤ 2 ^ (20 : ℕ)) (hgyb : |gy| ≤ 2 ^ (20 : ℕ))
    (hΦ : |gx - px| + |gy - py| ≤ 2 ^ (20 : ℕ))
    (hv8 : 1 / 2 ^ (20 : ℕ) ≤ v) (hv1 : v ≤ 1) (n : ℕ)
    (hn : |gx - px| + |gy - py| + 8 ≤ n * (12 / 5 * v - 1 / 2 ^ (25 : ℕ))) :
    simulateMotors^[n + 1] s = { s with x := F64.fin gx, y := F64.fin gy } := by
  have hv0 : 0 ≤ v := le_trans (by positivity) hv8
  obtain ⟨px2, py2, e, hJx, hJy, hdist⟩ := tick_any s px py gx gy v hx hy hgx hgy hv hgxb hgyb
    hΦ hv0 hv1
  rw [Function.iterate_succ_apply, e]
  have h := ticks_converge gx gy v hgx2 hgy2 hgxb hgyb hv8 hv1 n
    { s with x := F64.fin px2, y := F64.fin py2 } px2 py2 rfl rfl hgx hgy hv
    (by
      norm_num at hΦ ⊢
      linarith) hJx hJy (by linarith)
  rw [h]

/-! ## Convergence, overshoot and the goal event -/

/-- C1 (as amended): let Position be finite, Goal a pair of doubles within `2 ^ 20` of the
origin on both axes, the total distance `|x_goal - x| + |y_goal - y|` at most `2 ^ 20` and
VelocityScale between `2 ^ (-20)` and 1.  Then repeated ticks reach Position == Goal
exactly on both axes: after `n + 1` ticks, for every `n` with
`n * (2.4 * VelocityScale - 2 ^ (-25))` at least the total distance plus 8, the state is
the initial one with Position equal to Goal; if each axis starts at its goal or more than
2.4 from it, already after `n` ticks for every `n` with
`n * (2.4 * VelocityScale - 2 ^ (-25))` at least the total distance.  So there is `N` such
that Position is exactly Goal after every `n ≥ N` ticks.  A tick applied to any state whose
Position is finite and equal to Goal leaves the whole state unchanged, also when repeated.
In the example scenario (Position `(-200, 150)`, VelocityScale 1, goal `(-300, 150)`)
Position is exactly the goal after 41 ticks, not after 40, and after every larger
number. -/
theorem ticks_reach_goal (s : State) (px py gx gy v : ℚ) (hx : s.x = F64.fin px)
    (hy : s.y = F64.fin py) (hgx : s.x_goal = F64.fin gx) (hgy : s.y_goal = F64.fin gy)
    (hv : s.v_scale = F64.fin v) (hgx2 : round gx = F64.fin gx)
    (hgy2 : round gy = F64.fin gy) (hgxb : |gx| ≤ 2 ^ (20 : ℕ)) (hgyb : |gy| ≤ 2 ^ (20 : ℕ))
    (hΦ : |gx - px| + |gy - py| ≤ 2 ^ (20 : ℕ))
    (hv8 : 1 / 2 ^ (20 : ℕ) ≤ v) (hv1 : v ≤ 1) :
    (∀ n : ℕ, |gx - px| + |gy - py| + 8 ≤ n * (12 / 5 * v - 1 / 2 ^ (25 : ℕ)) →
      simulateMotors^[n + 1] s = { s with x := F64.fin gx, y := F64.fin gy } ∧
      atGoal (simulateMotors^[n + 1] s) = true) ∧
    ((px = gx ∨ 24 / 10 < |gx - px|) → (py = gy ∨ 24 / 10 < |gy - py|) →
      ∀ n : ℕ, |gx - px| + |gy - py| ≤ n * (12 / 5 * v - 1 / 2 ^ (25 : ℕ)) →
      simulateMotors^[n] s = { s with x := F64.fin gx, y := F64.fin gy } ∧
      atGoal (simulateMotors^[n] s) = true) ∧
    (∃ N : ℕ, ∀ n : ℕ, N ≤ n →
      simulateMotors^[n] s = { s with x := F64.fin gx, y := F64.fin gy } ∧
      atGoal (simulateMotors^[n] s) = true) ∧
    (∀ t : State, t.x.isFinite = true → t.y.isFinite = true → atGoal t = true →
      simulateMotors t = t ∧ ∀ n : ℕ, simulateMotors^[n] t = t) ∧
    atGoal (simulateMotors^[40]
      (move_to scenario (F64.fin (-300)) (F64.fin 150))) = false ∧
    (∀ n : ℕ, 41 ≤ n →
      (simulateMotors^[n] (move_to scenario (F64.fin (-300)) (F64.fin 150))).x = F64.fin (-300) ∧
      (simulateMotors^[n] (move_to scenario (F64.fin (-300)) (F64.fin 150))).y = F64.fin 150) := by
  have hδ : 0 < 12 / 5 * v - 1 / 2 ^ (25 : ℕ) := by
    norm_num at hv8 ⊢
    linarith
  have hat : atGoal ({ s with x := F64.fin gx, y := F64.fin gy } : State) = true := by
    show (F64.eq s.x_goal (F64.fin gx) && F64.eq s.y_goal (F64.fin gy)) = true
    rw [hgx, hgy]
    simp [F64.eq]
  have hconv : ∀ n : ℕ, |gx - px| + |gy - py| + 8 ≤ n * (12 / 5 * v - 1 / 2 ^ (25 : ℕ)) →
      simulateMotors^[n + 1] s = { s with x := F64.fin gx, y := F64.fin gy } ∧
      atGoal (simulateMotors^[n + 1] s) = true := by
    intro n hn
    have e := ticks_converge_any s px py gx gy v hx hy hgx hgy hv hgx2 hgy2 hgxb hgyb hΦ hv8
      hv1 n hn
    refine ⟨e, ?_⟩
    rw [e]
    exact hat
  refine ⟨hconv, fun hJx hJy n hn => ?_, ?_, fun t htx hty htg => ?_,
    by rw [scenario_tick40]; decide!, fun n hn => ?_⟩
  · have e := ticks_converge gx gy v hgx2 hgy2 hgxb hgyb hv8 hv1 n s px py hx hy hgx hgy hv
      (le_trans hΦ (by norm_num)) hJx hJy hn
    refine ⟨e, ?_⟩
    rw [e]
    exact hat
  · obtain ⟨N, hN⟩ := exists_nat_ge
      ((|gx - px| + |gy - py| + 8) / (12 / 5 * v - 1 / 2 ^ (25 : ℕ)))
    refine ⟨N + 1, fun n hn => ?_⟩
    obtain ⟨k, rfl⟩ : ∃ k, n = k + 1 := ⟨n - 1, by omega⟩
    apply hconv k
    have h1 : (|gx - px| + |gy - py| + 8) ≤ N * (12 / 5 * v - 1 / 2 ^ (25 : ℕ)) :=
      (div_le_iff₀ hδ).mp hN
    have h2 : (N : ℚ) ≤ k := by exact_mod_cast (by omega : N ≤ k)
    have h3 := mul_le_mul_of_nonneg_right h2 (le_of_lt hδ)
    linarith
  · have hfix := tick_fixed t htx hty htg
    exact ⟨hfix, iterate_of_fixed t hfix⟩
  · obtain ⟨k, rfl⟩ : ∃ k, n = k + 41 := ⟨n - 41, by omega⟩
    rw [Function.iterate_add_apply, scenario_tick41,
      iterate_of_fixed _ (tick_fixed _ (by decide!) (by decide!) (by decide!)) k]
    exact ⟨rfl, rfl⟩

/-- C1 in the example scenario (Position `(-200, 150)`, VelocityScale 1, goal
`(-300, 150)`): the x axis is 100 from its goal and the y axis at its goal, and
`42 * (2.4 - 2 ^ (-25)) ≥ 100`, so after 42 ticks Position is exactly the goal. -/
theorem ticks_reach_goal_witness :
    simulateMotors^[42] (move_to scenario (F64.fin (-300)) (F64.fin 150))
      = { move_to scenario (F64.fin (-300)) (F64.fin 150) with
          x := F64.fin (-300), y := F64.fin 150 } ∧
    atGoal (simulateMotors^[42] (move_to scenario (F64.fin (-300)) (F64.fin 150))) = true :=
  (ticks_reach_goal (move_to scenario (F64.fin (-300)) (F64.fin 150)) (-200) 150 (-300) 150 1
    rfl rfl rfl rfl rfl (by decide!) (by decide!) (by norm_num [abs_le]) (by norm_num [abs_le])
    (by norm_num) (by norm_num) (by norm_num)).2.1 (Or.inr (by norm_num)) (Or.inl rfl) 42
    (by norm_num)

/-- C1 as stated fails in double arithmetic.  From `(0, 0)` to `(12, 0)` at VelocityScale 1
the stated bound is `N = 4` (`12 - 2.4 * 4 ≤ 2.4`, while `12 - 2.4 * 3 > 2.4`), but after
4 ticks x is 9.6 and the distance the code computes is above its 2.4, so Position is not
Goal; and at VelocityScale `2 ^ (-70)`, in (0,1], a tick from `(-200, 150)` towards
`(-300, 150)` changes nothing, so Position never equals Goal. -/
theorem convergence_bound_counterexample :
    ((12 : ℚ) - 24 / 10 * 1 * 4 ≤ 24 / 10 ∧ ¬ ((12 : ℚ) - 24 / 10 * 1 * 3 ≤ 24 / 10)) ∧
    (simulateMotors^[4] (move_to mainInit (F64.fin 12) (F64.fin 0))).x
      = F64.fin (5404319552844595 / 562949953421312) ∧
    atGoal (simulateMotors^[4] (move_to mainInit (F64.fin 12) (F64.fin 0))) = false ∧
    (F64.lt (F64.fin 0) (F64.fin (1 / 2 ^ 70)) = true ∧
      F64.le (F64.fin (1 / 2 ^ 70)) (F64.fin 1) = true) ∧
    (∀ n : ℕ, atGoal (simulateMotors^[n]
      (move_to { scenario with v_scale := F64.fin (1 / 2 ^ 70) } (F64.fin (-300)) (F64.fin 150)))
        = false) := by
  refine ⟨by norm_num, by decide!, by decide!, by decide!, fun n => ?_⟩
  rw [iterate_of_fixed _ (by decide!) n]
  decide!

/-- C14 (as amended): on an axis whose goal is finite and whose coordinate after the
integration step of the tick is finite, after the tick the coordinate is either exactly
the goal value or the integrated coordinate, more than 2.4 away from the goal; and if the
integrated coordinate is at most 2.4 from the goal the axis is set exactly to its goal.
Both are finite in every state with finite Position, Goal within `2 ^ 20` of the origin on
both axes, total distance at most `2 ^ 20` and VelocityScale in [0,1]: there, after the
tick each axis is exactly at its goal or more than 2.4 from it. -/
theorem snap_to_goal (s : State) :
    (∀ g p : ℚ, s.x_goal = F64.fin g →
      F64.add s.x (F64.mul (velocity s).1 lit_0_02) = F64.fin p →
      ((simulateMotors s).x = F64.fin g ∨
        ((simulateMotors s).x = F64.fin p ∧ 24 / 10 < |g - p|)) ∧
      (|g - p| ≤ 24 / 10 → (simulateMotors s).x = F64.fin g)) ∧
    (∀ g p : ℚ, s.y_goal = F64.fin g →
      F64.add s.y (F64.mul (velocity s).2 lit_0_02) = F64.fin p →
      ((simulateMotors s).y = F64.fin g ∨
        ((simulateMotors s).y = F64.fin p ∧ 24 / 10 < |g - p|)) ∧
      (|g - p| ≤ 24 / 10 → (simulateMotors s).y = F64.fin g)) ∧
    (∀ px py gx gy v : ℚ, s.x = F64.fin px → s.y = F64.fin py → s.x_goal = F64.fin gx →
      s.y_goal = F64.fin gy → s.v_scale = F64.fin v → |gx| ≤ 2 ^ (20 : ℕ) →
      |gy| ≤ 2 ^ (20 : ℕ) → |gx - px| + |gy - py| ≤ 2 ^ (20 : ℕ) → 0 ≤ v → v ≤ 1 →
      ∃ px2 py2 : ℚ, simulateMotors s = { s with x := F64.fin px2, y := F64.fin py2 } ∧
        (px2 = gx ∨ 24 / 10 < |gx - px2|) ∧ (py2 = gy ∨ 24 / 10 < |gy - py2|)) := by
  refine ⟨?_, ?_, fun px py gx gy v hx hy hgx hgy hv hgxb hgyb hΦ hv0 hv1 => ?_⟩
  · intro g p hg hp
    rw [tick_x, hg, hp]
    obtain ⟨h1, h2⟩ := snap_axis g p
    constructor
    · cases hc : F64.le (F64.fabs (F64.sub (F64.fin g) (F64.fin p))) lit_2_4 with
      | true => exact Or.inl (by simp)
      | false => exact Or.inr ⟨by simp, h2 hc⟩
    · intro h
      rw [h1 h]
      rfl
  · intro g p hg hp
    rw [tick_y, hg, hp]
    obtain ⟨h1, h2⟩ := snap_axis g p
    constructor
    · cases hc : F64.le (F64.fabs (F64.sub (F64.fin g) (F64.fin p))) lit_2_4 with
      | true => exact Or.inl (by simp)
      | false => exact Or.inr ⟨by simp, h2 hc⟩
    · intro h
      rw [h1 h]
      rfl
  · obtain ⟨px2, py2, e, h1, h2, _⟩ := tick_any s px py gx gy v hx hy hgx hgy hv hgxb hgyb hΦ
      hv0 hv1
    exact ⟨px2, py2, e, h1, h2⟩

/-- C14 in the example scenario: the 41st tick of the move from `(-200, 150)` to
`(-300, 150)` integrates x to the double -298.39999999999975, which is within 2.4 of
-300, and sets x to exactly -300. -/
theorem snap_to_goal_witness :
    (simulateMotors^[40] (move_to scenario (F64.fin (-300)) (F64.fin 150))).x_goal
      = F64.fin (-300) ∧
    F64.add (simulateMotors^[40] (move_to scenario (F64.fin (-300)) (F64.fin 150))).x
      (F64.mul (velocity (simulateMotors^[40]
        (move_to scenario (F64.fin (-300)) (F64.fin 150)))).1 lit_0_02)
      = F64.fin (-2624754157826865 / 8796093022208) ∧
    (simulateMotors (simulateMotors^[40]
      (move_to scenario (F64.fin (-300)) (F64.fin 150)))).x = F64.fin (-300) :=
  ⟨by rw [scenario_tick40]; rfl, by rw [scenario_tick40]; decide!,
    ((snap_to_goal (simulateMotors^[40] (move_to scenario (F64.fin (-300)) (F64.fin 150)))).1
      (-300) (-2624754157826865 / 8796093022208) (by rw [scenario_tick40]; rfl)
      (by rw [scenario_tick40]; decide!)).2
      (by norm_num [abs_le])⟩

/-- C14 as stated fails: two ticks after `move_to (0, 1e307)` from the start-up state the
y coordinate is NaN; after one more tick it is still NaN, which neither equals the goal
value nor is more than 2.4 away from it. -/
theorem snap_to_goal_counterexample :
    (simulateMotors nanState).y = F64.nan ∧
    F64.eq (simulateMotors nanState).y_goal (simulateMotors nanState).y = false ∧
    F64.lt lit_2_4 (F64.fabs (F64.sub (simulateMotors nanState).y_goal
      (simulateMotors nanState).y)) = false := by
  decide!

/-- C16 (as amended): let Position and Goal be finite doubles, Goal within `2 ^ 20` of the
origin on both axes, the total distance at most `2 ^ 20`, VelocityScale in [0,1], and each
axis at its goal or more than 2.4 from it.  Then one tick does not increase the distance
to the goal on either axis and does not move an axis past its goal: the new coordinate
lies between the old coordinate and the goal value, inclusive; and each axis is again at
its goal or more than 2.4 from it.  The last holds after a tick from every state with
finite Position, such a Goal, total distance and VelocityScale, whether or not the axes
were more than 2.4 from their goals before. -/
theorem no_overshoot (s : State) (px py gx gy v : ℚ) (hx : s.x = F64.fin px)
    (hy : s.y = F64.fin py) (hgx : s.x_goal = F64.fin gx) (hgy : s.y_goal = F64.fin gy)
    (hv : s.v_scale = F64.fin v) (hpx : round px = F64.fin px) (hpy : round py = F64.fin py)
    (hgx2 : round gx = F64.fin gx) (hgy2 : round gy = F64.fin gy)
    (hgxb : |gx| ≤ 2 ^ (20 : ℕ)) (hgyb : |gy| ≤ 2 ^ (20 : ℕ))
    (hΦ : |gx - px| + |gy - py| ≤ 2 ^ (20 : ℕ))
    (hJx : px = gx ∨ 24 / 10 < |gx - px|) (hJy : py = gy ∨ 24 / 10 < |gy - py|)
    (hv0 : 0 ≤ v) (hv1 : v ≤ 1) :
    (∃ px2 py2 : ℚ, simulateMotors s = { s with x := F64.fin px2, y := F64.fin py2 } ∧
      |gx - px2| ≤ |gx - px| ∧ |gy - py2| ≤ |gy - py| ∧
      ((px ≤ px2 ∧ px2 ≤ gx) ∨ (gx ≤ px2 ∧ px2 ≤ px)) ∧
      ((py ≤ py2 ∧ py2 ≤ gy) ∨ (gy ≤ py2 ∧ py2 ≤ py)) ∧
      (px2 = gx ∨ 24 / 10 < |gx - px2|) ∧ (py2 = gy ∨ 24 / 10 < |gy - py2|)) ∧
    (∀ (t : State) (qx qy : ℚ), t.x = F64.fin qx → t.y = F64.fin qy →
      t.x_goal = F64.fin gx → t.y_goal = F64.fin gy → t.v_scale = F64.fin v →
      |gx - qx| + |gy - qy| ≤ 2 ^ (20 : ℕ) →
      ∃ qx2 qy2 : ℚ, simulateMotors t = { t with x := F64.fin qx2, y := F64.fin qy2 } ∧
        (qx2 = gx ∨ 24 / 10 < |gx - qx2|) ∧ (qy2 = gy ∨ 24 / 10 < |gy - qy2|)) := by
  have hbetween : ∀ p p2 g : ℚ, (p ≤ p2 ∧ p2 ≤ g) ∨ (g ≤ p2 ∧ p2 ≤ p) →
      |g - p2| ≤ |g - p| := by
    intro p p2 g h
    rcases h with ⟨h1, h2⟩ | ⟨h1, h2⟩
    · rw [abs_of_nonneg (by linarith), abs_of_nonneg (by linarith)]
      linarith
    · rw [abs_of_nonpos (by linarith), abs_of_nonpos (by linarith)]
      linarith
  constructor
  · by_cases hg : px = gx ∧ py = gy
    · have hfix : simulateMotors s = s := by
        apply tick_fixed s
        · rw [hx]
          simp [F64.isFinite, hpx]
        · rw [hy]
          simp [F64.isFinite, hpy]
        · unfold atGoal
          rw [hx, hy, hgx, hgy, hg.1, hg.2]
          simp [F64.eq]
      refine ⟨px, py, ?_, le_refl _, le_refl _, Or.inl ⟨le_refl _, by rw [hg.1]⟩,
        Or.inl ⟨le_refl _, by rw [hg.2]⟩, hJx, hJy⟩
      rw [hfix, ← hx, ← hy]
    · obtain ⟨px2, py2, e, hJx2, hJy2, _, _, _, hbx, hby⟩ := tick_step s px py gx gy v hx hy hgx
        hgy hv hgx2 hgy2 hgxb hgyb (le_trans hΦ (by norm_num)) hJx hJy hv0 hv1 hg
      exact ⟨px2, py2, e, hbetween _ _ _ (hbx hpx), hbetween _ _ _ (hby hpy), hbx hpx, hby hpy,
        hJx2, hJy2⟩
  · intro t qx qy htx hty htgx htgy htv htΦ
    obtain ⟨qx2, qy2, e, h1, h2, _⟩ := tick_any t qx qy gx gy v htx hty htgx htgy htv hgxb hgyb
      htΦ hv0 hv1
    exact ⟨qx2, qy2, e, h1, h2⟩

/-- C16 in the example scenario after `move_to (-300, 150)`: the first tick leaves the
carriage between `(-200, 150)` and `(-300, 150)`. -/
theorem no_overshoot_witness :
    ∃ px2 py2 : ℚ,
      simulateMotors (move_to scenario (F64.fin (-300)) (F64.fin 150))
        = { move_to scenario (F64.fin (-300)) (F64.fin 150) with
            x := F64.fin px2, y := F64.fin py2 } ∧
      |-300 - px2| ≤ |(-300 : ℚ) - -200| ∧ |150 - py2| ≤ |(150 : ℚ) - 150| ∧
      ((-200 ≤ px2 ∧ px2 ≤ -300) ∨ (-300 ≤ px2 ∧ px2 ≤ -200)) ∧
      ((150 ≤ py2 ∧ py2 ≤ 150) ∨ (150 ≤ py2 ∧ py2 ≤ 150)) ∧
      (px2 = -300 ∨ 24 / 10 < |-300 - px2|) ∧ (py2 = 150 ∨ 24 / 10 < |150 - py2|) :=
  (no_overshoot (move_to scenario (F64.fin (-300)) (F64.fin 150)) (-200) 150 (-300) 150 1
    rfl rfl rfl rfl rfl (by decide!) (by decide!) (by decide!) (by decide!)
    (by norm_num [abs_le]) (by norm_num [abs_le]) (by norm_num) (Or.inr (by norm_num))
    (Or.inl rfl) (by norm_num) (by norm_num)).1

/-- C16 as stated fails: from Position `(0, 0)` with VelocityScale 1 and the goal
`(1e-17, 0)`, one tick moves x to the double 2.4000000000000004: past the goal, and
farther from it than before; the computed distance exceeds the double 2.4, so the axis is
not snapped. -/
theorem no_overshoot_counterexample :
    (move_to mainInit (round (1 / 10 ^ 17)) (F64.fin 0)).x = F64.fin 0 ∧
    (move_to mainInit (round (1 / 10 ^ 17)) (F64.fin 0)).v_scale = F64.fin 1 ∧
    (simulateMotors (move_to mainInit (round (1 / 10 ^ 17)) (F64.fin 0))).x
      = F64.fin (1351079888211149 / 562949953421312) ∧
    F64.lt (F64.fin 0) (round (1 / 10 ^ 17)) = true ∧
    F64.lt (round (1 / 10 ^ 17)) (F64.fin (1351079888211149 / 562949953421312)) = true ∧
    F64.lt (F64.fabs (F64.sub (round (1 / 10 ^ 17)) (F64.fin 0)))
      (F64.fabs (F64.sub (round (1 / 10 ^ 17))
        (F64.fin (1351079888211149 / 562949953421312)))) = true := by
  decide!

end RvcSim
